import Mathlib

/-!
Verification of the transcription job orchestrator in `main.js`.

The development shallowly embeds the job handler `job:transcribe` and its
helper functions.  Paths are plain strings over a POSIX-style separator `/`;
the Node `path` functions used by the source (`dirname`, `basename`,
`extname`, `join`, `normalize`) are modelled at the character-list level for
paths that do not end in a separator (the only paths the orchestrator ever
receives).  The filesystem is a finite map from path strings to file
contents together with injectable fault predicates for exactly the three
probes the source wraps in try/catch (`readdirSync`, `statSync`,
`unlinkSync`); `writeFileSync`/`readFileSync` are modelled as total, i.e. the
fault model covers the failures the code handles rather than arbitrary
environment crashes.  External processes (ffmpeg, the whisper binary) are
oracles supplied by an `Env`: each invocation yields captured stdout/stderr,
an exit code, and the set of files the external tool wrote.
-/

/-- Lower-case a character list (models JavaScript `toLowerCase` for the
ASCII path text handled here). -/
def lowerChars (cs : List Char) : List Char := cs.map Char.toLower

/-- Split a character list at every occurrence of `sep`.  Always returns a
non-empty list of groups; groups do not contain `sep`. -/
def splitChar (sep : Char) : List Char → List (List Char)
  | [] => [[]]
  | c :: cs =>
    match splitChar sep cs with
    | [] => [[]]
    | g :: gs => if c = sep then [] :: g :: gs else (c :: g) :: gs

/-- Interleave `sep` between groups; left inverse of `splitChar`. -/
def joinSep (sep : Char) : List (List Char) → List Char
  | [] => []
  | [g] => g
  | g :: g' :: gs => g ++ sep :: joinSep sep (g' :: gs)

/-- Split a character list around its last `'.'`: returns the part before
and the part after, or `none` when there is no dot. -/
def lastDotSplit : List Char → Option (List Char × List Char)
  | [] => none
  | c :: cs =>
    match lastDotSplit cs with
    | some (a, b) => some (c :: a, b)
    | none => if c = '.' then some ([], cs) else none

/-- Last path component (Node `path.basename` for paths without trailing
separator). -/
def baseNameCh (cs : List Char) : List Char := (splitChar '/' cs).getLastD []

/-- Directory part (Node `path.dirname` for paths without trailing
separator). -/
def dirNameCh (cs : List Char) : List Char :=
  match splitChar '/' cs with
  | [] => ['.']
  | [_] => ['.']
  | parts =>
    let d := joinSep '/' parts.dropLast
    if d = [] then ['/'] else d

/-- Extension including the dot (Node `path.extname`): the suffix of the
basename from its last dot, empty when the only dot is leading or there is
no dot. -/
def extNameCh (cs : List Char) : List Char :=
  match lastDotSplit (baseNameCh cs) with
  | some (a, e) => if a = [] then [] else '.' :: e
  | none => []

/-- Basename with a known extension stripped (Node `path.basename(p, ext)`):
the suffix is removed when it matches and is not the whole basename. -/
def baseNameExtCh (cs ext : List Char) : List Char :=
  let b := baseNameCh cs
  if ext ≠ [] ∧ ext.isSuffixOf b ∧ b ≠ ext then b.take (b.length - ext.length) else b

/-- String wrapper for `lowerChars`. -/
def strLower (s : String) : String := String.mk (lowerChars s.toList)

/-- Node `path.dirname`. -/
def pathDirname (p : String) : String := String.mk (dirNameCh p.toList)

/-- Node `path.basename`. -/
def pathBasename (p : String) : String := String.mk (baseNameCh p.toList)

/-- Node `path.extname`. -/
def pathExtname (p : String) : String := String.mk (extNameCh p.toList)

/-- Node `path.basename(p, ext)`. -/
def pathBasenameExt (p ext : String) : String :=
  String.mk (baseNameExtCh p.toList ext.toList)

/-- Node `path.join(a, b)` for a normalized directory `a` (no trailing
separator) and a separator-free component `b`. -/
def pathJoin (a b : String) : String := a ++ "/" ++ b

/-- Last `n` characters. -/
def takeRightCh (n : Nat) (cs : List Char) : List Char := cs.drop (cs.length - n)

/-- All but the last `n` characters. -/
def dropRightCh (n : Nat) (cs : List Char) : List Char := cs.take (cs.length - n)

/-- The canonical output path: `main.js` line 68,
`path.join(dir, base + ".txt")` with `dir`/`base` derived from the input. -/
def desiredTxtOf (audioPath : String) : String :=
  pathJoin (pathDirname audioPath)
    (pathBasenameExt audioPath (pathExtname audioPath) ++ ".txt")

/-- Whether the input already is a WAV file: `main.js` line 71,
`path.extname(audioPath).toLowerCase() === '.wav'`. -/
def isWavOf (audioPath : String) : Bool :=
  strLower (pathExtname audioPath) == ".wav"

/-- The sibling temporary waveform path: `main.js` line 72,
`path.join(dir, base + "__whisper_tmp.wav")`. -/
def tempWavOf (audioPath : String) : String :=
  pathJoin (pathDirname audioPath)
    (pathBasenameExt audioPath (pathExtname audioPath) ++ "__whisper_tmp.wav")

/-- The waveform path handed to the transcriber: the input itself when it is
already WAV, otherwise the temporary path (`main.js` line 72). -/
def wavForWhisperOf (audioPath : String) : String :=
  if isWavOf audioPath then audioPath else tempWavOf audioPath

/-- The diagnostic log path: `main.js` line 131,
`desiredTxt.replace(/\.txt$/i, '.log.txt')` — a case-insensitive match of
`.txt` at the end is replaced, otherwise the string is unchanged. -/
def diagnosticPathOf (p : String) : String :=
  if lowerChars (takeRightCh 4 p.toList) = ".txt".toList
  then String.mk (dropRightCh 4 p.toList ++ ".log.txt".toList) else p

/-- `main.js` line 186: `path.normalize(p).toLowerCase()`, modelled for the
already-normalized paths compared by the orchestrator. -/
def normalizeLower (p : String) : String := strLower p

/-- JavaScript `String.prototype.trim()`: strip whitespace from both ends
(modelled with the Unicode whitespace predicate on characters). -/
def strTrim (s : String) : String :=
  String.mk (((s.toList.dropWhile Char.isWhitespace).reverse.dropWhile
    Char.isWhitespace).reverse)

/-- One file on disk: its full path, its content, and its modification
time in milliseconds (`stat.mtimeMs`).  The byte size of the file is
`content.length`. -/
structure FileEntry where
  path : String
  content : String
  mtimeMs : Int
deriving Repr, DecidableEq

/-- The filesystem: a list of files with distinct paths, a clock used to
stamp orchestrator writes, and fault switches for exactly the probes the
source guards with try/catch (`readdirSync`, `statSync`, `unlinkSync`). -/
structure FS where
  files : List FileEntry
  clock : Int
  readdirFails : String → Bool
  statFails : String → Bool
  unlinkFails : String → Bool

/-- First (hence, by the upsert discipline, only) entry at a path. -/
def FS.lookup (fs : FS) (p : String) : Option FileEntry :=
  fs.files.find? (fun e => e.path == p)

/-- `fs.statSync(p)`: fails (returns `none`, modelling the thrown error)
when the stat fault is set or the file is absent. -/
def FS.statSync (fs : FS) (p : String) : Option FileEntry :=
  if fs.statFails p then none else fs.lookup p

/-- `fs.existsSync(p)`: never throws; reports `false` on any stat error. -/
def FS.existsSync (fs : FS) (p : String) : Bool := (fs.statSync p).isSome

/-- Insert or overwrite a file, keeping paths unique. -/
def FS.upsert (fs : FS) (e : FileEntry) : FS :=
  { fs with files := e :: fs.files.filter (fun e' => e'.path != e.path) }

/-- `fs.writeFileSync(p, c)`: total in this model; stamps the clock. -/
def FS.writeFileSync (fs : FS) (p c : String) : FS :=
  { fs.upsert { path := p, content := c, mtimeMs := fs.clock } with
      clock := fs.clock + 1 }

/-- `fs.readFileSync(p, 'utf8')`: the orchestrator only reads files it has
just successfully stat'ed, so the absent case (arbitrarily `""`) is never
reached on the paths the code takes. -/
def FS.readFileSync (fs : FS) (p : String) : String :=
  match fs.lookup p with
  | some e => e.content
  | none => ""

/-- Remove the entry at `p` (the effect of a successful `unlinkSync`). -/
def FS.erase (fs : FS) (p : String) : FS :=
  { fs with files := fs.files.filter (fun e => e.path != p) }

/-- `main.js` line 185: `safeUnlink` — `unlinkSync` with every failure
silently swallowed, so a faulted unlink leaves the filesystem unchanged. -/
def safeUnlink (fs : FS) (p : String) : FS :=
  if fs.unlinkFails p then fs else fs.erase p

/-- `main.js` lines 173-176: `listTxt(dir)` — list the directory, keep the
names whose lower-cased form ends in `.txt`, and join them back onto the
directory; a failed directory listing yields the empty list. -/
def listTxt (fs : FS) (dir : String) : List String :=
  if fs.readdirFails dir then []
  else
    ((fs.files.filter (fun e => pathDirname e.path == dir)).map
        (fun e => pathBasename e.path)
      |>.filter (fun f => (".txt".toList).isSuffixOf (lowerChars f.toList))
      |>.map (fun f => pathJoin dir f))

/-- `main.js` lines 177-183: `newestByMtime` — fold over the candidate
paths keeping the strictly largest mtime, starting from `(null, -1)`;
a failed stat skips the candidate. -/
def newestStep (fs : FS) (acc : Option String × Int) (p : String) :
    Option String × Int :=
  match fs.statSync p with
  | none => acc
  | some e => if e.mtimeMs > acc.2 then (some p, e.mtimeMs) else acc

/-- `newestByMtime(paths)` itself. -/
def newestByMtime (fs : FS) (ps : List String) : Option String :=
  (ps.foldl (newestStep fs) (none, -1)).1

/-- `main.js` line 184: `fileNonEmpty` — stat size strictly positive, any
stat failure counts as empty. -/
def fileNonEmpty (fs : FS) (p : String) : Bool :=
  match fs.statSync p with
  | none => false
  | some e => 0 < e.content.length

/-- `main.js` line 187: `cleanupTemp` — delete the temporary waveform
unless the input was already a WAV file. -/
def cleanupTemp (fs : FS) (wavPath : String) (wasWavInput : Bool) : FS :=
  if wasWavInput then fs else safeUnlink fs wavPath

/-- The `job:transcribe` payload (`main.js` line 61).  `none` models a
missing field; JavaScript falsiness of empty strings is reproduced at each
use site. -/
structure Payload where
  audioPath : Option String
  whisperBin : Option String
  modelPath : Option String
  language : Option String
  noTimestamps : Bool

/-- The value resolved by the `job:transcribe` handler. -/
structure JobResult where
  ok : Bool
  outputPath : Option String
  error : Option String
  note : Option String
deriving Repr, DecidableEq

/-- What one invocation of the transcriber binary did: captured stdout and
stderr, the child's exit status, and the files the external tool wrote
while running. -/
structure AttemptOutcome where
  stdout : String
  stderr : String
  exitCode : Int
  writes : List FileEntry

/-- What the single ffmpeg run did: either the spawn failed outright
(`error` event), or the child ran to completion with an exit code, possibly
having written the output file, and with accumulated stderr. -/
inductive ConvOutcome where
  | notFound (msg : String)
  | ran (exitCode : Int) (written : Option (String × Int)) (errBuf : String)

/-- The external world for one job: platform flag, the ffmpeg oracle, and
the transcriber oracle indexed by attempt number. -/
structure Env where
  win32 : Bool
  conv : ConvOutcome
  attempts : Nat → AttemptOutcome

/-- Observable actions the orchestrator itself performs, recorded in order:
converter invocation, transcriber invocation, the direct-path check, the
heuristic directory scan (with the snapshot it compared against and the
candidate set it computed), orchestrator file writes and unlink attempts. -/
inductive Ev where
  | convert (outWav : String)
  | invoke (i : Nat) (bin : String) (args : List String)
  | directCheck (i : Nat) (path : String) (hit : Bool)
  | heuristicScan (i : Nat) (snapshot : List String) (candidates : List String)
  | writeFile (path : String)
  | unlink (path : String)
deriving Repr, DecidableEq

/-- `main.js` lines 162-171: `execFileSafe` resolves with the captured
stdout/stderr unconditionally — the exit code is never consulted. -/
def execFileSafe (o : AttemptOutcome) : String × String := (o.stdout, o.stderr)

/-- `ffmpeg failed` message tail: `errBuf.split('\n').slice(-10).join('\n')`. -/
def lastTenLines (s : String) : String :=
  String.intercalate "\n" (((s.splitOn "\n").reverse.take 10).reverse)

/-- `main.js` lines 145-160: `convertToWav` — apply whatever ffmpeg wrote,
then succeed only when the exit code is zero and the output file exists and
is non-empty; otherwise produce the rejection message. -/
def convertToWav (fs : FS) (c : ConvOutcome) (outWav : String) :
    FS × Option String :=
  match c with
  | ConvOutcome.notFound m =>
    (fs, some ("ffmpeg not found. Please install ffmpeg and make sure it's on PATH. (" ++ m ++ ")"))
  | ConvOutcome.ran code written errBuf =>
    let fs1 := match written with
      | none => fs
      | some (content, t) => fs.upsert { path := outWav, content := content, mtimeMs := t }
    if code == 0 && fs1.existsSync outWav && fileNonEmpty fs1 outWav then (fs1, none)
    else (fs1, some ("ffmpeg failed (code " ++ toString code ++ "). " ++ lastTenLines errBuf))

/-- `main.js` lines 80-82: binary selection with JavaScript truthiness. -/
def pickBin (pl : Payload) (fs : FS) (win32 : Bool) : String :=
  let dflt := if win32 then "whisper-cli" else "whisper"
  match pl.whisperBin with
  | some b => if b != "" && fs.existsSync b then b else dflt
  | none => dflt

/-- `main.js` lines 84-87: the common flags shared by all variants. -/
def commonArgs (pl : Payload) (fs : FS) : List String :=
  (match pl.language with
    | some l => if l != "" then ["-l", l] else []
    | none => []) ++
  (if pl.noTimestamps then ["--no-timestamps"] else []) ++
  (match pl.modelPath with
    | some m => if m != "" && fs.existsSync m then ["-m", m] else []
    | none => [])

/-- `main.js` lines 89-94: the fixed, ordered invocation variants. -/
def variantsFor (wav out dir : String) (common : List String) :
    List (List String) :=
  [["-f", wav, "-otxt", "-of", out] ++ common,
   ["-f", wav, "-otxt", "--output-file", out] ++ common,
   ["-f", wav, "-otxt", "-o", dir] ++ common,
   ["-f", wav, "-otxt"] ++ common]

/-- Trace of the cleanup call: an unlink attempt unless the input was WAV. -/
def cleanupEvs (wav : String) (isWav : Bool) : List Ev :=
  if isWav then [] else [Ev.unlink wav]

/-- Result of the variant loop: final filesystem, last captured
stdout/stderr, the loop's trace, and the early-return result if any. -/
structure LoopOut where
  fs : FS
  lastOut : String
  lastErr : String
  trace : List Ev
  result : Option JobResult

/-- `main.js` lines 100-120: the variant loop.  For each variant in order:
run the transcriber (the oracle's writes land on disk, stdout/stderr are
captured); check the canonical path directly; otherwise diff the fresh
directory listing against the fixed pre-attempt snapshot `pre`, pick the
newest new `.txt`, and on a non-empty hit copy it into the canonical path,
delete the original when it normalizes differently, clean up, and return.
Inconclusive attempts fall through to the next variant. -/
def runAttempts (env : Env) (bin out dir wav : String) (isWav : Bool)
    (pre : List String) :
    Nat → List (List String) → FS → String → String → LoopOut
  | _, [], fs, lo, le =>
    { fs := fs, lastOut := lo, lastErr := le, trace := [], result := none }
  | i, args :: rest, fs, _, _ =>
    let o := env.attempts i
    let cap := execFileSafe o
    let fsA := o.writes.foldl FS.upsert fs
    let direct := fsA.existsSync out && fileNonEmpty fsA out
    let ev0 := [Ev.invoke i bin args, Ev.directCheck i out direct]
    if direct then
      { fs := cleanupTemp fsA wav isWav, lastOut := cap.1, lastErr := cap.2,
        trace := ev0 ++ cleanupEvs wav isWav,
        result := some { ok := true, outputPath := some out, error := none, note := none } }
    else
      let after := (listTxt fsA dir).filter (fun p => !(pre.contains p))
      let ev1 := ev0 ++ [Ev.heuristicScan i pre after]
      match newestByMtime fsA after with
      | some nw =>
        if fileNonEmpty fsA nw then
          let text := fsA.readFileSync nw
          let fsB := fsA.writeFileSync out text
          let doUnlink := normalizeLower nw != normalizeLower out
          let fsC := if doUnlink then safeUnlink fsB nw else fsB
          { fs := cleanupTemp fsC wav isWav, lastOut := cap.1, lastErr := cap.2,
            trace := ev1 ++ [Ev.writeFile out] ++
              (if doUnlink then [Ev.unlink nw] else []) ++ cleanupEvs wav isWav,
            result := some { ok := true, outputPath := some out, error := none, note := none } }
        else
          let r := runAttempts env bin out dir wav isWav pre (i + 1) rest fsA cap.1 cap.2
          { r with trace := ev1 ++ r.trace }
      | none =>
        let r := runAttempts env bin out dir wav isWav pre (i + 1) rest fsA cap.1 cap.2
        { r with trace := ev1 ++ r.trace }

/-- `main.js` lines 132-135: the diagnostic log body, with `(empty)`
placeholders for blank captures. -/
def diagContent (out err : String) : String :=
  "--- STDOUT ---\n" ++ (if out = "" then "(empty)" else out) ++ "\n\n" ++
  "--- STDERR ---\n" ++ (if err = "" then "(empty)" else err) ++ "\n"

/-- `main.js` line 137: the failure message carrying the log path. -/
def failureMsg (diag : String) : String :=
  "Transcription finished but no .txt file was found. Saved logs to " ++ diag

/-- `main.js` lines 121-137: what the handler does once the variant loop
has finished — return the loop's own result if it found one, otherwise the
stdout fallback (lines 122-128), otherwise the diagnostic-log failure path
(lines 130-137).  Every branch ends in `cleanupTemp`. -/
def afterLoop (out diag wav : String) (isWav : Bool) (evC : List Ev)
    (L : LoopOut) : JobResult × FS × List Ev :=
  match L.result with
  | some r => (r, L.fs, evC ++ L.trace)
  | none =>
    if L.lastOut != "" && strTrim L.lastOut != "" then
      ({ ok := true, outputPath := some out, error := none,
         note := some "Saved from stdout fallback." },
       cleanupTemp (L.fs.writeFileSync out L.lastOut) wav isWav,
       evC ++ L.trace ++ [Ev.writeFile out] ++ cleanupEvs wav isWav)
    else
      ({ ok := false, outputPath := none, error := some (failureMsg diag),
         note := none },
       cleanupTemp (L.fs.writeFileSync diag (diagContent L.lastOut L.lastErr)) wav isWav,
       evC ++ L.trace ++ [Ev.writeFile diag] ++ cleanupEvs wav isWav)

/-- `main.js` lines 59-141: the `job:transcribe` handler.  Validates the
input path, converts to WAV when needed, runs the variant loop, then the
stdout fallback, then the diagnostic-log failure path; every exit after a
successful conversion goes through `cleanupTemp`.  Returns the job result,
the final filesystem, and the orchestrator's action trace. -/
def transcribeJob (env : Env) (fs0 : FS) (pl : Payload) :
    JobResult × FS × List Ev :=
  match pl.audioPath with
  | none =>
    ({ ok := false, outputPath := none,
       error := some "Audio path is empty or not found.", note := none }, fs0, [])
  | some audioPath =>
    if audioPath == "" || !(fs0.existsSync audioPath) then
      ({ ok := false, outputPath := none,
         error := some "Audio path is empty or not found.", note := none }, fs0, [])
    else
      let dir := pathDirname audioPath
      let out := desiredTxtOf audioPath
      let isWav := isWavOf audioPath
      let wav := wavForWhisperOf audioPath
      let conv : FS × Option String × List Ev :=
        if isWav then (fs0, none, [])
        else
          let c := convertToWav fs0 env.conv wav
          (c.1, c.2, [Ev.convert wav])
      match conv with
      | (fs1, some msg, evC) =>
        ({ ok := false, outputPath := none, error := some msg, note := none }, fs1, evC)
      | (fs1, none, evC) =>
        let bin := pickBin pl fs1 env.win32
        let vs := variantsFor wav out dir (commonArgs pl fs1)
        let pre := listTxt fs1 dir
        afterLoop out (diagnosticPathOf out) wav isWav evC
          (runAttempts env bin out dir wav isWav pre 0 vs fs1 "" "")

/-- The filesystem after the external tool's writes of attempts
`0 … n-1` have landed, starting from the post-conversion state `fs`.
While no attempt has matched, this is exactly the loop's filesystem,
since the orchestrator writes nothing before its first match. -/
def attemptsFS (env : Env) (fs : FS) : Nat → FS
  | 0 => fs
  | n + 1 => (env.attempts n).writes.foldl FS.upsert (attemptsFS env fs n)

/-- Restatement of the loop's direct check for attempt `i` as a pure
predicate of the environment. -/
def directHit (env : Env) (fs : FS) (out : String) (i : Nat) : Bool :=
  (attemptsFS env fs (i + 1)).existsSync out &&
    fileNonEmpty (attemptsFS env fs (i + 1)) out

/-- Restatement of the loop's heuristic candidate set for attempt `i`. -/
def heurCands (env : Env) (fs : FS) (dir : String) (pre : List String)
    (i : Nat) : List String :=
  (listTxt (attemptsFS env fs (i + 1)) dir).filter (fun p => !(pre.contains p))

/-- Restatement of the loop's heuristic check for attempt `i`. -/
def heurHit (env : Env) (fs : FS) (dir : String) (pre : List String)
    (i : Nat) : Bool :=
  match newestByMtime (attemptsFS env fs (i + 1)) (heurCands env fs dir pre i) with
  | some nw => fileNonEmpty (attemptsFS env fs (i + 1)) nw
  | none => false

/-- Attempt `i` resolves (directly or heuristically). -/
def anyHit (env : Env) (fs : FS) (out dir : String) (pre : List String)
    (i : Nat) : Bool :=
  directHit env fs out i || heurHit env fs dir pre i

/-- The index of an invocation event. -/
def invIdx : Ev → Option Nat
  | Ev.invoke i _ _ => some i
  | _ => none

/-- The common stem `<dir>/<base>` from which the canonical output, the
temporary waveform and the diagnostic log paths are all built. -/
def stemOf (a : String) : String :=
  pathDirname a ++ "/" ++ pathBasenameExt a (pathExtname a)

/-- The trace produced by a run of the variant loop in which no attempt
matches: each attempt contributes its invocation, a failed direct check and
a heuristic scan against the fixed snapshot `pre`. -/
def scanTrace (env : Env) (fs1 : FS) (bin out dir : String)
    (pre : List String) : Nat → List (List String) → List Ev
  | _, [] => []
  | i, args :: rest =>
    [Ev.invoke i bin args, Ev.directCheck i out false,
      Ev.heuristicScan i pre (heurCands env fs1 dir pre i)] ++
      scanTrace env fs1 bin out dir pre (i + 1) rest

/-- The stdout captured after `n` further attempts starting at index `i`,
given the capture `lo` held beforehand. -/
def lastOutN (env : Env) (lo : String) (i : Nat) : Nat → String
  | 0 => lo
  | n + 1 => (env.attempts (i + n)).stdout

/-- The stderr captured after `n` further attempts starting at index `i`. -/
def lastErrN (env : Env) (le : String) (i : Nat) : Nat → String
  | 0 => le
  | n + 1 => (env.attempts (i + n)).stderr

theorem splitChar_ne_nil (sep : Char) (cs : List Char) : splitChar sep cs ≠ [] := by
  cases cs with
  | nil => simp [splitChar]
  | cons c cs =>
    simp only [splitChar]
    rcases h : splitChar sep cs with _ | ⟨g, gs⟩
    · simp
    · by_cases hc : c = sep <;> simp [hc]

theorem splitChar_cons_eq {sep c : Char} {cs : List Char} {g : List Char}
    {gs : List (List Char)} (e : splitChar sep cs = g :: gs) :
    splitChar sep (c :: cs) =
      if c = sep then [] :: g :: gs else (c :: g) :: gs := by
  simp [splitChar, e]

theorem splitChar_append (sep : Char) (xs ys : List Char) :
    splitChar sep (xs ++ sep :: ys) = splitChar sep xs ++ splitChar sep ys := by
  induction xs with
  | nil =>
    rcases h : splitChar sep ys with _ | ⟨g, gs⟩
    · exact absurd h (splitChar_ne_nil sep ys)
    · rw [List.nil_append, splitChar_cons_eq h, if_pos rfl]
      rfl
  | cons c cs ih =>
    rcases h : splitChar sep cs with _ | ⟨g, gs⟩
    · exact absurd h (splitChar_ne_nil sep cs)
    · have hL : splitChar sep (cs ++ sep :: ys) = (g :: gs) ++ splitChar sep ys := by
        rw [ih, h]
      rw [List.cons_append, splitChar_cons_eq (by simpa using hL), splitChar_cons_eq h]
      by_cases hc : c = sep <;> simp [hc]

theorem splitChar_of_not_mem {sep : Char} {ys : List Char} (h : sep ∉ ys) :
    splitChar sep ys = [ys] := by
  induction ys with
  | nil => rfl
  | cons c cs ih =>
    simp only [List.mem_cons, not_or] at h
    have hc : c ≠ sep := fun hc => h.1 hc.symm
    rw [splitChar_cons_eq (ih h.2), if_neg hc]

theorem mem_splitChar_not_mem {sep : Char} {cs : List Char} {g : List Char}
    (hg : g ∈ splitChar sep cs) : sep ∉ g := by
  induction cs generalizing g with
  | nil =>
    simp only [splitChar, List.mem_singleton] at hg
    simp [hg]
  | cons c cs ih =>
    rcases e : splitChar sep cs with _ | ⟨g', gs⟩
    · exact absurd e (splitChar_ne_nil sep cs)
    · rw [splitChar_cons_eq e] at hg
      by_cases hc : c = sep
      · rw [if_pos hc] at hg
        rcases List.mem_cons.mp hg with rfl | hg2
        · simp
        · exact ih (by rw [e]; exact hg2)
      · rw [if_neg hc] at hg
        rcases List.mem_cons.mp hg with rfl | hg2
        · have hg' : sep ∉ g' := ih (by rw [e]; exact List.mem_cons_self g' gs)
          intro hm
          rcases List.mem_cons.mp hm with h1 | h1
          · exact hc h1.symm
          · exact hg' h1
        · exact ih (by rw [e]; exact List.mem_cons_of_mem g' hg2)

theorem joinSep_splitChar (sep : Char) (cs : List Char) :
    joinSep sep (splitChar sep cs) = cs := by
  induction cs with
  | nil => rfl
  | cons c cs ih =>
    rcases e : splitChar sep cs with _ | ⟨g, gs⟩
    · exact absurd e (splitChar_ne_nil sep cs)
    · rw [e] at ih
      rw [splitChar_cons_eq e]
      by_cases hc : c = sep
      · rw [if_pos hc, hc]
        show [] ++ sep :: joinSep sep (g :: gs) = sep :: cs
        rw [ih]
        rfl
      · rw [if_neg hc]
        cases gs with
        | nil =>
          simp only [joinSep] at ih ⊢
          rw [ih]
        | cons g' gs' =>
          simp only [joinSep] at ih ⊢
          rw [List.cons_append, ih]

theorem lastDotSplit_of_not_mem {cs : List Char} (h : '.' ∉ cs) :
    lastDotSplit cs = none := by
  induction cs with
  | nil => rfl
  | cons c cs ih =>
    simp only [List.mem_cons, not_or] at h
    have hc : c ≠ '.' := fun hc => h.1 hc.symm
    simp [lastDotSplit, ih h.2, hc]

theorem lastDotSplit_append {b e : List Char} (he : '.' ∉ e) :
    lastDotSplit (b ++ '.' :: e) = some (b, e) := by
  induction b with
  | nil => simp [lastDotSplit, lastDotSplit_of_not_mem he]
  | cons c cs ih => simp [lastDotSplit, ih]

theorem lastDotSplit_recover {cs a b : List Char}
    (h : lastDotSplit cs = some (a, b)) : a ++ '.' :: b = cs := by
  induction cs generalizing a b with
  | nil => simp [lastDotSplit] at h
  | cons c cs ih =>
    rcases e : lastDotSplit cs with _ | ⟨a', b'⟩
    · have hstep : lastDotSplit (c :: cs) =
          if c = '.' then some ([], cs) else none := by
        simp [lastDotSplit, e]
      rw [hstep] at h
      by_cases hc : c = '.'
      · rw [if_pos hc] at h
        simp only [Option.some.injEq, Prod.mk.injEq] at h
        rw [← h.1, ← h.2, hc]
        rfl
      · rw [if_neg hc] at h
        exact absurd h (by simp)
    · have hstep : lastDotSplit (c :: cs) = some (c :: a', b') := by
        simp [lastDotSplit, e]
      rw [hstep] at h
      simp only [Option.some.injEq, Prod.mk.injEq] at h
      rw [← h.1, ← h.2]
      simpa using congrArg (c :: ·) (ih e)

theorem baseNameCh_append {d n : List Char} (hn : '/' ∉ n) :
    baseNameCh (d ++ '/' :: n) = n := by
  unfold baseNameCh
  rw [splitChar_append, splitChar_of_not_mem hn]
  simp

theorem dirNameCh_append {d n : List Char} (hn : '/' ∉ n) (hd : d ≠ []) :
    dirNameCh (d ++ '/' :: n) = d := by
  unfold dirNameCh
  rw [splitChar_append, splitChar_of_not_mem hn]
  rcases h : splitChar '/' d with _ | ⟨g, gs⟩
  · exact absurd h (splitChar_ne_nil '/' d)
  · have hjoin : joinSep '/' (g :: gs) = d := by
      rw [← h]
      exact joinSep_splitChar '/' d
    cases gs with
    | nil =>
      have hg : g = d := by simpa [joinSep] using hjoin
      show (if g = [] then ['/'] else g) = d
      rw [hg, if_neg hd]
    | cons g' gs' =>
      show (if joinSep '/' ((g :: g' :: (gs' ++ [n])).dropLast) = [] then ['/']
        else joinSep '/' ((g :: g' :: (gs' ++ [n])).dropLast)) = d
      rw [show g :: g' :: (gs' ++ [n]) = (g :: g' :: gs') ++ [n] from by simp,
        List.dropLast_concat, hjoin, if_neg hd]

theorem string_data_eq {a b : String} (h : a.toList = b.toList) : a = b :=
  String.ext h

theorem mk_data (s : String) : String.mk s.toList = s := rfl

theorem append_cancel_left_str {s x y : String} (h : s ++ x = s ++ y) : x = y := by
  apply string_data_eq
  have hd := congrArg String.data h
  simp only [String.data_append] at hd
  exact List.append_cancel_left hd

theorem append_ne_of_ne {s x y : String} (hxy : x ≠ y) : s ++ x ≠ s ++ y :=
  fun h => hxy (append_cancel_left_str h)

theorem desiredTxtOf_stem (a : String) : desiredTxtOf a = stemOf a ++ ".txt" := by
  unfold desiredTxtOf stemOf pathJoin
  simp only [String.append_assoc]

theorem tempWavOf_stem (a : String) :
    tempWavOf a = stemOf a ++ "__whisper_tmp.wav" := by
  unfold tempWavOf stemOf pathJoin
  simp only [String.append_assoc]

theorem diagnosticPathOf_append_txt (s : String) :
    diagnosticPathOf (s ++ ".txt") = s ++ ".log.txt" := by
  unfold diagnosticPathOf takeRightCh dropRightCh
  have hdata : (s ++ ".txt").toList = s.toList ++ ".txt".toList :=
    String.data_append s ".txt"
  have hlen : (s ++ ".txt").toList.length - 4 = s.toList.length := by
    rw [hdata]
    simp
  rw [hlen, hdata, List.drop_left, List.take_left]
  have hlow : lowerChars ".txt".toList = ".txt".toList := by decide
  rw [if_pos hlow]
  apply string_data_eq
  simp [String.data_append]

theorem desiredTxt_ne_tempWav (a : String) : desiredTxtOf a ≠ tempWavOf a := by
  rw [desiredTxtOf_stem, tempWavOf_stem]
  exact append_ne_of_ne (by decide)

theorem diag_eq_stem (a : String) :
    diagnosticPathOf (desiredTxtOf a) = stemOf a ++ ".log.txt" := by
  rw [desiredTxtOf_stem, diagnosticPathOf_append_txt]

theorem diag_ne_desiredTxt (a : String) :
    diagnosticPathOf (desiredTxtOf a) ≠ desiredTxtOf a := by
  rw [diag_eq_stem, desiredTxtOf_stem]
  exact append_ne_of_ne (by decide)

theorem diag_ne_tempWav (a : String) :
    diagnosticPathOf (desiredTxtOf a) ≠ tempWavOf a := by
  rw [diag_eq_stem, tempWavOf_stem]
  exact append_ne_of_ne (by decide)

theorem getLastD_suffix_joinSep (sep : Char) :
    ∀ l : List (List Char), l ≠ [] → l.getLastD [] <:+ joinSep sep l := by
  intro l
  induction l with
  | nil => intro h; exact absurd rfl h
  | cons g gs ih =>
    intro _
    cases gs with
    | nil => exact List.suffix_refl g
    | cons g' gs' =>
      have h1 : (g' :: gs').getLastD [] <:+ joinSep sep (g' :: gs') :=
        ih (by simp)
      have h2 : (g :: g' :: gs').getLastD [] = (g' :: gs').getLastD [] := by
        simp [List.getLastD_cons, List.getLastD]
      rw [h2]
      calc (g' :: gs').getLastD [] <:+ joinSep sep (g' :: gs') := h1
        _ <:+ sep :: joinSep sep (g' :: gs') := List.suffix_cons sep _
        _ <:+ g ++ sep :: joinSep sep (g' :: gs') := List.suffix_append g _

theorem baseNameCh_suffix (cs : List Char) : baseNameCh cs <:+ cs := by
  unfold baseNameCh
  have h := getLastD_suffix_joinSep '/' (splitChar '/' cs) (splitChar_ne_nil '/' cs)
  rwa [joinSep_splitChar] at h

theorem extNameCh_suffix {cs : List Char} (h : extNameCh cs ≠ []) :
    extNameCh cs <:+ cs := by
  rcases e : lastDotSplit (baseNameCh cs) with _ | ⟨x, t⟩
  · refine absurd ?_ h
    unfold extNameCh
    rw [e]
  · have hval : extNameCh cs = if x = [] then [] else '.' :: t := by
      unfold extNameCh
      rw [e]
    by_cases hx : x = []
    · rw [hval, if_pos hx] at h
      exact absurd rfl h
    · rw [hval, if_neg hx]
      have hrec : x ++ '.' :: t = baseNameCh cs := lastDotSplit_recover e
      have h1 : '.' :: t <:+ baseNameCh cs := ⟨x, hrec⟩
      exact h1.trans (baseNameCh_suffix cs)

theorem lower_suffix {l₁ l₂ : List Char} (h : l₁ <:+ l₂) :
    lowerChars l₁ <:+ lowerChars l₂ := by
  obtain ⟨t, rfl⟩ := h
  exact ⟨lowerChars t, by simp [lowerChars]⟩

theorem suffix_eq_of_length {l₁ l₂ l : List Char} (h1 : l₁ <:+ l)
    (h2 : l₂ <:+ l) (hl : l₁.length = l₂.length) : l₁ = l₂ := by
  obtain ⟨t1, e1⟩ := h1
  obtain ⟨t2, e2⟩ := h2
  rw [← e2] at e1
  exact (List.append_inj' e1 hl).2

theorem isWav_lower_suffix {a : String} (h : isWavOf a = true) :
    ".wav".toList <:+ lowerChars a.toList := by
  unfold isWavOf strLower at h
  have heq : String.mk (lowerChars (pathExtname a).toList) = ".wav" :=
    beq_iff_eq.mp h
  have hdat : lowerChars (pathExtname a).toList = ".wav".toList :=
    congrArg String.data heq
  have hne : extNameCh a.toList ≠ [] := by
    intro h0
    rw [show (pathExtname a).toList = extNameCh a.toList from rfl, h0] at hdat
    exact absurd hdat (by decide)
  have hsuf : extNameCh a.toList <:+ a.toList := extNameCh_suffix hne
  rw [show (pathExtname a).toList = extNameCh a.toList from rfl] at hdat
  rw [← hdat]
  exact lower_suffix hsuf

theorem lower_append_suffix (s t : String) {x : List Char}
    (hx : x <:+ lowerChars t.toList) : x <:+ lowerChars (s ++ t).toList := by
  rw [show (s ++ t).toList = s.toList ++ t.toList from String.data_append s t]
  unfold lowerChars
  rw [List.map_append]
  exact hx.trans (List.suffix_append _ _)

theorem txt_suffix_stem_txt (s : String) :
    ".txt".toList <:+ lowerChars (s ++ ".txt").toList :=
  lower_append_suffix s ".txt" (by decide)

theorem txt_suffix_stem_log (s : String) :
    ".txt".toList <:+ lowerChars (s ++ ".log.txt").toList :=
  lower_append_suffix s ".log.txt" (by decide)

theorem mem_listTxt_lower {fs : FS} {dir p : String} (h : p ∈ listTxt fs dir) :
    ".txt".toList <:+ lowerChars p.toList := by
  unfold listTxt at h
  by_cases hr : fs.readdirFails dir
  · rw [if_pos hr] at h
    exact absurd h (List.not_mem_nil p)
  · rw [if_neg hr] at h
    obtain ⟨f, hf, rfl⟩ := List.mem_map.mp h
    have hsuf : (".txt".toList).isSuffixOf (lowerChars f.toList) = true :=
      (List.mem_filter.mp hf).2
    have hsuf' : ".txt".toList <:+ lowerChars f.toList :=
      List.isSuffixOf_iff_suffix.mp hsuf
    unfold pathJoin
    rw [String.append_assoc]
    exact lower_append_suffix dir ("/" ++ f)
      (lower_append_suffix "/" f hsuf')

theorem txt_ne_wav {p a : String} (hp : ".txt".toList <:+ lowerChars p.toList)
    (ha : ".wav".toList <:+ lowerChars a.toList) : p ≠ a := by
  intro hpa
  subst hpa
  have := suffix_eq_of_length hp ha (by decide)
  exact absurd this (by decide)

theorem find?_filter_agree {α : Type} (pr flt : α → Bool) (l : List α)
    (h : ∀ a, flt a = false → pr a = false) :
    (l.filter flt).find? pr = l.find? pr := by
  induction l with
  | nil => rfl
  | cons x xs ih =>
    cases hf : flt x
    · have hp : pr x = false := h x hf
      simp [List.filter_cons, List.find?_cons, hf, hp, ih]
    · cases hp : pr x
      · simp [List.filter_cons, List.find?_cons, hf, hp, ih]
      · simp [List.filter_cons, List.find?_cons, hf, hp]

theorem find?_filter_out {α : Type} (pr flt : α → Bool) (l : List α)
    (h : ∀ a, flt a = true → pr a = false) :
    (l.filter flt).find? pr = none := by
  induction l with
  | nil => rfl
  | cons x xs ih =>
    cases hf : flt x
    · simp [List.filter_cons, hf, ih]
    · have hp : pr x = false := h x hf
      simp [List.filter_cons, List.find?_cons, hf, hp, ih]

theorem find?_filter_ne {l : List FileEntry} {q p : String} (hqp : q ≠ p) :
    (l.filter (fun e => e.path != q)).find? (fun e => e.path == p) =
      l.find? (fun e => e.path == p) := by
  refine find?_filter_agree _ _ l ?_
  intro a ha
  simp only [bne_eq_false_iff_eq] at ha
  rw [ha]
  simp [hqp]

theorem find?_filter_self {l : List FileEntry} {q : String} :
    (l.filter (fun e => e.path != q)).find? (fun e => e.path == q) = none := by
  refine find?_filter_out _ _ l ?_
  intro a ha
  simp only [bne_iff_ne, ne_eq] at ha
  simp [ha]

theorem lookup_upsert (fs : FS) (e : FileEntry) (p : String) :
    (fs.upsert e).lookup p = if e.path = p then some e else fs.lookup p := by
  unfold FS.upsert FS.lookup
  by_cases h : e.path = p
  · simp [List.find?_cons, h]
  · have : (e.path == p) = false := by simp [h]
    simp only [List.find?_cons, this, Bool.false_eq_true, if_false, if_neg h]
    exact find?_filter_ne h

theorem lookup_erase (fs : FS) (q p : String) :
    (fs.erase q).lookup p = if p = q then none else fs.lookup p := by
  unfold FS.erase FS.lookup
  by_cases h : p = q
  · subst h
    simp only [if_pos rfl]
    exact find?_filter_self
  · rw [if_neg h]
    exact find?_filter_ne (fun hq => h hq.symm)

theorem upsert_unlinkFails (fs : FS) (e : FileEntry) :
    (fs.upsert e).unlinkFails = fs.unlinkFails := rfl

theorem upsert_statFails (fs : FS) (e : FileEntry) :
    (fs.upsert e).statFails = fs.statFails := rfl

theorem upsert_readdirFails (fs : FS) (e : FileEntry) :
    (fs.upsert e).readdirFails = fs.readdirFails := rfl

theorem foldl_upsert_unlinkFails (ws : List FileEntry) (fs : FS) :
    (ws.foldl FS.upsert fs).unlinkFails = fs.unlinkFails := by
  induction ws generalizing fs with
  | nil => rfl
  | cons w ws ih =>
    rw [List.foldl_cons]
    exact ih (fs.upsert w)

theorem foldl_upsert_statFails (ws : List FileEntry) (fs : FS) :
    (ws.foldl FS.upsert fs).statFails = fs.statFails := by
  induction ws generalizing fs with
  | nil => rfl
  | cons w ws ih =>
    rw [List.foldl_cons]
    exact ih (fs.upsert w)

theorem foldl_upsert_readdirFails (ws : List FileEntry) (fs : FS) :
    (ws.foldl FS.upsert fs).readdirFails = fs.readdirFails := by
  induction ws generalizing fs with
  | nil => rfl
  | cons w ws ih =>
    rw [List.foldl_cons]
    exact ih (fs.upsert w)

theorem lookup_foldl_upsert_not_mem {ws : List FileEntry} {p : String}
    (fs : FS) (h : ∀ e ∈ ws, e.path ≠ p) :
    (ws.foldl FS.upsert fs).lookup p = fs.lookup p := by
  induction ws generalizing fs with
  | nil => rfl
  | cons w ws ih =>
    rw [List.foldl_cons, ih (fs.upsert w) (fun e he => h e (List.mem_cons_of_mem w he)),
      lookup_upsert, if_neg (h w (List.mem_cons_self w ws))]

theorem writeFileSync_unlinkFails (fs : FS) (p c : String) :
    (fs.writeFileSync p c).unlinkFails = fs.unlinkFails := rfl

theorem writeFileSync_statFails (fs : FS) (p c : String) :
    (fs.writeFileSync p c).statFails = fs.statFails := rfl

theorem lookup_writeFileSync_self (fs : FS) (p c : String) :
    (fs.writeFileSync p c).lookup p =
      some { path := p, content := c, mtimeMs := fs.clock } := by
  unfold FS.writeFileSync
  show (fs.upsert _).lookup p = _
  rw [lookup_upsert, if_pos rfl]

theorem lookup_writeFileSync_ne {p q : String} (fs : FS) (c : String)
    (h : p ≠ q) : (fs.writeFileSync p c).lookup q = fs.lookup q := by
  unfold FS.writeFileSync
  show (fs.upsert _).lookup q = _
  rw [lookup_upsert, if_neg h]

theorem safeUnlink_unlinkFails (fs : FS) (p : String) :
    (safeUnlink fs p).unlinkFails = fs.unlinkFails := by
  unfold safeUnlink
  split <;> rfl

theorem lookup_safeUnlink_ne {p q : String} (fs : FS) (h : p ≠ q) :
    (safeUnlink fs q).lookup p = fs.lookup p := by
  unfold safeUnlink
  split
  · rfl
  · rw [lookup_erase, if_neg h]

theorem lookup_safeUnlink_self {q : String} (fs : FS)
    (h : fs.unlinkFails q = false) : (safeUnlink fs q).lookup q = none := by
  unfold safeUnlink
  rw [if_neg (by simp [h]), lookup_erase, if_pos rfl]

theorem cleanupTemp_true (fs : FS) (wav : String) :
    cleanupTemp fs wav true = fs := rfl

theorem cleanupTemp_false (fs : FS) (wav : String) :
    cleanupTemp fs wav false = safeUnlink fs wav := rfl

theorem lookup_cleanupTemp_ne {p wav : String} (fs : FS) (w : Bool)
    (h : p ≠ wav) : (cleanupTemp fs wav w).lookup p = fs.lookup p := by
  cases w
  · rw [cleanupTemp_false]
    exact lookup_safeUnlink_ne fs h
  · rfl

theorem cleanupTemp_unlinkFails (fs : FS) (wav : String) (w : Bool) :
    (cleanupTemp fs wav w).unlinkFails = fs.unlinkFails := by
  cases w
  · rw [cleanupTemp_false]
    exact safeUnlink_unlinkFails fs wav
  · rfl

theorem fileNonEmpty_spec {fs : FS} {p : String} (h : fileNonEmpty fs p = true) :
    fs.statFails p = false ∧
      ∃ e, fs.lookup p = some e ∧ 0 < e.content.length := by
  unfold fileNonEmpty FS.statSync at h
  by_cases hf : fs.statFails p
  · rw [if_pos hf] at h
    exact absurd h (by simp)
  · rw [if_neg hf] at h
    rcases hl : fs.lookup p with _ | e
    · rw [hl] at h
      exact absurd h (by simp)
    · rw [hl] at h
      refine ⟨by simp [hf], e, rfl, ?_⟩
      simpa using h

theorem readFileSync_of_lookup {fs : FS} {p : String} {e : FileEntry}
    (h : fs.lookup p = some e) : fs.readFileSync p = e.content := by
  unfold FS.readFileSync
  rw [h]

theorem newestStep_fold {fs : FS} {q : String} :
    ∀ (ps : List String) (acc : Option String × Int),
      (ps.foldl (newestStep fs) acc).1 = some q →
      acc.1 = some q ∨ (q ∈ ps ∧ fs.statSync q ≠ none) := by
  intro ps
  induction ps with
  | nil =>
    intro acc h
    exact Or.inl h
  | cons p ps ih =>
    intro acc h
    rw [List.foldl_cons] at h
    rcases ih (newestStep fs acc p) h with h1 | h1
    · unfold newestStep at h1
      rcases hst : fs.statSync p with _ | e
      · rw [hst] at h1
        exact Or.inl h1
      · rw [hst] at h1
        change (if e.mtimeMs > acc.2 then ((some p : Option String), e.mtimeMs)
          else acc).1 = some q at h1
        by_cases hm : e.mtimeMs > acc.2
        · rw [if_pos hm] at h1
          have hq : p = q := by simpa using h1
          subst hq
          exact Or.inr ⟨List.mem_cons_self p ps, by simp [hst]⟩
        · rw [if_neg hm] at h1
          exact Or.inl h1
    · exact Or.inr ⟨List.mem_cons_of_mem p h1.1, h1.2⟩

theorem newestByMtime_spec {fs : FS} {ps : List String} {q : String}
    (h : newestByMtime fs ps = some q) :
    q ∈ ps ∧ fs.statFails q = false ∧ (fs.lookup q).isSome = true := by
  unfold newestByMtime at h
  rcases newestStep_fold ps (none, -1) h with h1 | h1
  · exact absurd h1 (by simp)
  · refine ⟨h1.1, ?_, ?_⟩
    · by_contra hf
      have : fs.statFails q = true := by simpa using hf
      exact h1.2 (by unfold FS.statSync; rw [if_pos this])
    · rcases hl : fs.lookup q with _ | e
      · refine absurd ?_ h1.2
        unfold FS.statSync
        rw [hl]
        split <;> rfl
      · rfl

theorem runAttempts_nil (env : Env) (bin out dir wav : String) (w : Bool)
    (pre : List String) (i : Nat) (fs : FS) (lo le : String) :
    runAttempts env bin out dir wav w pre i [] fs lo le =
      { fs := fs, lastOut := lo, lastErr := le, trace := [], result := none } :=
  rfl

theorem runAttempts_cons_direct (env : Env) (bin out dir wav : String)
    (w : Bool) (pre : List String) (i : Nat) (args : List String)
    (rest : List (List String)) (fs : FS) (lo le : String)
    (h : (((env.attempts i).writes.foldl FS.upsert fs).existsSync out &&
      fileNonEmpty ((env.attempts i).writes.foldl FS.upsert fs) out) = true) :
    runAttempts env bin out dir wav w pre i (args :: rest) fs lo le =
      { fs := cleanupTemp ((env.attempts i).writes.foldl FS.upsert fs) wav w,
        lastOut := (env.attempts i).stdout,
        lastErr := (env.attempts i).stderr,
        trace := [Ev.invoke i bin args, Ev.directCheck i out true] ++ cleanupEvs wav w,
        result := some { ok := true, outputPath := some out, error := none, note := none } } := by
  rw [runAttempts]
  simp only [execFileSafe, h, if_true]

theorem runAttempts_cons_heur (env : Env) (bin out dir wav : String)
    (w : Bool) (pre : List String) (i : Nat) (args : List String)
    (rest : List (List String)) (fs : FS) (lo le : String) (nw : String)
    (hd : (((env.attempts i).writes.foldl FS.upsert fs).existsSync out &&
      fileNonEmpty ((env.attempts i).writes.foldl FS.upsert fs) out) = false)
    (hn : newestByMtime ((env.attempts i).writes.foldl FS.upsert fs)
      ((listTxt ((env.attempts i).writes.foldl FS.upsert fs) dir).filter
        (fun p => !(pre.contains p))) = some nw)
    (hne : fileNonEmpty ((env.attempts i).writes.foldl FS.upsert fs) nw = true) :
    runAttempts env bin out dir wav w pre i (args :: rest) fs lo le =
      (let fsA := (env.attempts i).writes.foldl FS.upsert fs
       let fsB := fsA.writeFileSync out (fsA.readFileSync nw)
       let doUnlink := normalizeLower nw != normalizeLower out
       let fsC := if doUnlink then safeUnlink fsB nw else fsB
       { fs := cleanupTemp fsC wav w,
         lastOut := (env.attempts i).stdout,
         lastErr := (env.attempts i).stderr,
         trace := [Ev.invoke i bin args, Ev.directCheck i out false,
             Ev.heuristicScan i pre ((listTxt fsA dir).filter
               (fun p => !(pre.contains p))), Ev.writeFile out] ++
           (if doUnlink then [Ev.unlink nw] else []) ++ cleanupEvs wav w,
         result := some { ok := true, outputPath := some out, error := none, note := none } }) := by
  rw [runAttempts]
  simp only [execFileSafe, hd, hn, hne, if_true, Bool.false_eq_true, if_false]
  simp

theorem runAttempts_cons_next (env : Env) (bin out dir wav : String)
    (w : Bool) (pre : List String) (i : Nat) (args : List String)
    (rest : List (List String)) (fs : FS) (lo le : String)
    (hd : (((env.attempts i).writes.foldl FS.upsert fs).existsSync out &&
      fileNonEmpty ((env.attempts i).writes.foldl FS.upsert fs) out) = false)
    (hmiss : ∀ nw, newestByMtime ((env.attempts i).writes.foldl FS.upsert fs)
        ((listTxt ((env.attempts i).writes.foldl FS.upsert fs) dir).filter
          (fun p => !(pre.contains p))) = some nw →
      fileNonEmpty ((env.attempts i).writes.foldl FS.upsert fs) nw = false) :
    runAttempts env bin out dir wav w pre i (args :: rest) fs lo le =
      (let fsA := (env.attempts i).writes.foldl FS.upsert fs
       let r := runAttempts env bin out dir wav w pre (i + 1) rest fsA
         (env.attempts i).stdout (env.attempts i).stderr
       { r with trace := [Ev.invoke i bin args, Ev.directCheck i out false,
           Ev.heuristicScan i pre ((listTxt fsA dir).filter
             (fun p => !(pre.contains p)))] ++ r.trace }) := by
  rw [runAttempts]
  rcases hn : newestByMtime ((env.attempts i).writes.foldl FS.upsert fs)
      ((listTxt ((env.attempts i).writes.foldl FS.upsert fs) dir).filter
        (fun p => !(pre.contains p))) with _ | nw
  · simp only [execFileSafe, hd, hn, Bool.false_eq_true, if_false]
    simp
  · simp only [execFileSafe, hd, hn, hmiss nw hn, Bool.false_eq_true, if_false]
    simp

theorem attemptsFS_succ (env : Env) (fs1 : FS) (i : Nat) :
    (env.attempts i).writes.foldl FS.upsert (attemptsFS env fs1 i) =
      attemptsFS env fs1 (i + 1) := rfl

theorem heurHit_false_spec {env : Env} {fs1 : FS} {dir : String}
    {pre : List String} {i : Nat} (h : heurHit env fs1 dir pre i = false) :
    ∀ nw, newestByMtime (attemptsFS env fs1 (i + 1)) (heurCands env fs1 dir pre i) =
        some nw → fileNonEmpty (attemptsFS env fs1 (i + 1)) nw = false := by
  intro nw hn
  unfold heurHit at h
  rw [hn] at h
  exact h

theorem heurHit_true_spec {env : Env} {fs1 : FS} {dir : String}
    {pre : List String} {i : Nat} (h : heurHit env fs1 dir pre i = true) :
    ∃ nw, newestByMtime (attemptsFS env fs1 (i + 1)) (heurCands env fs1 dir pre i) =
        some nw ∧ fileNonEmpty (attemptsFS env fs1 (i + 1)) nw = true := by
  unfold heurHit at h
  rcases hn : newestByMtime (attemptsFS env fs1 (i + 1)) (heurCands env fs1 dir pre i)
    with _ | nw
  · rw [hn] at h
    exact absurd h (by simp)
  · rw [hn] at h
    exact ⟨nw, rfl, h⟩

theorem lastOutN_cons (env : Env) (i n : Nat) :
    lastOutN env ((env.attempts i).stdout) (i + 1) n =
      (env.attempts (i + n)).stdout := by
  cases n with
  | zero => rfl
  | succ m =>
    show (env.attempts (i + 1 + m)).stdout = (env.attempts (i + (m + 1))).stdout
    rw [show i + 1 + m = i + (m + 1) from by omega]

theorem lastErrN_cons (env : Env) (i n : Nat) :
    lastErrN env ((env.attempts i).stderr) (i + 1) n =
      (env.attempts (i + n)).stderr := by
  cases n with
  | zero => rfl
  | succ m =>
    show (env.attempts (i + 1 + m)).stderr = (env.attempts (i + (m + 1))).stderr
    rw [show i + 1 + m = i + (m + 1) from by omega]

theorem runAttempts_no_match (env : Env) (bin out dir wav : String) (w : Bool)
    (pre : List String) (fs1 : FS) :
    ∀ (rest : List (List String)) (i : Nat) (lo le : String),
      (∀ j, j < rest.length → anyHit env fs1 out dir pre (i + j) = false) →
      runAttempts env bin out dir wav w pre i rest (attemptsFS env fs1 i) lo le =
        { fs := attemptsFS env fs1 (i + rest.length),
          lastOut := lastOutN env lo i rest.length,
          lastErr := lastErrN env le i rest.length,
          trace := scanTrace env fs1 bin out dir pre i rest,
          result := none } := by
  intro rest
  induction rest with
  | nil =>
    intro i lo le _
    rw [runAttempts_nil]
    rfl
  | cons args rest ih =>
    intro i lo le h
    have h0 : anyHit env fs1 out dir pre i = false := by
      have := h 0 (by simp)
      simpa using this
    have hd : directHit env fs1 out i = false := by
      unfold anyHit at h0
      exact (Bool.or_eq_false_iff.mp h0).1
    have hh : heurHit env fs1 dir pre i = false := by
      unfold anyHit at h0
      exact (Bool.or_eq_false_iff.mp h0).2
    rw [runAttempts_cons_next env bin out dir wav w pre i args rest
      (attemptsFS env fs1 i) lo le hd (heurHit_false_spec hh)]
    have hshift : ∀ j, j < rest.length →
        anyHit env fs1 out dir pre (i + 1 + j) = false := by
      intro j hj
      have := h (j + 1) (by simpa using Nat.succ_lt_succ hj)
      rwa [show i + (j + 1) = i + 1 + j from by omega] at this
    rw [attemptsFS_succ env fs1 i]
    simp only [ih (i + 1) ((env.attempts i).stdout) ((env.attempts i).stderr) hshift,
      lastOutN_cons, lastErrN_cons]
    rw [show i + 1 + rest.length = i + (rest.length + 1) from by omega]
    rfl

theorem no_match_of_result_none (env : Env) (bin out dir wav : String)
    (w : Bool) (pre : List String) (fs1 : FS) :
    ∀ (rest : List (List String)) (i : Nat) (lo le : String),
      (runAttempts env bin out dir wav w pre i rest (attemptsFS env fs1 i) lo le).result
        = none →
      ∀ j, j < rest.length → anyHit env fs1 out dir pre (i + j) = false := by
  intro rest
  induction rest with
  | nil =>
    intro i lo le _ j hj
    exact absurd hj (by simp)
  | cons args rest ih =>
    intro i lo le hres j hj
    cases hD : directHit env fs1 out i
    · cases hH : heurHit env fs1 dir pre i
      · rw [runAttempts_cons_next env bin out dir wav w pre i args rest
          (attemptsFS env fs1 i) lo le hD (heurHit_false_spec hH)] at hres
        have hres' : (runAttempts env bin out dir wav w pre (i + 1) rest
            (attemptsFS env fs1 (i + 1)) (env.attempts i).stdout
            (env.attempts i).stderr).result = none := hres
        cases j with
        | zero => simp [anyHit, hD, hH]
        | succ k =>
          have := ih (i + 1) (env.attempts i).stdout (env.attempts i).stderr
            hres' k (by simpa using Nat.lt_of_succ_lt_succ hj)
          rwa [show i + 1 + k = i + (k + 1) from by omega] at this
      · obtain ⟨nw, hn, hne⟩ := heurHit_true_spec hH
        rw [runAttempts_cons_heur env bin out dir wav w pre i args rest
          (attemptsFS env fs1 i) lo le nw hD hn hne] at hres
        simp at hres
    · rw [runAttempts_cons_direct env bin out dir wav w pre i args rest
        (attemptsFS env fs1 i) lo le hD] at hres
      simp at hres

theorem directBranch_lookup (fsA : FS) (out wav : String) (w : Bool)
    (hwo : w = true ∨ wav ≠ out) (hd : fileNonEmpty fsA out = true) :
    ∃ e, (cleanupTemp fsA wav w).lookup out = some e ∧ 0 < e.content.length := by
  obtain ⟨_, e, he, hlen⟩ := fileNonEmpty_spec hd
  refine ⟨e, ?_, hlen⟩
  rcases hwo with rfl | hwo
  · rw [cleanupTemp_true]
    exact he
  · rw [lookup_cleanupTemp_ne fsA w (fun hc => hwo hc.symm)]
    exact he

theorem heurBranch_lookup (fsA : FS) (out nw wav : String) (w : Bool)
    (hwo : w = true ∨ wav ≠ out) (hne : fileNonEmpty fsA nw = true) :
    ∃ e, (cleanupTemp
        (if normalizeLower nw != normalizeLower out then
          safeUnlink (fsA.writeFileSync out (fsA.readFileSync nw)) nw
        else fsA.writeFileSync out (fsA.readFileSync nw)) wav w).lookup out =
      some e ∧ 0 < e.content.length := by
  obtain ⟨_, e', he', hlen'⟩ := fileNonEmpty_spec hne
  have htext : fsA.readFileSync nw = e'.content := readFileSync_of_lookup he'
  have hB : (fsA.writeFileSync out (fsA.readFileSync nw)).lookup out =
      some { path := out, content := fsA.readFileSync nw, mtimeMs := fsA.clock } :=
    lookup_writeFileSync_self fsA out (fsA.readFileSync nw)
  have hC : (if normalizeLower nw != normalizeLower out then
        safeUnlink (fsA.writeFileSync out (fsA.readFileSync nw)) nw
      else fsA.writeFileSync out (fsA.readFileSync nw)).lookup out =
      some { path := out, content := fsA.readFileSync nw, mtimeMs := fsA.clock } := by
    by_cases hdo : (normalizeLower nw != normalizeLower out) = true
    · rw [if_pos hdo]
      have hnwo : out ≠ nw := by
        intro hc
        exact bne_iff_ne.mp hdo (congrArg normalizeLower hc.symm)
      rw [lookup_safeUnlink_ne _ hnwo]
      exact hB
    · rw [if_neg hdo]
      exact hB
  refine ⟨{ path := out, content := fsA.readFileSync nw, mtimeMs := fsA.clock }, ?_, ?_⟩
  · rcases hwo with rfl | hwo
    · rw [cleanupTemp_true]
      exact hC
    · rw [lookup_cleanupTemp_ne _ w (fun hc => hwo hc.symm)]
      exact hC
  · show 0 < (fsA.readFileSync nw).length
    rw [htext]
    exact hlen'

theorem runAttempts_some_spec (env : Env) (bin out dir wav : String) (w : Bool)
    (pre : List String) (hwo : w = true ∨ wav ≠ out) :
    ∀ (rest : List (List String)) (i : Nat) (fs : FS) (lo le : String)
      (r : JobResult),
      (runAttempts env bin out dir wav w pre i rest fs lo le).result = some r →
      r = { ok := true, outputPath := some out, error := none, note := none } ∧
      ∃ e, (runAttempts env bin out dir wav w pre i rest fs lo le).fs.lookup out =
        some e ∧ 0 < e.content.length := by
  intro rest
  induction rest with
  | nil =>
    intro i fs lo le r hres
    rw [runAttempts_nil] at hres
    exact absurd hres (by simp)
  | cons args rest ih =>
    intro i fs lo le r hres
    cases hD : (((env.attempts i).writes.foldl FS.upsert fs).existsSync out &&
        fileNonEmpty ((env.attempts i).writes.foldl FS.upsert fs) out)
    · rcases hn : newestByMtime ((env.attempts i).writes.foldl FS.upsert fs)
          ((listTxt ((env.attempts i).writes.foldl FS.upsert fs) dir).filter
            (fun p => !(pre.contains p))) with _ | nw
      · have hmiss : ∀ nw', newestByMtime ((env.attempts i).writes.foldl FS.upsert fs)
            ((listTxt ((env.attempts i).writes.foldl FS.upsert fs) dir).filter
              (fun p => !(pre.contains p))) = some nw' →
            fileNonEmpty ((env.attempts i).writes.foldl FS.upsert fs) nw' = false := by
          intro nw' h'
          rw [hn] at h'
          exact absurd h' (by simp)
        rw [runAttempts_cons_next env bin out dir wav w pre i args rest fs lo le hD hmiss]
          at hres ⊢
        exact ih (i + 1) ((env.attempts i).writes.foldl FS.upsert fs)
          (env.attempts i).stdout (env.attempts i).stderr r hres
      · cases hne : fileNonEmpty ((env.attempts i).writes.foldl FS.upsert fs) nw
        · have hmiss : ∀ nw', newestByMtime ((env.attempts i).writes.foldl FS.upsert fs)
              ((listTxt ((env.attempts i).writes.foldl FS.upsert fs) dir).filter
                (fun p => !(pre.contains p))) = some nw' →
              fileNonEmpty ((env.attempts i).writes.foldl FS.upsert fs) nw' = false := by
            intro nw' h'
            rw [hn] at h'
            injection h' with h2
            rw [← h2]
            exact hne
          rw [runAttempts_cons_next env bin out dir wav w pre i args rest fs lo le hD hmiss]
            at hres ⊢
          exact ih (i + 1) ((env.attempts i).writes.foldl FS.upsert fs)
            (env.attempts i).stdout (env.attempts i).stderr r hres
        · rw [runAttempts_cons_heur env bin out dir wav w pre i args rest fs lo le nw
            hD hn hne] at hres ⊢
          have hok := Option.some.inj hres
          exact ⟨hok.symm, heurBranch_lookup
            ((env.attempts i).writes.foldl FS.upsert fs) out nw wav w hwo hne⟩
    · rw [runAttempts_cons_direct env bin out dir wav w pre i args rest fs lo le hD]
        at hres ⊢
      have hok := Option.some.inj hres
      have hdne : fileNonEmpty ((env.attempts i).writes.foldl FS.upsert fs) out = true :=
        (Bool.and_eq_true_iff.mp hD).2
      exact ⟨hok.symm, directBranch_lookup
        ((env.attempts i).writes.foldl FS.upsert fs) out wav w hwo hdne⟩

theorem mem_cleanupEvs_elim {ev : Ev} {wav : String} {w : Bool}
    (h : ev ∈ cleanupEvs wav w) : w = false ∧ ev = Ev.unlink wav := by
  cases w
  · refine ⟨rfl, ?_⟩
    simpa [cleanupEvs] using h
  · simp [cleanupEvs] at h

theorem mem_ite_unlink_elim {ev : Ev} {b : Bool} {nw : String}
    (h : ev ∈ (if b then [Ev.unlink nw] else [])) : b = true ∧ ev = Ev.unlink nw := by
  cases b
  · simp at h
  · refine ⟨rfl, ?_⟩
    simpa using h

theorem loop_trace_mem_heur (env : Env) (bin out dir wav : String) (w : Bool)
    (pre : List String) (args : List String) (rest : List (List String))
    (i : Nat) (fs : FS) (nw : String)
    (hn : newestByMtime ((env.attempts i).writes.foldl FS.upsert fs)
      ((listTxt ((env.attempts i).writes.foldl FS.upsert fs) dir).filter
        (fun p => !(pre.contains p))) = some nw)
    (ev : Ev)
    (hm : ev ∈ ([Ev.invoke i bin args, Ev.directCheck i out false,
        Ev.heuristicScan i pre
          ((listTxt ((env.attempts i).writes.foldl FS.upsert fs) dir).filter
            (fun p => !(pre.contains p))), Ev.writeFile out] ++
      (if normalizeLower nw != normalizeLower out then [Ev.unlink nw] else []) ++
      cleanupEvs wav w)) :
    (∃ k b a, ev = Ev.invoke k b a ∧ b = bin ∧
      ∃ m, m < (args :: rest).length ∧ k = i + m ∧ (args :: rest).get? m = some a) ∨
    (∃ k h, ev = Ev.directCheck k out h) ∨
    (∃ k cands, ev = Ev.heuristicScan k pre cands ∧
      Ev.directCheck k out false ∈ ([Ev.invoke i bin args, Ev.directCheck i out false,
        Ev.heuristicScan i pre
          ((listTxt ((env.attempts i).writes.foldl FS.upsert fs) dir).filter
            (fun p => !(pre.contains p))), Ev.writeFile out] ++
      (if normalizeLower nw != normalizeLower out then [Ev.unlink nw] else []) ++
      cleanupEvs wav w)) ∨
    ev = Ev.writeFile out ∨
    (w = false ∧ ev = Ev.unlink wav) ∨
    (∃ k snap cands p, ev = Ev.unlink p ∧
      Ev.heuristicScan k snap cands ∈ ([Ev.invoke i bin args, Ev.directCheck i out false,
        Ev.heuristicScan i pre
          ((listTxt ((env.attempts i).writes.foldl FS.upsert fs) dir).filter
            (fun p => !(pre.contains p))), Ev.writeFile out] ++
      (if normalizeLower nw != normalizeLower out then [Ev.unlink nw] else []) ++
      cleanupEvs wav w) ∧
      p ∈ cands ∧ ".txt".toList <:+ lowerChars p.toList) := by
  have hmemnw : nw ∈ (listTxt ((env.attempts i).writes.foldl FS.upsert fs) dir).filter
      (fun p => !(pre.contains p)) := (newestByMtime_spec hn).1
  rcases List.mem_append.mp hm with h | h
  · rcases List.mem_cons.mp h with h | h
    · exact Or.inl ⟨i, bin, args, h, rfl, 0, by simp, by simp, by simp⟩
    · rcases List.mem_cons.mp h with h | h
      · exact Or.inr (Or.inl ⟨i, false, h⟩)
      · rcases List.mem_cons.mp h with h | h
        · refine Or.inr (Or.inr (Or.inl ⟨i, _, h, ?_⟩))
          simp
        · rcases List.mem_cons.mp h with h | h
          · exact Or.inr (Or.inr (Or.inr (Or.inl h)))
          · have h' : ev ∈ (if normalizeLower nw != normalizeLower out
                then [Ev.unlink nw] else []) := by simpa using h
            obtain ⟨_, he⟩ := mem_ite_unlink_elim h'
            refine Or.inr (Or.inr (Or.inr (Or.inr (Or.inr
              ⟨i, pre, _, nw, he, ?_, hmemnw, ?_⟩))))
            · simp
            · exact mem_listTxt_lower (List.mem_filter.mp hmemnw).1
  · obtain ⟨hw, he⟩ := mem_cleanupEvs_elim h
    exact Or.inr (Or.inr (Or.inr (Or.inr (Or.inl ⟨hw, he⟩))))

theorem loop_trace_mem_next (env : Env) (bin out dir wav : String) (w : Bool)
    (pre : List String) (args : List String) (rest : List (List String))
    (i : Nat) (fs : FS) (ev : Ev)
    (hm : ev ∈ ([Ev.invoke i bin args, Ev.directCheck i out false,
        Ev.heuristicScan i pre
          ((listTxt ((env.attempts i).writes.foldl FS.upsert fs) dir).filter
            (fun p => !(pre.contains p)))] ++
      (runAttempts env bin out dir wav w pre (i + 1) rest
        ((env.attempts i).writes.foldl FS.upsert fs)
        (env.attempts i).stdout (env.attempts i).stderr).trace))
    (ih : ∀ ev, ev ∈ (runAttempts env bin out dir wav w pre (i + 1) rest
        ((env.attempts i).writes.foldl FS.upsert fs)
        (env.attempts i).stdout (env.attempts i).stderr).trace →
      (∃ k b a, ev = Ev.invoke k b a ∧ b = bin ∧
        ∃ m, m < rest.length ∧ k = i + 1 + m ∧ rest.get? m = some a) ∨
      (∃ k h, ev = Ev.directCheck k out h) ∨
      (∃ k cands, ev = Ev.heuristicScan k pre cands ∧
        Ev.directCheck k out false ∈ (runAttempts env bin out dir wav w pre (i + 1) rest
          ((env.attempts i).writes.foldl FS.upsert fs)
          (env.attempts i).stdout (env.attempts i).stderr).trace) ∨
      ev = Ev.writeFile out ∨
      (w = false ∧ ev = Ev.unlink wav) ∨
      (∃ k snap cands p, ev = Ev.unlink p ∧
        Ev.heuristicScan k snap cands ∈ (runAttempts env bin out dir wav w pre (i + 1) rest
          ((env.attempts i).writes.foldl FS.upsert fs)
          (env.attempts i).stdout (env.attempts i).stderr).trace ∧
        p ∈ cands ∧ ".txt".toList <:+ lowerChars p.toList)) :
    (∃ k b a, ev = Ev.invoke k b a ∧ b = bin ∧
      ∃ m, m < (args :: rest).length ∧ k = i + m ∧ (args :: rest).get? m = some a) ∨
    (∃ k h, ev = Ev.directCheck k out h) ∨
    (∃ k cands, ev = Ev.heuristicScan k pre cands ∧
      Ev.directCheck k out false ∈ ([Ev.invoke i bin args, Ev.directCheck i out false,
        Ev.heuristicScan i pre
          ((listTxt ((env.attempts i).writes.foldl FS.upsert fs) dir).filter
            (fun p => !(pre.contains p)))] ++
      (runAttempts env bin out dir wav w pre (i + 1) rest
        ((env.attempts i).writes.foldl FS.upsert fs)
        (env.attempts i).stdout (env.attempts i).stderr).trace)) ∨
    ev = Ev.writeFile out ∨
    (w = false ∧ ev = Ev.unlink wav) ∨
    (∃ k snap cands p, ev = Ev.unlink p ∧
      Ev.heuristicScan k snap cands ∈ ([Ev.invoke i bin args, Ev.directCheck i out false,
        Ev.heuristicScan i pre
          ((listTxt ((env.attempts i).writes.foldl FS.upsert fs) dir).filter
            (fun p => !(pre.contains p)))] ++
      (runAttempts env bin out dir wav w pre (i + 1) rest
        ((env.attempts i).writes.foldl FS.upsert fs)
        (env.attempts i).stdout (env.attempts i).stderr).trace) ∧
      p ∈ cands ∧ ".txt".toList <:+ lowerChars p.toList) := by
  rcases List.mem_append.mp hm with h | h
  · rcases List.mem_cons.mp h with h | h
    · exact Or.inl ⟨i, bin, args, h, rfl, 0, by simp, by simp, by simp⟩
    · rcases List.mem_cons.mp h with h | h
      · exact Or.inr (Or.inl ⟨i, false, h⟩)
      · rcases List.mem_cons.mp h with h | h
        · refine Or.inr (Or.inr (Or.inl ⟨i, _, h, ?_⟩))
          simp
        · exact absurd h (List.not_mem_nil _)
  · rcases ih ev h with h1 | h1 | h1 | h1 | h1 | h1
    · obtain ⟨k, b, a, he, hb, m, hm', hk, hg⟩ := h1
      refine Or.inl ⟨k, b, a, he, hb, m + 1, ?_, ?_, ?_⟩
      · simpa using Nat.succ_lt_succ hm'
      · omega
      · simpa using hg
    · exact Or.inr (Or.inl h1)
    · obtain ⟨k, cands, he, hdc⟩ := h1
      exact Or.inr (Or.inr (Or.inl ⟨k, cands, he, List.mem_append_right _ hdc⟩))
    · exact Or.inr (Or.inr (Or.inr (Or.inl h1)))
    · exact Or.inr (Or.inr (Or.inr (Or.inr (Or.inl h1))))
    · obtain ⟨k, snap, cands, p, he, hsc, hpc, hsuf⟩ := h1
      exact Or.inr (Or.inr (Or.inr (Or.inr (Or.inr
        ⟨k, snap, cands, p, he, List.mem_append_right _ hsc, hpc, hsuf⟩))))

/-- Everything the variant loop ever records: invocations of the declared
variants with the selected binary, direct checks of the canonical path,
heuristic scans against the fixed snapshot (each presupposing a failed
direct check in the same trace), writes only to the canonical path, and
unlink attempts only of the temporary waveform (never for a WAV input) or
of a heuristic candidate, which is a `.txt`-named file. -/
theorem loop_trace_mem (env : Env) (bin out dir wav : String) (w : Bool)
    (pre : List String) :
    ∀ (rest : List (List String)) (i : Nat) (fs : FS) (lo le : String)
      (ev : Ev),
      ev ∈ (runAttempts env bin out dir wav w pre i rest fs lo le).trace →
      (∃ k b a, ev = Ev.invoke k b a ∧ b = bin ∧
        ∃ m, m < rest.length ∧ k = i + m ∧ rest.get? m = some a) ∨
      (∃ k h, ev = Ev.directCheck k out h) ∨
      (∃ k cands, ev = Ev.heuristicScan k pre cands ∧
        Ev.directCheck k out false ∈
          (runAttempts env bin out dir wav w pre i rest fs lo le).trace) ∨
      ev = Ev.writeFile out ∨
      (w = false ∧ ev = Ev.unlink wav) ∨
      (∃ k snap cands p, ev = Ev.unlink p ∧
        Ev.heuristicScan k snap cands ∈
          (runAttempts env bin out dir wav w pre i rest fs lo le).trace ∧
        p ∈ cands ∧ ".txt".toList <:+ lowerChars p.toList) := by
  intro rest
  induction rest with
  | nil =>
    intro i fs lo le ev hm
    rw [runAttempts_nil] at hm
    exact absurd hm (List.not_mem_nil _)
  | cons args rest ih =>
    intro i fs lo le ev hm
    cases hD : (((env.attempts i).writes.foldl FS.upsert fs).existsSync out &&
        fileNonEmpty ((env.attempts i).writes.foldl FS.upsert fs) out)
    · rcases hn : newestByMtime ((env.attempts i).writes.foldl FS.upsert fs)
          ((listTxt ((env.attempts i).writes.foldl FS.upsert fs) dir).filter
            (fun p => !(pre.contains p))) with _ | nw
      · have hmiss : ∀ nw', newestByMtime ((env.attempts i).writes.foldl FS.upsert fs)
            ((listTxt ((env.attempts i).writes.foldl FS.upsert fs) dir).filter
              (fun p => !(pre.contains p))) = some nw' →
            fileNonEmpty ((env.attempts i).writes.foldl FS.upsert fs) nw' = false := by
          intro nw' h'
          rw [hn] at h'
          exact absurd h' (by simp)
        rw [runAttempts_cons_next env bin out dir wav w pre i args rest fs lo le hD hmiss]
          at hm ⊢
        exact loop_trace_mem_next env bin out dir wav w pre args rest i fs ev hm
          (ih (i + 1) ((env.attempts i).writes.foldl FS.upsert fs)
            (env.attempts i).stdout (env.attempts i).stderr)
      · cases hne : fileNonEmpty ((env.attempts i).writes.foldl FS.upsert fs) nw
        · have hmiss : ∀ nw', newestByMtime ((env.attempts i).writes.foldl FS.upsert fs)
              ((listTxt ((env.attempts i).writes.foldl FS.upsert fs) dir).filter
                (fun p => !(pre.contains p))) = some nw' →
              fileNonEmpty ((env.attempts i).writes.foldl FS.upsert fs) nw' = false := by
            intro nw' h'
            rw [hn] at h'
            injection h' with h2
            rw [← h2]
            exact hne
          rw [runAttempts_cons_next env bin out dir wav w pre i args rest fs lo le hD hmiss]
            at hm ⊢
          exact loop_trace_mem_next env bin out dir wav w pre args rest i fs ev hm
            (ih (i + 1) ((env.attempts i).writes.foldl FS.upsert fs)
              (env.attempts i).stdout (env.attempts i).stderr)
        · rw [runAttempts_cons_heur env bin out dir wav w pre i args rest fs lo le nw
            hD hn hne] at hm ⊢
          exact loop_trace_mem_heur env bin out dir wav w pre args rest i fs nw hn ev hm
    · rw [runAttempts_cons_direct env bin out dir wav w pre i args rest fs lo le hD]
        at hm ⊢
      rcases List.mem_append.mp hm with h | h
      · rcases List.mem_cons.mp h with h | h
        · exact Or.inl ⟨i, bin, args, h, rfl, 0, by simp, by simp, by simp⟩
        · rcases List.mem_cons.mp h with h | h
          · exact Or.inr (Or.inl ⟨i, true, h⟩)
          · exact absurd h (List.not_mem_nil _)
      · obtain ⟨hw, he⟩ := mem_cleanupEvs_elim h
        exact Or.inr (Or.inr (Or.inr (Or.inr (Or.inl ⟨hw, he⟩))))

theorem filterMap_invIdx_cleanupEvs (wav : String) (w : Bool) :
    (cleanupEvs wav w).filterMap invIdx = [] := by
  cases w <;> simp [cleanupEvs, invIdx]

theorem filterMap_invIdx_ite (b : Bool) (nw : String) :
    ((if b then [Ev.unlink nw] else []) : List Ev).filterMap invIdx = [] := by
  cases b <;> simp [invIdx]

theorem loop_invoke_idxs (env : Env) (bin out dir wav : String) (w : Bool)
    (pre : List String) :
    ∀ (rest : List (List String)) (i : Nat) (fs : FS) (lo le : String),
      ∃ k, k ≤ rest.length ∧
        (runAttempts env bin out dir wav w pre i rest fs lo le).trace.filterMap invIdx =
          (List.range k).map (i + ·) := by
  intro rest
  induction rest with
  | nil =>
    intro i fs lo le
    refine ⟨0, by simp, ?_⟩
    rw [runAttempts_nil]
    rfl
  | cons args rest ih =>
    intro i fs lo le
    cases hD : (((env.attempts i).writes.foldl FS.upsert fs).existsSync out &&
        fileNonEmpty ((env.attempts i).writes.foldl FS.upsert fs) out)
    · rcases hn : newestByMtime ((env.attempts i).writes.foldl FS.upsert fs)
          ((listTxt ((env.attempts i).writes.foldl FS.upsert fs) dir).filter
            (fun p => !(pre.contains p))) with _ | nw
      · have hmiss : ∀ nw', newestByMtime ((env.attempts i).writes.foldl FS.upsert fs)
            ((listTxt ((env.attempts i).writes.foldl FS.upsert fs) dir).filter
              (fun p => !(pre.contains p))) = some nw' →
            fileNonEmpty ((env.attempts i).writes.foldl FS.upsert fs) nw' = false := by
          intro nw' h'
          rw [hn] at h'
          exact absurd h' (by simp)
        rw [runAttempts_cons_next env bin out dir wav w pre i args rest fs lo le hD hmiss]
        obtain ⟨k, hk, he⟩ := ih (i + 1) ((env.attempts i).writes.foldl FS.upsert fs)
          (env.attempts i).stdout (env.attempts i).stderr
        refine ⟨k + 1, by simpa using Nat.succ_le_succ hk, ?_⟩
        show (([Ev.invoke i bin args, Ev.directCheck i out false,
            Ev.heuristicScan i pre _] : List Ev) ++ _).filterMap invIdx = _
        rw [List.filterMap_append, he, List.range_succ_eq_map]
        simp only [List.filterMap_cons, invIdx, List.filterMap_nil, List.map_cons,
          List.map_map]
        refine congrArg (fun t => (i + 0) :: t) ?_
        apply List.map_congr_left
        intro m _
        show i + 1 + m = i + (m + 1)
        omega
      · cases hne : fileNonEmpty ((env.attempts i).writes.foldl FS.upsert fs) nw
        · have hmiss : ∀ nw', newestByMtime ((env.attempts i).writes.foldl FS.upsert fs)
              ((listTxt ((env.attempts i).writes.foldl FS.upsert fs) dir).filter
                (fun p => !(pre.contains p))) = some nw' →
              fileNonEmpty ((env.attempts i).writes.foldl FS.upsert fs) nw' = false := by
            intro nw' h'
            rw [hn] at h'
            injection h' with h2
            rw [← h2]
            exact hne
          rw [runAttempts_cons_next env bin out dir wav w pre i args rest fs lo le hD hmiss]
          obtain ⟨k, hk, he⟩ := ih (i + 1) ((env.attempts i).writes.foldl FS.upsert fs)
            (env.attempts i).stdout (env.attempts i).stderr
          refine ⟨k + 1, by simpa using Nat.succ_le_succ hk, ?_⟩
          show (([Ev.invoke i bin args, Ev.directCheck i out false,
              Ev.heuristicScan i pre _] : List Ev) ++ _).filterMap invIdx = _
          rw [List.filterMap_append, he, List.range_succ_eq_map]
          simp only [List.filterMap_cons, invIdx, List.filterMap_nil, List.map_cons,
            List.map_map]
          refine congrArg (fun t => (i + 0) :: t) ?_
          apply List.map_congr_left
          intro m _
          show i + 1 + m = i + (m + 1)
          omega
        · rw [runAttempts_cons_heur env bin out dir wav w pre i args rest fs lo le nw
            hD hn hne]
          refine ⟨1, by simp, ?_⟩
          show (([Ev.invoke i bin args, Ev.directCheck i out false,
              Ev.heuristicScan i pre _, Ev.writeFile out] : List Ev) ++ _ ++ _).filterMap
            invIdx = _
          rw [List.filterMap_append, List.filterMap_append,
            filterMap_invIdx_ite, filterMap_invIdx_cleanupEvs]
          simp [invIdx, List.range_succ]
    · rw [runAttempts_cons_direct env bin out dir wav w pre i args rest fs lo le hD]
      refine ⟨1, by simp, ?_⟩
      show (([Ev.invoke i bin args, Ev.directCheck i out true] : List Ev) ++ _).filterMap
        invIdx = _
      rw [List.filterMap_append, filterMap_invIdx_cleanupEvs]
      simp [invIdx, List.range_succ]

theorem loop_scan_split (env : Env) (bin out dir wav : String) (w : Bool)
    (pre : List String) :
    ∀ (rest : List (List String)) (i : Nat) (fs : FS) (lo le : String)
      (j : Nat) (snap cands : List String),
      Ev.heuristicScan j snap cands ∈
        (runAttempts env bin out dir wav w pre i rest fs lo le).trace →
      ∃ A B, (runAttempts env bin out dir wav w pre i rest fs lo le).trace =
        A ++ Ev.directCheck j out false :: B ∧
        Ev.heuristicScan j snap cands ∈ B := by
  intro rest
  induction rest with
  | nil =>
    intro i fs lo le j snap cands hm
    rw [runAttempts_nil] at hm
    exact absurd hm (List.not_mem_nil _)
  | cons args rest ih =>
    intro i fs lo le j snap cands hm
    cases hD : (((env.attempts i).writes.foldl FS.upsert fs).existsSync out &&
        fileNonEmpty ((env.attempts i).writes.foldl FS.upsert fs) out)
    · rcases hn : newestByMtime ((env.attempts i).writes.foldl FS.upsert fs)
          ((listTxt ((env.attempts i).writes.foldl FS.upsert fs) dir).filter
            (fun p => !(pre.contains p))) with _ | nw
      · have hmiss : ∀ nw', newestByMtime ((env.attempts i).writes.foldl FS.upsert fs)
            ((listTxt ((env.attempts i).writes.foldl FS.upsert fs) dir).filter
              (fun p => !(pre.contains p))) = some nw' →
            fileNonEmpty ((env.attempts i).writes.foldl FS.upsert fs) nw' = false := by
          intro nw' h'
          rw [hn] at h'
          exact absurd h' (by simp)
        rw [runAttempts_cons_next env bin out dir wav w pre i args rest fs lo le hD hmiss]
          at hm ⊢
        rcases List.mem_append.mp hm with h | h
        · rcases List.mem_cons.mp h with h | h
          · exact absurd h (by simp)
          · rcases List.mem_cons.mp h with h | h
            · exact absurd h (by simp)
            · rcases List.mem_cons.mp h with h | h
              · injection h with h1 h2 h3
                refine ⟨[Ev.invoke i bin args], Ev.heuristicScan i pre
                    ((listTxt ((env.attempts i).writes.foldl FS.upsert fs) dir).filter
                      (fun p => !(pre.contains p))) ::
                  (runAttempts env bin out dir wav w pre (i + 1) rest
                    ((env.attempts i).writes.foldl FS.upsert fs)
                    (env.attempts i).stdout (env.attempts i).stderr).trace, ?_, ?_⟩
                · rw [h1]
                  simp
                · rw [h1, h2, h3]
                  simp
              · exact absurd h (List.not_mem_nil _)
        · obtain ⟨A, B, hAB, hB⟩ := ih (i + 1)
            ((env.attempts i).writes.foldl FS.upsert fs)
            (env.attempts i).stdout (env.attempts i).stderr j snap cands h
          refine ⟨[Ev.invoke i bin args, Ev.directCheck i out false,
            Ev.heuristicScan i pre
              ((listTxt ((env.attempts i).writes.foldl FS.upsert fs) dir).filter
                (fun p => !(pre.contains p)))] ++ A, B, ?_, hB⟩
          show ([Ev.invoke i bin args, Ev.directCheck i out false,
            Ev.heuristicScan i pre
              ((listTxt ((env.attempts i).writes.foldl FS.upsert fs) dir).filter
                (fun p => !(pre.contains p)))] : List Ev) ++
            (runAttempts env bin out dir wav w pre (i + 1) rest
              ((env.attempts i).writes.foldl FS.upsert fs)
              (env.attempts i).stdout (env.attempts i).stderr).trace = _
          rw [hAB]
          simp
      · cases hne : fileNonEmpty ((env.attempts i).writes.foldl FS.upsert fs) nw
        · have hmiss : ∀ nw', newestByMtime ((env.attempts i).writes.foldl FS.upsert fs)
              ((listTxt ((env.attempts i).writes.foldl FS.upsert fs) dir).filter
                (fun p => !(pre.contains p))) = some nw' →
              fileNonEmpty ((env.attempts i).writes.foldl FS.upsert fs) nw' = false := by
            intro nw' h'
            rw [hn] at h'
            injection h' with h2
            rw [← h2]
            exact hne
          rw [runAttempts_cons_next env bin out dir wav w pre i args rest fs lo le hD hmiss]
            at hm ⊢
          rcases List.mem_append.mp hm with h | h
          · rcases List.mem_cons.mp h with h | h
            · exact absurd h (by simp)
            · rcases List.mem_cons.mp h with h | h
              · exact absurd h (by simp)
              · rcases List.mem_cons.mp h with h | h
                · injection h with h1 h2 h3
                  refine ⟨[Ev.invoke i bin args], Ev.heuristicScan i pre
                      ((listTxt ((env.attempts i).writes.foldl FS.upsert fs) dir).filter
                        (fun p => !(pre.contains p))) ::
                    (runAttempts env bin out dir wav w pre (i + 1) rest
                      ((env.attempts i).writes.foldl FS.upsert fs)
                      (env.attempts i).stdout (env.attempts i).stderr).trace, ?_, ?_⟩
                  · rw [h1]
                    simp
                  · rw [h1, h2, h3]
                    simp
                · exact absurd h (List.not_mem_nil _)
          · obtain ⟨A, B, hAB, hB⟩ := ih (i + 1)
              ((env.attempts i).writes.foldl FS.upsert fs)
              (env.attempts i).stdout (env.attempts i).stderr j snap cands h
            refine ⟨[Ev.invoke i bin args, Ev.directCheck i out false,
              Ev.heuristicScan i pre
                ((listTxt ((env.attempts i).writes.foldl FS.upsert fs) dir).filter
                  (fun p => !(pre.contains p)))] ++ A, B, ?_, hB⟩
            show ([Ev.invoke i bin args, Ev.directCheck i out false,
              Ev.heuristicScan i pre
                ((listTxt ((env.attempts i).writes.foldl FS.upsert fs) dir).filter
                  (fun p => !(pre.contains p)))] : List Ev) ++
              (runAttempts env bin out dir wav w pre (i + 1) rest
                ((env.attempts i).writes.foldl FS.upsert fs)
                (env.attempts i).stdout (env.attempts i).stderr).trace = _
            rw [hAB]
            simp
        · rw [runAttempts_cons_heur env bin out dir wav w pre i args rest fs lo le nw
            hD hn hne] at hm ⊢
          rcases List.mem_append.mp hm with h | h
          · rcases List.mem_cons.mp h with h | h
            · exact absurd h (by simp)
            · rcases List.mem_cons.mp h with h | h
              · exact absurd h (by simp)
              · rcases List.mem_cons.mp h with h | h
                · injection h with h1 h2 h3
                  refine ⟨[Ev.invoke i bin args], Ev.heuristicScan i pre
                      ((listTxt ((env.attempts i).writes.foldl FS.upsert fs) dir).filter
                        (fun p => !(pre.contains p))) ::
                    ([Ev.writeFile out] ++
                      (if normalizeLower nw != normalizeLower out
                        then [Ev.unlink nw] else []) ++ cleanupEvs wav w), ?_, ?_⟩
                  · rw [h1]
                    simp
                  · rw [h1, h2, h3]
                    simp
                · rcases List.mem_cons.mp h with h | h
                  · exact absurd h (by simp)
                  · have h' : Ev.heuristicScan j snap cands ∈
                        (if normalizeLower nw != normalizeLower out
                          then [Ev.unlink nw] else [] : List Ev) := by simpa using h
                    obtain ⟨_, he⟩ := mem_ite_unlink_elim h'
                    exact absurd he (by simp)
          · obtain ⟨_, he⟩ := mem_cleanupEvs_elim h
            exact absurd he (by simp)
    · rw [runAttempts_cons_direct env bin out dir wav w pre i args rest fs lo le hD]
        at hm ⊢
      rcases List.mem_append.mp hm with h | h
      · rcases List.mem_cons.mp h with h | h
        · exact absurd h (by simp)
        · rcases List.mem_cons.mp h with h | h
          · exact absurd h (by simp)
          · exact absurd h (List.not_mem_nil _)
      · obtain ⟨_, he⟩ := mem_cleanupEvs_elim h
        exact absurd he (by simp)

theorem runAttempts_fs_unlinkFails (env : Env) (bin out dir wav : String)
    (w : Bool) (pre : List String) :
    ∀ (rest : List (List String)) (i : Nat) (fs : FS) (lo le : String),
      (runAttempts env bin out dir wav w pre i rest fs lo le).fs.unlinkFails =
        fs.unlinkFails := by
  intro rest
  induction rest with
  | nil =>
    intro i fs lo le
    rw [runAttempts_nil]
  | cons args rest ih =>
    intro i fs lo le
    cases hD : (((env.attempts i).writes.foldl FS.upsert fs).existsSync out &&
        fileNonEmpty ((env.attempts i).writes.foldl FS.upsert fs) out)
    · rcases hn : newestByMtime ((env.attempts i).writes.foldl FS.upsert fs)
          ((listTxt ((env.attempts i).writes.foldl FS.upsert fs) dir).filter
            (fun p => !(pre.contains p))) with _ | nw
      · have hmiss : ∀ nw', newestByMtime ((env.attempts i).writes.foldl FS.upsert fs)
            ((listTxt ((env.attempts i).writes.foldl FS.upsert fs) dir).filter
              (fun p => !(pre.contains p))) = some nw' →
            fileNonEmpty ((env.attempts i).writes.foldl FS.upsert fs) nw' = false := by
          intro nw' h'
          rw [hn] at h'
          exact absurd h' (by simp)
        rw [runAttempts_cons_next env bin out dir wav w pre i args rest fs lo le hD hmiss]
        show (runAttempts env bin out dir wav w pre (i + 1) rest _ _ _).fs.unlinkFails = _
        rw [ih (i + 1) ((env.attempts i).writes.foldl FS.upsert fs)
          (env.attempts i).stdout (env.attempts i).stderr,
          foldl_upsert_unlinkFails]
      · cases hne : fileNonEmpty ((env.attempts i).writes.foldl FS.upsert fs) nw
        · have hmiss : ∀ nw', newestByMtime ((env.attempts i).writes.foldl FS.upsert fs)
              ((listTxt ((env.attempts i).writes.foldl FS.upsert fs) dir).filter
                (fun p => !(pre.contains p))) = some nw' →
              fileNonEmpty ((env.attempts i).writes.foldl FS.upsert fs) nw' = false := by
            intro nw' h'
            rw [hn] at h'
            injection h' with h2
            rw [← h2]
            exact hne
          rw [runAttempts_cons_next env bin out dir wav w pre i args rest fs lo le hD hmiss]
          show (runAttempts env bin out dir wav w pre (i + 1) rest _ _ _).fs.unlinkFails = _
          rw [ih (i + 1) ((env.attempts i).writes.foldl FS.upsert fs)
            (env.attempts i).stdout (env.attempts i).stderr,
            foldl_upsert_unlinkFails]
        · rw [runAttempts_cons_heur env bin out dir wav w pre i args rest fs lo le nw
            hD hn hne]
          show (cleanupTemp _ wav w).unlinkFails = _
          rw [cleanupTemp_unlinkFails]
          by_cases hdo : (normalizeLower nw != normalizeLower out) = true
          · rw [if_pos hdo, safeUnlink_unlinkFails, writeFileSync_unlinkFails,
              foldl_upsert_unlinkFails]
          · rw [if_neg hdo, writeFileSync_unlinkFails, foldl_upsert_unlinkFails]
    · rw [runAttempts_cons_direct env bin out dir wav w pre i args rest fs lo le hD]
      show (cleanupTemp _ wav w).unlinkFails = _
      rw [cleanupTemp_unlinkFails, foldl_upsert_unlinkFails]

theorem runAttempts_some_fs (env : Env) (bin out dir wav : String) (w : Bool)
    (pre : List String) :
    ∀ (rest : List (List String)) (i : Nat) (fs : FS) (lo le : String)
      (r : JobResult),
      (runAttempts env bin out dir wav w pre i rest fs lo le).result = some r →
      ∃ fsX, (runAttempts env bin out dir wav w pre i rest fs lo le).fs =
        cleanupTemp fsX wav w ∧ fsX.unlinkFails = fs.unlinkFails := by
  intro rest
  induction rest with
  | nil =>
    intro i fs lo le r hres
    rw [runAttempts_nil] at hres
    exact absurd hres (by simp)
  | cons args rest ih =>
    intro i fs lo le r hres
    cases hD : (((env.attempts i).writes.foldl FS.upsert fs).existsSync out &&
        fileNonEmpty ((env.attempts i).writes.foldl FS.upsert fs) out)
    · rcases hn : newestByMtime ((env.attempts i).writes.foldl FS.upsert fs)
          ((listTxt ((env.attempts i).writes.foldl FS.upsert fs) dir).filter
            (fun p => !(pre.contains p))) with _ | nw
      · have hmiss : ∀ nw', newestByMtime ((env.attempts i).writes.foldl FS.upsert fs)
            ((listTxt ((env.attempts i).writes.foldl FS.upsert fs) dir).filter
              (fun p => !(pre.contains p))) = some nw' →
            fileNonEmpty ((env.attempts i).writes.foldl FS.upsert fs) nw' = false := by
          intro nw' h'
          rw [hn] at h'
          exact absurd h' (by simp)
        rw [runAttempts_cons_next env bin out dir wav w pre i args rest fs lo le hD hmiss]
          at hres ⊢
        obtain ⟨fsX, hfs, hu⟩ := ih (i + 1) ((env.attempts i).writes.foldl FS.upsert fs)
          (env.attempts i).stdout (env.attempts i).stderr r hres
        exact ⟨fsX, hfs, by rw [hu, foldl_upsert_unlinkFails]⟩
      · cases hne : fileNonEmpty ((env.attempts i).writes.foldl FS.upsert fs) nw
        · have hmiss : ∀ nw', newestByMtime ((env.attempts i).writes.foldl FS.upsert fs)
              ((listTxt ((env.attempts i).writes.foldl FS.upsert fs) dir).filter
                (fun p => !(pre.contains p))) = some nw' →
              fileNonEmpty ((env.attempts i).writes.foldl FS.upsert fs) nw' = false := by
            intro nw' h'
            rw [hn] at h'
            injection h' with h2
            rw [← h2]
            exact hne
          rw [runAttempts_cons_next env bin out dir wav w pre i args rest fs lo le hD hmiss]
            at hres ⊢
          obtain ⟨fsX, hfs, hu⟩ := ih (i + 1) ((env.attempts i).writes.foldl FS.upsert fs)
            (env.attempts i).stdout (env.attempts i).stderr r hres
          exact ⟨fsX, hfs, by rw [hu, foldl_upsert_unlinkFails]⟩
        · rw [runAttempts_cons_heur env bin out dir wav w pre i args rest fs lo le nw
            hD hn hne]
          refine ⟨_, rfl, ?_⟩
          by_cases hdo : (normalizeLower nw != normalizeLower out) = true
          · rw [if_pos hdo, safeUnlink_unlinkFails, writeFileSync_unlinkFails,
              foldl_upsert_unlinkFails]
          · rw [if_neg hdo, writeFileSync_unlinkFails, foldl_upsert_unlinkFails]
    · rw [runAttempts_cons_direct env bin out dir wav w pre i args rest fs lo le hD]
      exact ⟨_, rfl, foldl_upsert_unlinkFails _ _⟩

theorem transcribeJob_reachLoop (env : Env) (fs0 : FS) (pl : Payload)
    (a : String) (fs1 : FS) (evC : List Ev)
    (h1 : pl.audioPath = some a) (h2 : (a == "") = false)
    (h3 : fs0.existsSync a = true)
    (hconv : (if isWavOf a then (fs0, (none : Option String), ([] : List Ev))
      else
        (let c := convertToWav fs0 env.conv (wavForWhisperOf a)
         (c.1, c.2, [Ev.convert (wavForWhisperOf a)]))) = (fs1, none, evC)) :
    transcribeJob env fs0 pl =
      afterLoop (desiredTxtOf a) (diagnosticPathOf (desiredTxtOf a))
        (wavForWhisperOf a) (isWavOf a) evC
        (runAttempts env (pickBin pl fs1 env.win32) (desiredTxtOf a)
          (pathDirname a) (wavForWhisperOf a) (isWavOf a)
          (listTxt fs1 (pathDirname a)) 0
          (variantsFor (wavForWhisperOf a) (desiredTxtOf a) (pathDirname a)
            (commonArgs pl fs1)) fs1 "" "") := by
  unfold transcribeJob
  simp only [h1]
  have hcond : (a == "" || !(fs0.existsSync a)) = false := by
    rw [h2, h3]
    rfl
  rw [hcond]
  simp only [Bool.false_eq_true, if_false]
  rw [hconv]

theorem afterLoop_some {out diag wav : String} {isWav : Bool} {evC : List Ev}
    {L : LoopOut} {r : JobResult} (h : L.result = some r) :
    afterLoop out diag wav isWav evC L = (r, L.fs, evC ++ L.trace) := by
  unfold afterLoop
  rw [h]

theorem afterLoop_fallback {out diag wav : String} {isWav : Bool}
    {evC : List Ev} {L : LoopOut} (h : L.result = none)
    (ht : (L.lastOut != "" && strTrim L.lastOut != "") = true) :
    afterLoop out diag wav isWav evC L =
      ({ ok := true, outputPath := some out, error := none,
         note := some "Saved from stdout fallback." },
       cleanupTemp (L.fs.writeFileSync out L.lastOut) wav isWav,
       evC ++ L.trace ++ [Ev.writeFile out] ++ cleanupEvs wav isWav) := by
  unfold afterLoop
  rw [h, ht]
  rfl

theorem afterLoop_failure {out diag wav : String} {isWav : Bool}
    {evC : List Ev} {L : LoopOut} (h : L.result = none)
    (ht : (L.lastOut != "" && strTrim L.lastOut != "") = false) :
    afterLoop out diag wav isWav evC L =
      ({ ok := false, outputPath := none, error := some (failureMsg diag),
         note := none },
       cleanupTemp (L.fs.writeFileSync diag (diagContent L.lastOut L.lastErr))
         wav isWav,
       evC ++ L.trace ++ [Ev.writeFile diag] ++ cleanupEvs wav isWav) := by
  unfold afterLoop
  rw [h, ht]
  rfl

theorem path_derivation_mk (dir base ext : String) (hdir : dir ≠ "")
    (hbase : base ≠ "") (hb1 : '/' ∉ base.toList)
    (he1 : '/' ∉ ext.toList) (he2 : '.' ∉ ext.toList) :
    pathDirname (dir ++ "/" ++ base ++ "." ++ ext) = dir ∧
    pathExtname (dir ++ "/" ++ base ++ "." ++ ext) = "." ++ ext ∧
    pathBasenameExt (dir ++ "/" ++ base ++ "." ++ ext)
      (pathExtname (dir ++ "/" ++ base ++ "." ++ ext)) = base := by
  have hp : (dir ++ "/" ++ base ++ "." ++ ext).toList =
      dir.toList ++ '/' :: (base.toList ++ '.' :: ext.toList) := by
    show (dir ++ "/" ++ base ++ "." ++ ext).data = _
    simp only [String.data_append, List.append_assoc]
    rfl
  have hn : '/' ∉ base.toList ++ '.' :: ext.toList := by
    intro hm
    rcases List.mem_append.mp hm with hmm | hmm
    · exact hb1 hmm
    · rcases List.mem_cons.mp hmm with hmm | hmm
      · exact absurd hmm (by decide)
      · exact he1 hmm
  have hdl : dir.toList ≠ [] := fun hz => hdir (String.ext hz)
  have hbl : base.toList ≠ [] := fun hz => hbase (String.ext hz)
  have hdirn : pathDirname (dir ++ "/" ++ base ++ "." ++ ext) = dir := by
    unfold pathDirname
    rw [hp, dirNameCh_append hn hdl]
    exact mk_data dir
  have hbase' : baseNameCh (dir ++ "/" ++ base ++ "." ++ ext).toList =
      base.toList ++ '.' :: ext.toList := by
    rw [hp]
    exact baseNameCh_append hn
  have hextn : pathExtname (dir ++ "/" ++ base ++ "." ++ ext) = "." ++ ext := by
    unfold pathExtname extNameCh
    rw [hbase', lastDotSplit_append he2]
    show String.mk (if base.toList = [] then [] else '.' :: ext.toList) = "." ++ ext
    rw [if_neg hbl]
    apply string_data_eq
    show '.' :: ext.toList = ("." ++ ext).data
    rw [String.data_append]
    rfl
  refine ⟨hdirn, hextn, ?_⟩
  unfold pathBasenameExt baseNameExtCh
  rw [hextn]
  have hextL : ("." ++ ext).toList = '.' :: ext.toList := by
    show ("." ++ ext).data = _
    rw [String.data_append]
    rfl
  rw [hbase', hextL]
  have hcond : ('.' :: ext.toList ≠ [] ∧
      ('.' :: ext.toList).isSuffixOf (base.toList ++ '.' :: ext.toList) ∧
      base.toList ++ '.' :: ext.toList ≠ '.' :: ext.toList) := by
    refine ⟨by simp, ?_, ?_⟩
    · exact List.isSuffixOf_iff_suffix.mpr ⟨base.toList, rfl⟩
    · intro hq
      have hlen := congrArg List.length hq
      simp only [List.length_append, List.length_cons] at hlen
      have : base.toList.length = 0 := by omega
      exact hbl (List.length_eq_zero.mp this)
  rw [if_pos hcond]
  have hlen2 : (base.toList ++ '.' :: ext.toList).length -
      ('.' :: ext.toList).length = base.toList.length := by
    simp only [List.length_append, List.length_cons]
    omega
  rw [hlen2, List.take_left]
  exact mk_data base

/-- C3 counterexample: the temporary converted waveform for `/a/song.mp3`
is `/a/song__whisper_tmp.wav` (`main.js` line 72), not the
`/a/song__tmp.wav` the claim's naming contract states. -/
theorem c3_counterexample :
    tempWavOf "/a/song.mp3" = "/a/song__whisper_tmp.wav" ∧
    tempWavOf "/a/song.mp3" ≠ "/a/song__tmp.wav" := by
  constructor
  · decide
  · decide

/-- C3 (amended): for every input path `<dir>/<base>.<ext>` (components
well-formed: directory non-empty, base non-empty and separator-free,
extension free of separators and dots), the canonical output path is
exactly `<dir>/<base>.txt`, the temporary converted waveform path is
exactly `<dir>/<base>__whisper_tmp.wav`, and the diagnostic log path is
exactly `<dir>/<base>.log.txt`, all derived deterministically from the
input path. -/
theorem c3_path_naming (dir base ext : String) (hdir : dir ≠ "")
    (hbase : base ≠ "") (hb1 : '/' ∉ base.toList)
    (he1 : '/' ∉ ext.toList) (he2 : '.' ∉ ext.toList) :
    desiredTxtOf (dir ++ "/" ++ base ++ "." ++ ext) =
      dir ++ "/" ++ base ++ ".txt" ∧
    tempWavOf (dir ++ "/" ++ base ++ "." ++ ext) =
      dir ++ "/" ++ base ++ "__whisper_tmp.wav" ∧
    diagnosticPathOf (desiredTxtOf (dir ++ "/" ++ base ++ "." ++ ext)) =
      dir ++ "/" ++ base ++ ".log.txt" := by
  obtain ⟨hd, _, hb⟩ := path_derivation_mk dir base ext hdir hbase hb1 he1 he2
  have hstem : stemOf (dir ++ "/" ++ base ++ "." ++ ext) = dir ++ "/" ++ base := by
    unfold stemOf
    rw [hd, hb]
  refine ⟨?_, ?_, ?_⟩
  · rw [desiredTxtOf_stem, hstem]
  · rw [tempWavOf_stem, hstem]
  · rw [diag_eq_stem, hstem]

/-- Witness for the amended C3 at the concrete input `/a/song.mp3`. -/
theorem c3_path_naming_witness :
    (("/a" : String) ≠ "" ∧ ("song" : String) ≠ "" ∧
      '/' ∉ ("song" : String).toList ∧ '/' ∉ ("mp3" : String).toList ∧
      '.' ∉ ("mp3" : String).toList) ∧
    (desiredTxtOf ("/a" ++ "/" ++ "song" ++ "." ++ "mp3") =
        "/a" ++ "/" ++ "song" ++ ".txt" ∧
      tempWavOf ("/a" ++ "/" ++ "song" ++ "." ++ "mp3") =
        "/a" ++ "/" ++ "song" ++ "__whisper_tmp.wav" ∧
      diagnosticPathOf (desiredTxtOf ("/a" ++ "/" ++ "song" ++ "." ++ "mp3")) =
        "/a" ++ "/" ++ "song" ++ ".log.txt") :=
  ⟨⟨by decide, by decide, by decide, by decide, by decide⟩,
    c3_path_naming "/a" "song" "mp3" (by decide) (by decide) (by decide)
      (by decide) (by decide)⟩

/-- C10: every filesystem probe used by the output resolver and cleanup is
total — a failed directory listing yields an empty candidate set, a failed
stat makes `fileNonEmpty` report empty and keeps the file out of
newest-file selection (any selected file has a working stat and is
present), and a failed delete leaves the filesystem unchanged, so these
helpers are total functions that cannot raise an error that fails the
job. -/
theorem c10_probe_totality (fs : FS) (dir p : String) (ps : List String) :
    (fs.readdirFails dir = true → listTxt fs dir = []) ∧
    (fs.statFails p = true → fileNonEmpty fs p = false) ∧
    (∀ q, newestByMtime fs ps = some q →
      fs.statFails q = false ∧ (fs.lookup q).isSome = true) ∧
    (fs.unlinkFails p = true → safeUnlink fs p = fs) := by
  refine ⟨?_, ?_, ?_, ?_⟩
  · intro h
    unfold listTxt
    rw [if_pos h]
  · intro h
    unfold fileNonEmpty FS.statSync
    rw [if_pos h]
  · intro q hq
    exact ⟨(newestByMtime_spec hq).2.1, (newestByMtime_spec hq).2.2⟩
  · intro h
    unfold safeUnlink
    rw [if_pos h]

/-- Witness for C10 with every fault switch set. -/
theorem c10_probe_totality_witness :
    ((FS.mk [] 0 (fun _ => true) (fun _ => true) (fun _ => true)).readdirFails "d" = true ∧
      listTxt (FS.mk [] 0 (fun _ => true) (fun _ => true) (fun _ => true)) "d" = []) ∧
    ((FS.mk [] 0 (fun _ => true) (fun _ => true) (fun _ => true)).statFails "p" = true ∧
      fileNonEmpty (FS.mk [] 0 (fun _ => true) (fun _ => true) (fun _ => true)) "p" = false) ∧
    ((FS.mk [] 0 (fun _ => true) (fun _ => true) (fun _ => true)).unlinkFails "p" = true ∧
      safeUnlink (FS.mk [] 0 (fun _ => true) (fun _ => true) (fun _ => true)) "p" =
        FS.mk [] 0 (fun _ => true) (fun _ => true) (fun _ => true)) :=
  ⟨⟨rfl, (c10_probe_totality (FS.mk [] 0 (fun _ => true) (fun _ => true) (fun _ => true))
      "d" "p" []).1 rfl⟩,
   ⟨rfl, (c10_probe_totality (FS.mk [] 0 (fun _ => true) (fun _ => true) (fun _ => true))
      "d" "p" []).2.1 rfl⟩,
   ⟨rfl, (c10_probe_totality (FS.mk [] 0 (fun _ => true) (fun _ => true) (fun _ => true))
      "d" "p" []).2.2.2 rfl⟩⟩

theorem runAttempts_congr (env env' : Env)
    (hatt : ∀ j, (env'.attempts j).stdout = (env.attempts j).stdout ∧
      (env'.attempts j).stderr = (env.attempts j).stderr ∧
      (env'.attempts j).writes = (env.attempts j).writes) :
    ∀ (bin out dir wav : String) (w : Bool) (pre : List String)
      (rest : List (List String)) (i : Nat) (fs : FS) (lo le : String),
      runAttempts env' bin out dir wav w pre i rest fs lo le =
        runAttempts env bin out dir wav w pre i rest fs lo le := by
  intro bin out dir wav w pre rest
  induction rest with
  | nil =>
    intro i fs lo le
    rfl
  | cons args rest ih =>
    intro i fs lo le
    obtain ⟨ho, he, hw⟩ := hatt i
    simp only [runAttempts, execFileSafe, ho, he, hw, ih]

/-- C7: the transcriber call always completes with captured stdout and
stderr regardless of the child's exit status — `execFileSafe` never
consults the exit code, and two environments whose attempts differ only in
exit codes drive the whole job to identical results, filesystems and
traces, so a non-zero exit never fails an attempt or short-circuits the
variant loop. -/
theorem c7_exit_code_ignored (env env' : Env) (fs0 : FS) (pl : Payload)
    (hwin : env'.win32 = env.win32) (hconv : env'.conv = env.conv)
    (hatt : ∀ j, (env'.attempts j).stdout = (env.attempts j).stdout ∧
      (env'.attempts j).stderr = (env.attempts j).stderr ∧
      (env'.attempts j).writes = (env.attempts j).writes) :
    (∀ o : AttemptOutcome, execFileSafe o = (o.stdout, o.stderr)) ∧
    transcribeJob env' fs0 pl = transcribeJob env fs0 pl := by
  refine ⟨fun o => rfl, ?_⟩
  simp only [transcribeJob, hwin, hconv, runAttempts_congr env env' hatt]

/-- Witness for C7: two environments identical except for the exit code
(0 versus 7) produce the same job outcome. -/
theorem c7_exit_code_ignored_witness :
    ((Env.mk true (ConvOutcome.notFound "m")
        (fun _ => AttemptOutcome.mk "so" "se" 7 [])).win32 =
      (Env.mk true (ConvOutcome.notFound "m")
        (fun _ => AttemptOutcome.mk "so" "se" 0 [])).win32 ∧
      (Env.mk true (ConvOutcome.notFound "m")
        (fun _ => AttemptOutcome.mk "so" "se" 7 [])).conv =
      (Env.mk true (ConvOutcome.notFound "m")
        (fun _ => AttemptOutcome.mk "so" "se" 0 [])).conv) ∧
    transcribeJob (Env.mk true (ConvOutcome.notFound "m")
        (fun _ => AttemptOutcome.mk "so" "se" 7 []))
      (FS.mk [FileEntry.mk "/a/x.wav" "RIFF" 0] 0
        (fun _ => false) (fun _ => false) (fun _ => false))
      (Payload.mk (some "/a/x.wav") none none none false) =
    transcribeJob (Env.mk true (ConvOutcome.notFound "m")
        (fun _ => AttemptOutcome.mk "so" "se" 0 []))
      (FS.mk [FileEntry.mk "/a/x.wav" "RIFF" 0] 0
        (fun _ => false) (fun _ => false) (fun _ => false))
      (Payload.mk (some "/a/x.wav") none none none false) :=
  ⟨⟨rfl, rfl⟩,
    (c7_exit_code_ignored
      (Env.mk true (ConvOutcome.notFound "m")
        (fun _ => AttemptOutcome.mk "so" "se" 0 []))
      (Env.mk true (ConvOutcome.notFound "m")
        (fun _ => AttemptOutcome.mk "so" "se" 7 []))
      (FS.mk [FileEntry.mk "/a/x.wav" "RIFF" 0] 0
        (fun _ => false) (fun _ => false) (fun _ => false))
      (Payload.mk (some "/a/x.wav") none none none false)
      rfl rfl (fun _ => ⟨rfl, rfl, rfl⟩)).2⟩

theorem transcribeJob_cases (env : Env) (fs0 : FS) (pl : Payload) :
    (transcribeJob env fs0 pl).1.ok = false ∨
    (∃ a fs1 evC, pl.audioPath = some a ∧ (a == "") = false ∧
      fs0.existsSync a = true ∧
      (if isWavOf a then (fs0, (none : Option String), ([] : List Ev))
        else
          (let c := convertToWav fs0 env.conv (wavForWhisperOf a)
           (c.1, c.2, [Ev.convert (wavForWhisperOf a)]))) = (fs1, none, evC) ∧
      transcribeJob env fs0 pl =
        afterLoop (desiredTxtOf a) (diagnosticPathOf (desiredTxtOf a))
          (wavForWhisperOf a) (isWavOf a) evC
          (runAttempts env (pickBin pl fs1 env.win32) (desiredTxtOf a)
            (pathDirname a) (wavForWhisperOf a) (isWavOf a)
            (listTxt fs1 (pathDirname a)) 0
            (variantsFor (wavForWhisperOf a) (desiredTxtOf a) (pathDirname a)
              (commonArgs pl fs1)) fs1 "" "")) := by
  rcases hA : pl.audioPath with _ | a
  · left
    simp [transcribeJob, hA]
  · by_cases hcond : (a == "" || !(fs0.existsSync a)) = true
    · left
      simp only [transcribeJob, hA, hcond, if_true]
    · have h2 : (a == "") = false ∧ fs0.existsSync a = true := by
        rcases hb : (a == "") with _ | _
        · rcases hx : fs0.existsSync a with _ | _
          · exact absurd (by rw [hb, hx]; rfl) hcond
          · exact ⟨rfl, rfl⟩
        · exact absurd (by rw [hb]; rfl) hcond
      rcases hC : (if isWavOf a then (fs0, (none : Option String), ([] : List Ev))
        else
          (let c := convertToWav fs0 env.conv (wavForWhisperOf a)
           (c.1, c.2, [Ev.convert (wavForWhisperOf a)]))) with ⟨fs1, oc, evC⟩
      cases oc with
      | some msg =>
        left
        have hcond' : (a == "" || !(fs0.existsSync a)) = false := by
          rw [h2.1, h2.2]
          rfl
        unfold transcribeJob
        simp only [hA]
        rw [hcond']
        simp only [Bool.false_eq_true, if_false]
        rw [hC]
      | none =>
        right
        exact ⟨a, fs1, evC, rfl, h2.1, h2.2, hC,
          transcribeJob_reachLoop env fs0 pl a fs1 evC hA h2.1 h2.2 hC⟩

/-- A non-empty string has positive length. -/
theorem length_pos_of_ne_empty {s : String} (h : s ≠ "") : 0 < s.length := by
  show 0 < s.data.length
  cases hd : s.data with
  | nil => exact absurd (String.ext hd) h
  | cons c cs => simp

/-- C4: whenever the job result reports `ok`, the returned output path is
the canonical output path and the file there exists on the final
filesystem with non-empty content — covering all three provenance routes
(direct match, heuristic copy, stdout fallback). -/
theorem c4_ok_implies_output (env : Env) (fs0 : FS) (pl : Payload)
    (hok : (transcribeJob env fs0 pl).1.ok = true) :
    ∃ p e, (transcribeJob env fs0 pl).1.outputPath = some p ∧
      (∀ a, pl.audioPath = some a → p = desiredTxtOf a) ∧
      (transcribeJob env fs0 pl).2.1.lookup p = some e ∧
      0 < e.content.length := by
  rcases transcribeJob_cases env fs0 pl with h | ⟨a, fs1, evC, hA, _, _, _, heq⟩
  · rw [hok] at h
    exact absurd h (by simp)
  · have hwo : isWavOf a = true ∨ wavForWhisperOf a ≠ desiredTxtOf a := by
      cases hW : isWavOf a
      · right
        unfold wavForWhisperOf
        rw [hW]
        simp only [Bool.false_eq_true, if_false]
        exact fun hc => desiredTxt_ne_tempWav a hc.symm
      · exact Or.inl rfl
    rw [heq] at hok ⊢
    rcases hres : (runAttempts env (pickBin pl fs1 env.win32) (desiredTxtOf a)
        (pathDirname a) (wavForWhisperOf a) (isWavOf a)
        (listTxt fs1 (pathDirname a)) 0
        (variantsFor (wavForWhisperOf a) (desiredTxtOf a) (pathDirname a)
          (commonArgs pl fs1)) fs1 "" "").result with _ | r
    · set L := runAttempts env (pickBin pl fs1 env.win32) (desiredTxtOf a)
        (pathDirname a) (wavForWhisperOf a) (isWavOf a)
        (listTxt fs1 (pathDirname a)) 0
        (variantsFor (wavForWhisperOf a) (desiredTxtOf a) (pathDirname a)
          (commonArgs pl fs1)) fs1 "" "" with hL
      cases htb : (L.lastOut != "" && strTrim L.lastOut != "")
      · rw [afterLoop_failure hres htb] at hok
        exact absurd hok (by simp)
      · rw [afterLoop_fallback hres htb] at hok ⊢
        have hlo : L.lastOut ≠ "" := by
          have h1 : (L.lastOut != "") = true := (Bool.and_eq_true_iff.mp htb).1
          exact bne_iff_ne.mp h1
        have hwrite : (L.fs.writeFileSync (desiredTxtOf a) L.lastOut).lookup
            (desiredTxtOf a) =
            some (FileEntry.mk (desiredTxtOf a) L.lastOut L.fs.clock) :=
          lookup_writeFileSync_self L.fs (desiredTxtOf a) L.lastOut
        refine ⟨desiredTxtOf a,
          FileEntry.mk (desiredTxtOf a) L.lastOut L.fs.clock,
          rfl, ?_, ?_, length_pos_of_ne_empty hlo⟩
        · intro a' ha'
          rw [hA] at ha'
          injection ha' with ha2
          rw [ha2]
        · show (cleanupTemp (L.fs.writeFileSync (desiredTxtOf a) L.lastOut)
            (wavForWhisperOf a) (isWavOf a)).lookup (desiredTxtOf a) = _
          rcases hwo with hW | hW
          · rw [hW, cleanupTemp_true]
            exact hwrite
          · rw [lookup_cleanupTemp_ne _ _ (fun hc => hW hc.symm)]
            exact hwrite
    · obtain ⟨hr, e, hlook, hlen⟩ := runAttempts_some_spec env
        (pickBin pl fs1 env.win32) (desiredTxtOf a) (pathDirname a)
        (wavForWhisperOf a) (isWavOf a) (listTxt fs1 (pathDirname a)) hwo
        (variantsFor (wavForWhisperOf a) (desiredTxtOf a) (pathDirname a)
          (commonArgs pl fs1)) 0 fs1 "" "" r hres
      rw [afterLoop_some hres]
      refine ⟨desiredTxtOf a, e, ?_, ?_, hlook, hlen⟩
      · rw [hr]
      · intro a' ha'
        rw [hA] at ha'
        injection ha' with ha2
        rw [ha2]

/-- Witness for C4: a WAV input whose first attempt writes the canonical
output directly; the job reports `ok` and the file is on disk non-empty. -/
theorem c4_ok_implies_output_witness :
    (transcribeJob
      (Env.mk true (ConvOutcome.ran 1 none "x")
        (fun i => if i = 0
          then AttemptOutcome.mk "so" "se" 1 [FileEntry.mk "/d/song.txt" "hello world" 50]
          else AttemptOutcome.mk "" "" 0 []))
      (FS.mk [FileEntry.mk "/d/song.wav" "RIFF" 0] 100
        (fun _ => false) (fun _ => false) (fun _ => false))
      (Payload.mk (some "/d/song.wav") none none none false)).1.ok = true ∧
    (∃ p e, (transcribeJob
      (Env.mk true (ConvOutcome.ran 1 none "x")
        (fun i => if i = 0
          then AttemptOutcome.mk "so" "se" 1 [FileEntry.mk "/d/song.txt" "hello world" 50]
          else AttemptOutcome.mk "" "" 0 []))
      (FS.mk [FileEntry.mk "/d/song.wav" "RIFF" 0] 100
        (fun _ => false) (fun _ => false) (fun _ => false))
      (Payload.mk (some "/d/song.wav") none none none false)).1.outputPath = some p ∧
      (∀ a, (Payload.mk (some "/d/song.wav") none none none false).audioPath = some a →
        p = desiredTxtOf a) ∧
      (transcribeJob
        (Env.mk true (ConvOutcome.ran 1 none "x")
          (fun i => if i = 0
            then AttemptOutcome.mk "so" "se" 1 [FileEntry.mk "/d/song.txt" "hello world" 50]
            else AttemptOutcome.mk "" "" 0 []))
        (FS.mk [FileEntry.mk "/d/song.wav" "RIFF" 0] 100
          (fun _ => false) (fun _ => false) (fun _ => false))
        (Payload.mk (some "/d/song.wav") none none none false)).2.1.lookup p = some e ∧
      0 < e.content.length) :=
  ⟨by decide,
    c4_ok_implies_output
      (Env.mk true (ConvOutcome.ran 1 none "x")
        (fun i => if i = 0
          then AttemptOutcome.mk "so" "se" 1 [FileEntry.mk "/d/song.txt" "hello world" 50]
          else AttemptOutcome.mk "" "" 0 []))
      (FS.mk [FileEntry.mk "/d/song.wav" "RIFF" 0] 100
        (fun _ => false) (fun _ => false) (fun _ => false))
      (Payload.mk (some "/d/song.wav") none none none false)
      (by decide)⟩

theorem fileNonEmpty_congr {fs fs' : FS} {p : String}
    (hstat : fs'.statFails p = fs.statFails p)
    (hlook : fs'.lookup p = fs.lookup p) :
    fileNonEmpty fs' p = fileNonEmpty fs p := by
  unfold fileNonEmpty FS.statSync
  rw [hstat, hlook]

theorem existsSync_congr {fs fs' : FS} {p : String}
    (hstat : fs'.statFails p = fs.statFails p)
    (hlook : fs'.lookup p = fs.lookup p) :
    fs'.existsSync p = fs.existsSync p := by
  unfold FS.existsSync FS.statSync
  rw [hstat, hlook]

theorem convertToWav_lookup_ne {fs0 : FS} {c : ConvOutcome} {outWav p : String}
    (h : p ≠ outWav) : (convertToWav fs0 c outWav).1.lookup p = fs0.lookup p := by
  cases c with
  | notFound m => rfl
  | ran code written errBuf =>
    rcases written with _ | ⟨content, t⟩
    · simp only [convertToWav]
      split <;> rfl
    · simp only [convertToWav]
      have hu : (fs0.upsert (FileEntry.mk outWav content t)).lookup p =
          fs0.lookup p := by
        rw [lookup_upsert, if_neg (fun hc => h hc.symm)]
      split <;> exact hu

theorem convertToWav_statFails (fs0 : FS) (c : ConvOutcome) (outWav : String) :
    (convertToWav fs0 c outWav).1.statFails = fs0.statFails := by
  cases c with
  | notFound m => rfl
  | ran code written errBuf =>
    rcases written with _ | ⟨content, t⟩
    · simp only [convertToWav]
      split <;> rfl
    · simp only [convertToWav]
      split <;> rfl

theorem convertToWav_unlinkFails (fs0 : FS) (c : ConvOutcome) (outWav : String) :
    (convertToWav fs0 c outWav).1.unlinkFails = fs0.unlinkFails := by
  cases c with
  | notFound m => rfl
  | ran code written errBuf =>
    rcases written with _ | ⟨content, t⟩
    · simp only [convertToWav]
      split <;> rfl
    · simp only [convertToWav]
      split <;> rfl

theorem conv_triple_cases {env : Env} {fs0 : FS} {a : String} {fs1 : FS}
    {evC : List Ev}
    (hconv : (if isWavOf a then (fs0, (none : Option String), ([] : List Ev))
      else
        (let c := convertToWav fs0 env.conv (wavForWhisperOf a)
         (c.1, c.2, [Ev.convert (wavForWhisperOf a)]))) = (fs1, none, evC)) :
    (isWavOf a = true ∧ fs1 = fs0 ∧ evC = []) ∨
    (isWavOf a = false ∧ fs1 = (convertToWav fs0 env.conv (wavForWhisperOf a)).1 ∧
      evC = [Ev.convert (wavForWhisperOf a)]) := by
  cases hW : isWavOf a
  · rw [hW] at hconv
    simp only [Bool.false_eq_true, if_false] at hconv
    injection hconv with hc1 hc2
    injection hc2 with hc2 hc3
    exact Or.inr ⟨rfl, hc1.symm, hc3.symm⟩
  · rw [hW] at hconv
    simp only [if_true] at hconv
    injection hconv with hc1 hc2
    injection hc2 with hc2 hc3
    exact Or.inl ⟨rfl, hc1.symm, hc3.symm⟩

theorem fs1_lookup_out {env : Env} {fs0 : FS} {a : String} {fs1 : FS}
    {evC : List Ev}
    (hconv : (if isWavOf a then (fs0, (none : Option String), ([] : List Ev))
      else
        (let c := convertToWav fs0 env.conv (wavForWhisperOf a)
         (c.1, c.2, [Ev.convert (wavForWhisperOf a)]))) = (fs1, none, evC)) :
    fs1.lookup (desiredTxtOf a) = fs0.lookup (desiredTxtOf a) ∧
    fs1.statFails = fs0.statFails ∧ fs1.unlinkFails = fs0.unlinkFails := by
  rcases conv_triple_cases hconv with ⟨_, hfs, _⟩ | ⟨hW, hfs, _⟩
  · rw [hfs]
    exact ⟨rfl, rfl, rfl⟩
  · rw [hfs]
    have hwave : wavForWhisperOf a = tempWavOf a := by
      unfold wavForWhisperOf
      rw [hW]
      simp
    refine ⟨?_, convertToWav_statFails fs0 env.conv (wavForWhisperOf a),
      convertToWav_unlinkFails fs0 env.conv (wavForWhisperOf a)⟩
    apply convertToWav_lookup_ne
    rw [hwave]
    exact desiredTxt_ne_tempWav a

/-- C8: if the canonical output path already exists with non-empty content
before any attempt runs (and neither the conversion step nor the first
attempt's external writes touch it), the very first resolution check
accepts it — the job returns `ok` with that path after attempt 0, the
trace contains no heuristic scan, and the content at the canonical path is
exactly what it was at job start. -/
theorem c8_idempotent_direct_accept (env : Env) (fs0 : FS) (pl : Payload)
    (a : String) (fs1 : FS) (evC : List Ev)
    (hA : pl.audioPath = some a) (h2 : (a == "") = false)
    (h3 : fs0.existsSync a = true)
    (hconv : (if isWavOf a then (fs0, (none : Option String), ([] : List Ev))
      else
        (let c := convertToWav fs0 env.conv (wavForWhisperOf a)
         (c.1, c.2, [Ev.convert (wavForWhisperOf a)]))) = (fs1, none, evC))
    (hpre : fileNonEmpty fs1 (desiredTxtOf a) = true)
    (hw0 : ∀ e ∈ (env.attempts 0).writes, e.path ≠ desiredTxtOf a) :
    (transcribeJob env fs0 pl).1 =
      { ok := true, outputPath := some (desiredTxtOf a), error := none,
        note := none } ∧
    (∀ i snap cands, Ev.heuristicScan i snap cands ∉ (transcribeJob env fs0 pl).2.2) ∧
    (transcribeJob env fs0 pl).2.1.lookup (desiredTxtOf a) =
      fs0.lookup (desiredTxtOf a) := by
  rw [transcribeJob_reachLoop env fs0 pl a fs1 evC hA h2 h3 hconv]
  have hvs : variantsFor (wavForWhisperOf a) (desiredTxtOf a) (pathDirname a)
      (commonArgs pl fs1) =
      (["-f", wavForWhisperOf a, "-otxt", "-of", desiredTxtOf a] ++
        commonArgs pl fs1) ::
      [["-f", wavForWhisperOf a, "-otxt", "--output-file", desiredTxtOf a] ++
        commonArgs pl fs1,
       ["-f", wavForWhisperOf a, "-otxt", "-o", pathDirname a] ++ commonArgs pl fs1,
       ["-f", wavForWhisperOf a, "-otxt"] ++ commonArgs pl fs1] := rfl
  have hstat0 : ((env.attempts 0).writes.foldl FS.upsert fs1).statFails
      (desiredTxtOf a) = fs1.statFails (desiredTxtOf a) := by
    rw [foldl_upsert_statFails]
  have hlook0 : ((env.attempts 0).writes.foldl FS.upsert fs1).lookup
      (desiredTxtOf a) = fs1.lookup (desiredTxtOf a) :=
    lookup_foldl_upsert_not_mem fs1 hw0
  have hne0 : fileNonEmpty ((env.attempts 0).writes.foldl FS.upsert fs1)
      (desiredTxtOf a) = true := by
    rw [fileNonEmpty_congr hstat0 hlook0]
    exact hpre
  have hex0 : ((env.attempts 0).writes.foldl FS.upsert fs1).existsSync
      (desiredTxtOf a) = true := by
    unfold fileNonEmpty at hne0
    unfold FS.existsSync
    rcases hst : ((env.attempts 0).writes.foldl FS.upsert fs1).statSync
        (desiredTxtOf a) with _ | e
    · rw [hst] at hne0
      exact absurd hne0 (by simp)
    · rfl
  have hdir : (((env.attempts 0).writes.foldl FS.upsert fs1).existsSync
      (desiredTxtOf a) && fileNonEmpty ((env.attempts 0).writes.foldl FS.upsert fs1)
      (desiredTxtOf a)) = true := by
    rw [hex0, hne0]
    rfl
  rw [hvs, runAttempts_cons_direct env (pickBin pl fs1 env.win32) (desiredTxtOf a)
    (pathDirname a) (wavForWhisperOf a) (isWavOf a) (listTxt fs1 (pathDirname a))
    0 _ _ fs1 "" "" hdir]
  rw [afterLoop_some rfl]
  refine ⟨rfl, ?_, ?_⟩
  · intro i snap cands hm
    rcases List.mem_append.mp hm with h | h
    · rcases conv_triple_cases hconv with ⟨_, _, hev⟩ | ⟨_, _, hev⟩ <;>
        rw [hev] at h <;> simp at h
    · rcases List.mem_append.mp h with h | h
      · rcases List.mem_cons.mp h with h | h
        · exact absurd h (by simp)
        · rcases List.mem_cons.mp h with h | h
          · exact absurd h (by simp)
          · exact absurd h (List.not_mem_nil _)
      · obtain ⟨_, he⟩ := mem_cleanupEvs_elim h
        exact absurd he (by simp)
  · show (cleanupTemp ((env.attempts 0).writes.foldl FS.upsert fs1)
      (wavForWhisperOf a) (isWavOf a)).lookup (desiredTxtOf a) = _
    have hbase := (fs1_lookup_out hconv).1
    cases hW : isWavOf a
    · rw [cleanupTemp_false]
      have hwave : wavForWhisperOf a = tempWavOf a := by
        unfold wavForWhisperOf
        rw [hW]
        simp
      rw [lookup_safeUnlink_ne _ (by rw [hwave]; exact desiredTxt_ne_tempWav a),
        hlook0, hbase]
    · rw [cleanupTemp_true, hlook0, hbase]

/-- Witness for C8: WAV input with the canonical output already on disk
and an attempt that writes nothing; the first direct check accepts it. -/
theorem c8_idempotent_direct_accept_witness :
    ((Payload.mk (some "/d/x.wav") none none none false).audioPath = some "/d/x.wav" ∧
      (("/d/x.wav" : String) == "") = false ∧
      (FS.mk [FileEntry.mk "/d/x.wav" "R" 0, FileEntry.mk "/d/x.txt" "old" 1] 9
        (fun _ => false) (fun _ => false) (fun _ => false)).existsSync "/d/x.wav" = true ∧
      fileNonEmpty (FS.mk [FileEntry.mk "/d/x.wav" "R" 0, FileEntry.mk "/d/x.txt" "old" 1] 9
        (fun _ => false) (fun _ => false) (fun _ => false)) (desiredTxtOf "/d/x.wav") = true) ∧
    ((transcribeJob (Env.mk true (ConvOutcome.notFound "m")
        (fun _ => AttemptOutcome.mk "" "" 0 []))
      (FS.mk [FileEntry.mk "/d/x.wav" "R" 0, FileEntry.mk "/d/x.txt" "old" 1] 9
        (fun _ => false) (fun _ => false) (fun _ => false))
      (Payload.mk (some "/d/x.wav") none none none false)).1 =
      { ok := true, outputPath := some (desiredTxtOf "/d/x.wav"), error := none,
        note := none } ∧
    (∀ i snap cands, Ev.heuristicScan i snap cands ∉
      (transcribeJob (Env.mk true (ConvOutcome.notFound "m")
        (fun _ => AttemptOutcome.mk "" "" 0 []))
      (FS.mk [FileEntry.mk "/d/x.wav" "R" 0, FileEntry.mk "/d/x.txt" "old" 1] 9
        (fun _ => false) (fun _ => false) (fun _ => false))
      (Payload.mk (some "/d/x.wav") none none none false)).2.2) ∧
    (transcribeJob (Env.mk true (ConvOutcome.notFound "m")
        (fun _ => AttemptOutcome.mk "" "" 0 []))
      (FS.mk [FileEntry.mk "/d/x.wav" "R" 0, FileEntry.mk "/d/x.txt" "old" 1] 9
        (fun _ => false) (fun _ => false) (fun _ => false))
      (Payload.mk (some "/d/x.wav") none none none false)).2.1.lookup
        (desiredTxtOf "/d/x.wav") =
      (FS.mk [FileEntry.mk "/d/x.wav" "R" 0, FileEntry.mk "/d/x.txt" "old" 1] 9
        (fun _ => false) (fun _ => false) (fun _ => false)).lookup
        (desiredTxtOf "/d/x.wav")) :=
  ⟨⟨rfl, by decide, by decide, by decide⟩,
    c8_idempotent_direct_accept (Env.mk true (ConvOutcome.notFound "m")
        (fun _ => AttemptOutcome.mk "" "" 0 []))
      (FS.mk [FileEntry.mk "/d/x.wav" "R" 0, FileEntry.mk "/d/x.txt" "old" 1] 9
        (fun _ => false) (fun _ => false) (fun _ => false))
      (Payload.mk (some "/d/x.wav") none none none false)
      "/d/x.wav"
      (FS.mk [FileEntry.mk "/d/x.wav" "R" 0, FileEntry.mk "/d/x.txt" "old" 1] 9
        (fun _ => false) (fun _ => false) (fun _ => false)) []
      rfl (by decide) (by decide) rfl (by decide) (by simp)⟩

/-- C6: when all four variants are exhausted without a direct or heuristic
match and the last captured stdout is non-empty after trimming, the
untrimmed stdout is written verbatim to the canonical output path and the
job result is `ok` with note exactly "Saved from stdout fallback.". -/
theorem c6_stdout_fallback (env : Env) (fs0 : FS) (pl : Payload)
    (a : String) (fs1 : FS) (evC : List Ev)
    (hA : pl.audioPath = some a) (h2 : (a == "") = false)
    (h3 : fs0.existsSync a = true)
    (hconv : (if isWavOf a then (fs0, (none : Option String), ([] : List Ev))
      else
        (let c := convertToWav fs0 env.conv (wavForWhisperOf a)
         (c.1, c.2, [Ev.convert (wavForWhisperOf a)]))) = (fs1, none, evC))
    (hnm : ∀ j, j < 4 → anyHit env fs1 (desiredTxtOf a) (pathDirname a)
      (listTxt fs1 (pathDirname a)) j = false)
    (ht : strTrim (env.attempts 3).stdout ≠ "") :
    (transcribeJob env fs0 pl).1 =
      { ok := true, outputPath := some (desiredTxtOf a), error := none,
        note := some "Saved from stdout fallback." } ∧
    ∃ e, (transcribeJob env fs0 pl).2.1.lookup (desiredTxtOf a) = some e ∧
      e.content = (env.attempts 3).stdout := by
  rw [transcribeJob_reachLoop env fs0 pl a fs1 evC hA h2 h3 hconv]
  have hnm' : ∀ j, j < (variantsFor (wavForWhisperOf a) (desiredTxtOf a)
      (pathDirname a) (commonArgs pl fs1)).length →
      anyHit env fs1 (desiredTxtOf a) (pathDirname a)
        (listTxt fs1 (pathDirname a)) (0 + j) = false := by
    intro j hj
    rw [Nat.zero_add]
    exact hnm j hj
  have hL' : runAttempts env (pickBin pl fs1 env.win32) (desiredTxtOf a)
      (pathDirname a) (wavForWhisperOf a) (isWavOf a)
      (listTxt fs1 (pathDirname a)) 0
      (variantsFor (wavForWhisperOf a) (desiredTxtOf a) (pathDirname a)
        (commonArgs pl fs1)) fs1 "" "" =
      { fs := attemptsFS env fs1 (0 + (variantsFor (wavForWhisperOf a)
          (desiredTxtOf a) (pathDirname a) (commonArgs pl fs1)).length),
        lastOut := lastOutN env "" 0 (variantsFor (wavForWhisperOf a)
          (desiredTxtOf a) (pathDirname a) (commonArgs pl fs1)).length,
        lastErr := lastErrN env "" 0 (variantsFor (wavForWhisperOf a)
          (desiredTxtOf a) (pathDirname a) (commonArgs pl fs1)).length,
        trace := scanTrace env fs1 (pickBin pl fs1 env.win32) (desiredTxtOf a)
          (pathDirname a) (listTxt fs1 (pathDirname a)) 0
          (variantsFor (wavForWhisperOf a) (desiredTxtOf a) (pathDirname a)
            (commonArgs pl fs1)),
        result := none } :=
    runAttempts_no_match env (pickBin pl fs1 env.win32) (desiredTxtOf a)
      (pathDirname a) (wavForWhisperOf a) (isWavOf a)
      (listTxt fs1 (pathDirname a)) fs1
      (variantsFor (wavForWhisperOf a) (desiredTxtOf a) (pathDirname a)
        (commonArgs pl fs1)) 0 "" "" hnm'
  rw [hL']
  have hso : (env.attempts 3).stdout ≠ "" := fun hz => ht (by rw [hz]; decide)
  have hbool : ((lastOutN env "" 0 (variantsFor (wavForWhisperOf a)
      (desiredTxtOf a) (pathDirname a) (commonArgs pl fs1)).length) != "" &&
      strTrim (lastOutN env "" 0 (variantsFor (wavForWhisperOf a) (desiredTxtOf a)
        (pathDirname a) (commonArgs pl fs1)).length) != "") = true := by
    show (((env.attempts 3).stdout != "") &&
      (strTrim (env.attempts 3).stdout != "")) = true
    rw [bne_iff_ne.mpr hso, bne_iff_ne.mpr ht]
    rfl
  rw [afterLoop_fallback rfl hbool]
  refine ⟨rfl, FileEntry.mk (desiredTxtOf a) ((env.attempts 3).stdout)
    (attemptsFS env fs1 (0 + (variantsFor (wavForWhisperOf a) (desiredTxtOf a)
      (pathDirname a) (commonArgs pl fs1)).length)).clock, ?_, rfl⟩
  show (cleanupTemp ((attemptsFS env fs1 _).writeFileSync (desiredTxtOf a)
    ((env.attempts 3).stdout)) (wavForWhisperOf a) (isWavOf a)).lookup
    (desiredTxtOf a) = _
  have hwrite := lookup_writeFileSync_self
    (attemptsFS env fs1 (0 + (variantsFor (wavForWhisperOf a) (desiredTxtOf a)
      (pathDirname a) (commonArgs pl fs1)).length)) (desiredTxtOf a)
    ((env.attempts 3).stdout)
  cases hW : isWavOf a
  · rw [cleanupTemp_false]
    have hwave : wavForWhisperOf a = tempWavOf a := by
      unfold wavForWhisperOf
      rw [hW]
      simp
    rw [lookup_safeUnlink_ne _ (by rw [hwave]; exact desiredTxt_ne_tempWav a)]
    exact hwrite
  · rw [cleanupTemp_true]
    exact hwrite

/-- Witness for C6: an MP3 job where conversion succeeds, no variant
produces a file, and the final stdout is "partial output text". -/
theorem c6_stdout_fallback_witness :
    ((∀ j, j < 4 → anyHit
        (Env.mk true (ConvOutcome.ran 0 (some ("W", 10)) "")
          (fun i => AttemptOutcome.mk
            (if i = 3 then "partial output text" else "x") "e" 1 []))
        (FS.mk [FileEntry.mk "/d/lec__whisper_tmp.wav" "W" 10,
          FileEntry.mk "/d/lec.mp3" "M" 0] 9
          (fun _ => false) (fun _ => false) (fun _ => false))
        (desiredTxtOf "/d/lec.mp3") (pathDirname "/d/lec.mp3")
        (listTxt (FS.mk [FileEntry.mk "/d/lec__whisper_tmp.wav" "W" 10,
          FileEntry.mk "/d/lec.mp3" "M" 0] 9
          (fun _ => false) (fun _ => false) (fun _ => false))
          (pathDirname "/d/lec.mp3")) j = false) ∧
      strTrim ((Env.mk true (ConvOutcome.ran 0 (some ("W", 10)) "")
        (fun i => AttemptOutcome.mk
          (if i = 3 then "partial output text" else "x") "e" 1 [])).attempts 3).stdout
        ≠ "") ∧
    ((transcribeJob
        (Env.mk true (ConvOutcome.ran 0 (some ("W", 10)) "")
          (fun i => AttemptOutcome.mk
            (if i = 3 then "partial output text" else "x") "e" 1 []))
        (FS.mk [FileEntry.mk "/d/lec.mp3" "M" 0] 9
          (fun _ => false) (fun _ => false) (fun _ => false))
        (Payload.mk (some "/d/lec.mp3") none none none false)).1 =
      { ok := true, outputPath := some (desiredTxtOf "/d/lec.mp3"), error := none,
        note := some "Saved from stdout fallback." } ∧
      ∃ e, (transcribeJob
        (Env.mk true (ConvOutcome.ran 0 (some ("W", 10)) "")
          (fun i => AttemptOutcome.mk
            (if i = 3 then "partial output text" else "x") "e" 1 []))
        (FS.mk [FileEntry.mk "/d/lec.mp3" "M" 0] 9
          (fun _ => false) (fun _ => false) (fun _ => false))
        (Payload.mk (some "/d/lec.mp3") none none none false)).2.1.lookup
          (desiredTxtOf "/d/lec.mp3") = some e ∧
        e.content = ((Env.mk true (ConvOutcome.ran 0 (some ("W", 10)) "")
          (fun i => AttemptOutcome.mk
            (if i = 3 then "partial output text" else "x") "e" 1 [])).attempts 3).stdout) :=
  ⟨⟨by decide, by decide⟩,
    c6_stdout_fallback
      (Env.mk true (ConvOutcome.ran 0 (some ("W", 10)) "")
        (fun i => AttemptOutcome.mk
          (if i = 3 then "partial output text" else "x") "e" 1 []))
      (FS.mk [FileEntry.mk "/d/lec.mp3" "M" 0] 9
        (fun _ => false) (fun _ => false) (fun _ => false))
      (Payload.mk (some "/d/lec.mp3") none none none false)
      "/d/lec.mp3"
      (FS.mk [FileEntry.mk "/d/lec__whisper_tmp.wav" "W" 10,
        FileEntry.mk "/d/lec.mp3" "M" 0] 9
        (fun _ => false) (fun _ => false) (fun _ => false))
      [Ev.convert "/d/lec__whisper_tmp.wav"]
      rfl (by decide) (by decide) rfl (by decide) (by decide)⟩

theorem mem_scanTrace_elim {env : Env} {fs1 : FS} {bin out dir : String}
    {pre : List String} :
    ∀ {rest : List (List String)} {i : Nat} {ev : Ev},
      ev ∈ scanTrace env fs1 bin out dir pre i rest →
      (∃ k b ar, ev = Ev.invoke k b ar) ∨
      (∃ k h, ev = Ev.directCheck k out h) ∨
      (∃ k cands, ev = Ev.heuristicScan k pre cands) := by
  intro rest
  induction rest with
  | nil =>
    intro i ev hm
    exact absurd hm (List.not_mem_nil _)
  | cons args rest ih =>
    intro i ev hm
    rcases List.mem_append.mp hm with h | h
    · rcases List.mem_cons.mp h with h | h
      · exact Or.inl ⟨i, bin, args, h⟩
      · rcases List.mem_cons.mp h with h | h
        · exact Or.inr (Or.inl ⟨i, false, h⟩)
        · rcases List.mem_cons.mp h with h | h
          · exact Or.inr (Or.inr ⟨i, heurCands env fs1 dir pre i, h⟩)
          · exact absurd h (List.not_mem_nil _)
    · exact ih h

/-- C2: the diagnostic log is written (a `writeFile` of the diagnostic path
appears in the job's trace) if and only if every invocation variant failed
to yield a direct or heuristic match and the last captured stdout is empty
after trimming; and when it is written, the log file carries the labeled
STDOUT/STDERR body built by `diagContent`, the job fails, and the failure
message is the fixed text carrying the log path. -/
theorem c2_diagnostic_iff (env : Env) (fs0 : FS) (pl : Payload)
    (a : String) (fs1 : FS) (evC : List Ev)
    (hA : pl.audioPath = some a) (h2 : (a == "") = false)
    (h3 : fs0.existsSync a = true)
    (hconv : (if isWavOf a then (fs0, (none : Option String), ([] : List Ev))
      else
        (let c := convertToWav fs0 env.conv (wavForWhisperOf a)
         (c.1, c.2, [Ev.convert (wavForWhisperOf a)]))) = (fs1, none, evC)) :
    ((Ev.writeFile (diagnosticPathOf (desiredTxtOf a)) ∈
        (transcribeJob env fs0 pl).2.2) ↔
      ((∀ j, j < 4 → anyHit env fs1 (desiredTxtOf a) (pathDirname a)
          (listTxt fs1 (pathDirname a)) j = false) ∧
        strTrim (env.attempts 3).stdout = "")) ∧
    (Ev.writeFile (diagnosticPathOf (desiredTxtOf a)) ∈
        (transcribeJob env fs0 pl).2.2 →
      (∃ e, (transcribeJob env fs0 pl).2.1.lookup
          (diagnosticPathOf (desiredTxtOf a)) = some e ∧
        e.content = diagContent (env.attempts 3).stdout (env.attempts 3).stderr) ∧
      (transcribeJob env fs0 pl).1.ok = false ∧
      (transcribeJob env fs0 pl).1.error =
        some (failureMsg (diagnosticPathOf (desiredTxtOf a)))) := by
  rw [transcribeJob_reachLoop env fs0 pl a fs1 evC hA h2 h3 hconv]
  have hevC : evC = [] ∨ evC = [Ev.convert (wavForWhisperOf a)] := by
    rcases conv_triple_cases hconv with ⟨_, _, hev⟩ | ⟨_, _, hev⟩
    · exact Or.inl hev
    · exact Or.inr hev
  rcases hres : (runAttempts env (pickBin pl fs1 env.win32) (desiredTxtOf a)
      (pathDirname a) (wavForWhisperOf a) (isWavOf a)
      (listTxt fs1 (pathDirname a)) 0
      (variantsFor (wavForWhisperOf a) (desiredTxtOf a) (pathDirname a)
        (commonArgs pl fs1)) fs1 "" "").result with _ | r
  · have hres' : (runAttempts env (pickBin pl fs1 env.win32) (desiredTxtOf a)
        (pathDirname a) (wavForWhisperOf a) (isWavOf a)
        (listTxt fs1 (pathDirname a)) 0
        (variantsFor (wavForWhisperOf a) (desiredTxtOf a) (pathDirname a)
          (commonArgs pl fs1)) (attemptsFS env fs1 0) "" "").result = none := hres
    have hnm : ∀ j, j < 4 → anyHit env fs1 (desiredTxtOf a) (pathDirname a)
        (listTxt fs1 (pathDirname a)) j = false := by
      intro j hj
      have := no_match_of_result_none env (pickBin pl fs1 env.win32)
        (desiredTxtOf a) (pathDirname a) (wavForWhisperOf a) (isWavOf a)
        (listTxt fs1 (pathDirname a)) fs1
        (variantsFor (wavForWhisperOf a) (desiredTxtOf a) (pathDirname a)
          (commonArgs pl fs1)) 0 "" "" hres' j hj
      rwa [Nat.zero_add] at this
    have hnm' : ∀ j, j < (variantsFor (wavForWhisperOf a) (desiredTxtOf a)
        (pathDirname a) (commonArgs pl fs1)).length →
        anyHit env fs1 (desiredTxtOf a) (pathDirname a)
          (listTxt fs1 (pathDirname a)) (0 + j) = false := by
      intro j hj
      rw [Nat.zero_add]
      exact hnm j hj
    have hL' : runAttempts env (pickBin pl fs1 env.win32) (desiredTxtOf a)
        (pathDirname a) (wavForWhisperOf a) (isWavOf a)
        (listTxt fs1 (pathDirname a)) 0
        (variantsFor (wavForWhisperOf a) (desiredTxtOf a) (pathDirname a)
          (commonArgs pl fs1)) fs1 "" "" =
        { fs := attemptsFS env fs1 (0 + (variantsFor (wavForWhisperOf a)
            (desiredTxtOf a) (pathDirname a) (commonArgs pl fs1)).length),
          lastOut := lastOutN env "" 0 (variantsFor (wavForWhisperOf a)
            (desiredTxtOf a) (pathDirname a) (commonArgs pl fs1)).length,
          lastErr := lastErrN env "" 0 (variantsFor (wavForWhisperOf a)
            (desiredTxtOf a) (pathDirname a) (commonArgs pl fs1)).length,
          trace := scanTrace env fs1 (pickBin pl fs1 env.win32) (desiredTxtOf a)
            (pathDirname a) (listTxt fs1 (pathDirname a)) 0
            (variantsFor (wavForWhisperOf a) (desiredTxtOf a) (pathDirname a)
              (commonArgs pl fs1)),
          result := none } :=
      runAttempts_no_match env (pickBin pl fs1 env.win32) (desiredTxtOf a)
        (pathDirname a) (wavForWhisperOf a) (isWavOf a)
        (listTxt fs1 (pathDirname a)) fs1
        (variantsFor (wavForWhisperOf a) (desiredTxtOf a) (pathDirname a)
          (commonArgs pl fs1)) 0 "" "" hnm'
    rw [hL']
    cases htb : ((lastOutN env "" 0 (variantsFor (wavForWhisperOf a)
        (desiredTxtOf a) (pathDirname a) (commonArgs pl fs1)).length) != "" &&
        strTrim (lastOutN env "" 0 (variantsFor (wavForWhisperOf a)
          (desiredTxtOf a) (pathDirname a)
          (commonArgs pl fs1)).length) != "")
    · rw [afterLoop_failure rfl htb]
      have htrim : strTrim (env.attempts 3).stdout = "" := by
        have htb' : (((env.attempts 3).stdout != "") &&
            (strTrim (env.attempts 3).stdout != "")) = false := htb
        by_cases hx : (env.attempts 3).stdout = ""
        · rw [hx]
          decide
        · rw [bne_iff_ne.mpr hx] at htb'
          have h4 : (strTrim (env.attempts 3).stdout != "") = false := by
            simpa using htb'
          exact bne_eq_false_iff_eq.mp h4
      constructor
      · apply iff_of_true
        · simp
        · exact ⟨hnm, htrim⟩
      · intro _
        refine ⟨⟨FileEntry.mk (diagnosticPathOf (desiredTxtOf a))
          (diagContent (env.attempts 3).stdout (env.attempts 3).stderr)
          (attemptsFS env fs1 (0 + (variantsFor (wavForWhisperOf a)
            (desiredTxtOf a) (pathDirname a) (commonArgs pl fs1)).length)).clock,
          ?_, rfl⟩, rfl, rfl⟩
        show (cleanupTemp ((attemptsFS env fs1 _).writeFileSync
          (diagnosticPathOf (desiredTxtOf a))
          (diagContent (env.attempts 3).stdout (env.attempts 3).stderr))
          (wavForWhisperOf a) (isWavOf a)).lookup
          (diagnosticPathOf (desiredTxtOf a)) = _
        have hwrite := lookup_writeFileSync_self
          (attemptsFS env fs1 (0 + (variantsFor (wavForWhisperOf a)
            (desiredTxtOf a) (pathDirname a) (commonArgs pl fs1)).length))
          (diagnosticPathOf (desiredTxtOf a))
          (diagContent (env.attempts 3).stdout (env.attempts 3).stderr)
        cases hW : isWavOf a
        · rw [cleanupTemp_false]
          have hwave : wavForWhisperOf a = tempWavOf a := by
            unfold wavForWhisperOf
            rw [hW]
            simp
          rw [lookup_safeUnlink_ne _ (by rw [hwave]; exact diag_ne_tempWav a)]
          exact hwrite
        · rw [cleanupTemp_true]
          exact hwrite
    · rw [afterLoop_fallback rfl htb]
      have htne : strTrim (env.attempts 3).stdout ≠ "" := by
        have htb' : (((env.attempts 3).stdout != "") &&
            (strTrim (env.attempts 3).stdout != "")) = true := htb
        exact bne_iff_ne.mp (Bool.and_eq_true_iff.mp htb').2
      have hni : Ev.writeFile (diagnosticPathOf (desiredTxtOf a)) ∉
          (evC ++ scanTrace env fs1 (pickBin pl fs1 env.win32) (desiredTxtOf a)
            (pathDirname a) (listTxt fs1 (pathDirname a)) 0
            (variantsFor (wavForWhisperOf a) (desiredTxtOf a) (pathDirname a)
              (commonArgs pl fs1)) ++ [Ev.writeFile (desiredTxtOf a)] ++
            cleanupEvs (wavForWhisperOf a) (isWavOf a)) := by
        intro hm
        rcases List.mem_append.mp hm with h | h
        · rcases List.mem_append.mp h with h | h
          · rcases List.mem_append.mp h with h | h
            · rcases hevC with hev | hev <;> rw [hev] at h <;> simp at h
            · rcases mem_scanTrace_elim h with ⟨k, b, ar, he⟩ | ⟨k, hh, he⟩ |
                ⟨k, cands, he⟩ <;> simp at he
          · have he : Ev.writeFile (diagnosticPathOf (desiredTxtOf a)) =
                Ev.writeFile (desiredTxtOf a) := by simpa using h
            injection he with he2
            exact diag_ne_desiredTxt a he2
        · obtain ⟨_, he⟩ := mem_cleanupEvs_elim h
          exact absurd he (by simp)
      constructor
      · exact iff_of_false hni (fun hc => htne hc.2)
      · intro hm
        exact absurd hm hni
  · rw [afterLoop_some hres]
    have hni : Ev.writeFile (diagnosticPathOf (desiredTxtOf a)) ∉
        (evC ++ (runAttempts env (pickBin pl fs1 env.win32) (desiredTxtOf a)
          (pathDirname a) (wavForWhisperOf a) (isWavOf a)
          (listTxt fs1 (pathDirname a)) 0
          (variantsFor (wavForWhisperOf a) (desiredTxtOf a) (pathDirname a)
            (commonArgs pl fs1)) fs1 "" "").trace) := by
      intro hm
      rcases List.mem_append.mp hm with h | h
      · rcases hevC with hev | hev <;> rw [hev] at h <;> simp at h
      · rcases loop_trace_mem env (pickBin pl fs1 env.win32) (desiredTxtOf a)
          (pathDirname a) (wavForWhisperOf a) (isWavOf a)
          (listTxt fs1 (pathDirname a))
          (variantsFor (wavForWhisperOf a) (desiredTxtOf a) (pathDirname a)
            (commonArgs pl fs1)) 0 fs1 "" "" _ h with
          h1 | h1 | h1 | h1 | h1 | h1
        · obtain ⟨k, b, ar, he, _⟩ := h1
          simp at he
        · obtain ⟨k, hh, he⟩ := h1
          simp at he
        · obtain ⟨k, cands, he, _⟩ := h1
          simp at he
        · injection h1 with he2
          exact diag_ne_desiredTxt a he2
        · exact absurd h1.2 (by simp)
        · obtain ⟨k, snap, cands, p, he, _⟩ := h1
          simp at he
    have hrhs : ¬ ((∀ j, j < 4 → anyHit env fs1 (desiredTxtOf a) (pathDirname a)
        (listTxt fs1 (pathDirname a)) j = false) ∧
        strTrim (env.attempts 3).stdout = "") := by
      rintro ⟨hnm, _⟩
      have hnm' : ∀ j, j < (variantsFor (wavForWhisperOf a) (desiredTxtOf a)
          (pathDirname a) (commonArgs pl fs1)).length →
          anyHit env fs1 (desiredTxtOf a) (pathDirname a)
            (listTxt fs1 (pathDirname a)) (0 + j) = false := by
        intro j hj
        rw [Nat.zero_add]
        exact hnm j hj
      have hL' : runAttempts env (pickBin pl fs1 env.win32) (desiredTxtOf a)
          (pathDirname a) (wavForWhisperOf a) (isWavOf a)
          (listTxt fs1 (pathDirname a)) 0
          (variantsFor (wavForWhisperOf a) (desiredTxtOf a) (pathDirname a)
            (commonArgs pl fs1)) fs1 "" "" =
          { fs := attemptsFS env fs1 (0 + (variantsFor (wavForWhisperOf a)
              (desiredTxtOf a) (pathDirname a) (commonArgs pl fs1)).length),
            lastOut := lastOutN env "" 0 (variantsFor (wavForWhisperOf a)
              (desiredTxtOf a) (pathDirname a) (commonArgs pl fs1)).length,
            lastErr := lastErrN env "" 0 (variantsFor (wavForWhisperOf a)
              (desiredTxtOf a) (pathDirname a) (commonArgs pl fs1)).length,
            trace := scanTrace env fs1 (pickBin pl fs1 env.win32) (desiredTxtOf a)
              (pathDirname a) (listTxt fs1 (pathDirname a)) 0
              (variantsFor (wavForWhisperOf a) (desiredTxtOf a) (pathDirname a)
                (commonArgs pl fs1)),
            result := none } :=
        runAttempts_no_match env (pickBin pl fs1 env.win32) (desiredTxtOf a)
          (pathDirname a) (wavForWhisperOf a) (isWavOf a)
          (listTxt fs1 (pathDirname a)) fs1
          (variantsFor (wavForWhisperOf a) (desiredTxtOf a) (pathDirname a)
            (commonArgs pl fs1)) 0 "" "" hnm'
      rw [hL'] at hres
      exact absurd hres (by simp)
    exact ⟨iff_of_false hni hrhs, fun hm => absurd hm hni⟩

theorem c2_diagnostic_iff_witness :
    ((Ev.writeFile (diagnosticPathOf (desiredTxtOf "/d/lec.wav")) ∈
        (transcribeJob
          (Env.mk true (ConvOutcome.ran 0 none "")
            (fun _ => AttemptOutcome.mk "" "e" 1 []))
          (FS.mk [FileEntry.mk "/d/lec.wav" "M" 0] 9
            (fun _ => false) (fun _ => false) (fun _ => false))
          (Payload.mk (some "/d/lec.wav") none none none false)).2.2) ↔
      ((∀ j, j < 4 → anyHit
          (Env.mk true (ConvOutcome.ran 0 none "")
            (fun _ => AttemptOutcome.mk "" "e" 1 []))
          (FS.mk [FileEntry.mk "/d/lec.wav" "M" 0] 9
            (fun _ => false) (fun _ => false) (fun _ => false))
          (desiredTxtOf "/d/lec.wav") (pathDirname "/d/lec.wav")
          (listTxt (FS.mk [FileEntry.mk "/d/lec.wav" "M" 0] 9
            (fun _ => false) (fun _ => false) (fun _ => false))
            (pathDirname "/d/lec.wav")) j = false) ∧
        strTrim (((Env.mk true (ConvOutcome.ran 0 none "")
          (fun _ => AttemptOutcome.mk "" "e" 1 [])).attempts 3).stdout) = "")) ∧
    (Ev.writeFile (diagnosticPathOf (desiredTxtOf "/d/lec.wav")) ∈
        (transcribeJob
          (Env.mk true (ConvOutcome.ran 0 none "")
            (fun _ => AttemptOutcome.mk "" "e" 1 []))
          (FS.mk [FileEntry.mk "/d/lec.wav" "M" 0] 9
            (fun _ => false) (fun _ => false) (fun _ => false))
          (Payload.mk (some "/d/lec.wav") none none none false)).2.2 →
      (∃ e, (transcribeJob
          (Env.mk true (ConvOutcome.ran 0 none "")
            (fun _ => AttemptOutcome.mk "" "e" 1 []))
          (FS.mk [FileEntry.mk "/d/lec.wav" "M" 0] 9
            (fun _ => false) (fun _ => false) (fun _ => false))
          (Payload.mk (some "/d/lec.wav") none none none false)).2.1.lookup
            (diagnosticPathOf (desiredTxtOf "/d/lec.wav")) = some e ∧
        e.content = diagContent
          (((Env.mk true (ConvOutcome.ran 0 none "")
            (fun _ => AttemptOutcome.mk "" "e" 1 [])).attempts 3).stdout)
          (((Env.mk true (ConvOutcome.ran 0 none "")
            (fun _ => AttemptOutcome.mk "" "e" 1 [])).attempts 3).stderr)) ∧
      (transcribeJob
          (Env.mk true (ConvOutcome.ran 0 none "")
            (fun _ => AttemptOutcome.mk "" "e" 1 []))
          (FS.mk [FileEntry.mk "/d/lec.wav" "M" 0] 9
            (fun _ => false) (fun _ => false) (fun _ => false))
          (Payload.mk (some "/d/lec.wav") none none none false)).1.ok = false ∧
      (transcribeJob
          (Env.mk true (ConvOutcome.ran 0 none "")
            (fun _ => AttemptOutcome.mk "" "e" 1 []))
          (FS.mk [FileEntry.mk "/d/lec.wav" "M" 0] 9
            (fun _ => false) (fun _ => false) (fun _ => false))
          (Payload.mk (some "/d/lec.wav") none none none false)).1.error =
        some (failureMsg (diagnosticPathOf (desiredTxtOf "/d/lec.wav")))) :=
  c2_diagnostic_iff
    (Env.mk true (ConvOutcome.ran 0 none "")
      (fun _ => AttemptOutcome.mk "" "e" 1 []))
    (FS.mk [FileEntry.mk "/d/lec.wav" "M" 0] 9
      (fun _ => false) (fun _ => false) (fun _ => false))
    (Payload.mk (some "/d/lec.wav") none none none false)
    "/d/lec.wav"
    (FS.mk [FileEntry.mk "/d/lec.wav" "M" 0] 9
      (fun _ => false) (fun _ => false) (fun _ => false))
    []
    rfl (by decide) (by decide) rfl

/-- C1: once the variant loop is reached, (a) for a non-WAV input whose
temporary waveform is deletable, the temporary converted waveform is gone
from the final filesystem on every exit path of the handler, and (b) for a
WAV input the job never unlinks and never writes the input file itself. -/
theorem c1_temp_cleanup (env : Env) (fs0 : FS) (pl : Payload)
    (a : String) (fs1 : FS) (evC : List Ev)
    (hA : pl.audioPath = some a) (h2 : (a == "") = false)
    (h3 : fs0.existsSync a = true)
    (hconv : (if isWavOf a then (fs0, (none : Option String), ([] : List Ev))
      else
        (let c := convertToWav fs0 env.conv (wavForWhisperOf a)
         (c.1, c.2, [Ev.convert (wavForWhisperOf a)]))) = (fs1, none, evC)) :
    (isWavOf a = false → fs0.unlinkFails (wavForWhisperOf a) = false →
      (transcribeJob env fs0 pl).2.1.lookup (wavForWhisperOf a) = none) ∧
    (isWavOf a = true → ∀ p,
      (Ev.unlink p ∈ (transcribeJob env fs0 pl).2.2 → p ≠ a) ∧
      (Ev.writeFile p ∈ (transcribeJob env fs0 pl).2.2 → p ≠ a)) := by
  have hU1 : fs1.unlinkFails = fs0.unlinkFails := (fs1_lookup_out hconv).2.2
  have hcases := conv_triple_cases hconv
  rw [transcribeJob_reachLoop env fs0 pl a fs1 evC hA h2 h3 hconv]
  constructor
  · intro hW hU
    have hCF : ∀ X : FS, cleanupTemp X (wavForWhisperOf a) (isWavOf a) =
        safeUnlink X (wavForWhisperOf a) := by
      intro X
      rw [hW, cleanupTemp_false]
    rcases hres : (runAttempts env (pickBin pl fs1 env.win32) (desiredTxtOf a)
        (pathDirname a) (wavForWhisperOf a) (isWavOf a)
        (listTxt fs1 (pathDirname a)) 0
        (variantsFor (wavForWhisperOf a) (desiredTxtOf a) (pathDirname a)
          (commonArgs pl fs1)) fs1 "" "").result with _ | r
    · cases htb : ((runAttempts env (pickBin pl fs1 env.win32) (desiredTxtOf a)
          (pathDirname a) (wavForWhisperOf a) (isWavOf a)
          (listTxt fs1 (pathDirname a)) 0
          (variantsFor (wavForWhisperOf a) (desiredTxtOf a) (pathDirname a)
            (commonArgs pl fs1)) fs1 "" "").lastOut != "" &&
          strTrim ((runAttempts env (pickBin pl fs1 env.win32) (desiredTxtOf a)
            (pathDirname a) (wavForWhisperOf a) (isWavOf a)
            (listTxt fs1 (pathDirname a)) 0
            (variantsFor (wavForWhisperOf a) (desiredTxtOf a) (pathDirname a)
              (commonArgs pl fs1)) fs1 "" "").lastOut) != "")
      · rw [afterLoop_failure hres htb, hCF]
        apply lookup_safeUnlink_self
        rw [writeFileSync_unlinkFails,
          runAttempts_fs_unlinkFails env (pickBin pl fs1 env.win32)
            (desiredTxtOf a) (pathDirname a) (wavForWhisperOf a) (isWavOf a)
            (listTxt fs1 (pathDirname a))
            (variantsFor (wavForWhisperOf a) (desiredTxtOf a) (pathDirname a)
              (commonArgs pl fs1)) 0 fs1 "" "", hU1]
        exact hU
      · rw [afterLoop_fallback hres htb, hCF]
        apply lookup_safeUnlink_self
        rw [writeFileSync_unlinkFails,
          runAttempts_fs_unlinkFails env (pickBin pl fs1 env.win32)
            (desiredTxtOf a) (pathDirname a) (wavForWhisperOf a) (isWavOf a)
            (listTxt fs1 (pathDirname a))
            (variantsFor (wavForWhisperOf a) (desiredTxtOf a) (pathDirname a)
              (commonArgs pl fs1)) 0 fs1 "" "", hU1]
        exact hU
    · obtain ⟨fsX, hfs, hu⟩ := runAttempts_some_fs env (pickBin pl fs1 env.win32)
        (desiredTxtOf a) (pathDirname a) (wavForWhisperOf a) (isWavOf a)
        (listTxt fs1 (pathDirname a))
        (variantsFor (wavForWhisperOf a) (desiredTxtOf a) (pathDirname a)
          (commonArgs pl fs1)) 0 fs1 "" "" r hres
      rw [afterLoop_some hres]
      show ((runAttempts env (pickBin pl fs1 env.win32) (desiredTxtOf a)
        (pathDirname a) (wavForWhisperOf a) (isWavOf a)
        (listTxt fs1 (pathDirname a)) 0
        (variantsFor (wavForWhisperOf a) (desiredTxtOf a) (pathDirname a)
          (commonArgs pl fs1)) fs1 "" "").fs).lookup (wavForWhisperOf a) = none
      rw [hfs, hCF]
      apply lookup_safeUnlink_self
      rw [hu, hU1]
      exact hU
  · intro hW p
    have hwavsuf : ".wav".toList <:+ lowerChars a.toList := isWav_lower_suffix hW
    have houtsuf : ".txt".toList <:+ lowerChars (desiredTxtOf a).toList := by
      rw [desiredTxtOf_stem]
      exact txt_suffix_stem_txt (stemOf a)
    have hdiagsuf : ".txt".toList <:+
        lowerChars (diagnosticPathOf (desiredTxtOf a)).toList := by
      rw [diag_eq_stem]
      exact txt_suffix_stem_log (stemOf a)
    have hevC : evC = [] := by
      rcases hcases with ⟨_, _, he⟩ | ⟨hW', _, _⟩
      · exact he
      · rw [hW] at hW'
        exact absurd hW' (by simp)
    have hLtr : (Ev.unlink p ∈ (runAttempts env (pickBin pl fs1 env.win32)
          (desiredTxtOf a) (pathDirname a) (wavForWhisperOf a) (isWavOf a)
          (listTxt fs1 (pathDirname a)) 0
          (variantsFor (wavForWhisperOf a) (desiredTxtOf a) (pathDirname a)
            (commonArgs pl fs1)) fs1 "" "").trace → p ≠ a) ∧
        (Ev.writeFile p ∈ (runAttempts env (pickBin pl fs1 env.win32)
          (desiredTxtOf a) (pathDirname a) (wavForWhisperOf a) (isWavOf a)
          (listTxt fs1 (pathDirname a)) 0
          (variantsFor (wavForWhisperOf a) (desiredTxtOf a) (pathDirname a)
            (commonArgs pl fs1)) fs1 "" "").trace → p ≠ a) := by
      constructor
      · intro hm
        rcases loop_trace_mem env (pickBin pl fs1 env.win32) (desiredTxtOf a)
            (pathDirname a) (wavForWhisperOf a) (isWavOf a)
            (listTxt fs1 (pathDirname a))
            (variantsFor (wavForWhisperOf a) (desiredTxtOf a) (pathDirname a)
              (commonArgs pl fs1)) 0 fs1 "" "" _ hm with
            h1 | h1 | h1 | h1 | h1 | h1
        · obtain ⟨k, b, ar, he, _⟩ := h1
          simp at he
        · obtain ⟨k, hh, he⟩ := h1
          simp at he
        · obtain ⟨k, cands, he, _⟩ := h1
          simp at he
        · simp at h1
        · rw [hW] at h1
          exact absurd h1.1 (by simp)
        · obtain ⟨k, snap, cands, q, he, _, _, hsuf⟩ := h1
          injection he with he2
          rw [he2]
          exact txt_ne_wav hsuf hwavsuf
      · intro hm
        rcases loop_trace_mem env (pickBin pl fs1 env.win32) (desiredTxtOf a)
            (pathDirname a) (wavForWhisperOf a) (isWavOf a)
            (listTxt fs1 (pathDirname a))
            (variantsFor (wavForWhisperOf a) (desiredTxtOf a) (pathDirname a)
              (commonArgs pl fs1)) 0 fs1 "" "" _ hm with
            h1 | h1 | h1 | h1 | h1 | h1
        · obtain ⟨k, b, ar, he, _⟩ := h1
          simp at he
        · obtain ⟨k, hh, he⟩ := h1
          simp at he
        · obtain ⟨k, cands, he, _⟩ := h1
          simp at he
        · injection h1 with he2
          rw [he2]
          exact txt_ne_wav houtsuf hwavsuf
        · exact absurd h1.2 (by simp)
        · obtain ⟨k, snap, cands, q, he, _, _, _⟩ := h1
          simp at he
    rcases hres : (runAttempts env (pickBin pl fs1 env.win32) (desiredTxtOf a)
        (pathDirname a) (wavForWhisperOf a) (isWavOf a)
        (listTxt fs1 (pathDirname a)) 0
        (variantsFor (wavForWhisperOf a) (desiredTxtOf a) (pathDirname a)
          (commonArgs pl fs1)) fs1 "" "").result with _ | r
    · cases htb : ((runAttempts env (pickBin pl fs1 env.win32) (desiredTxtOf a)
          (pathDirname a) (wavForWhisperOf a) (isWavOf a)
          (listTxt fs1 (pathDirname a)) 0
          (variantsFor (wavForWhisperOf a) (desiredTxtOf a) (pathDirname a)
            (commonArgs pl fs1)) fs1 "" "").lastOut != "" &&
          strTrim ((runAttempts env (pickBin pl fs1 env.win32) (desiredTxtOf a)
            (pathDirname a) (wavForWhisperOf a) (isWavOf a)
            (listTxt fs1 (pathDirname a)) 0
            (variantsFor (wavForWhisperOf a) (desiredTxtOf a) (pathDirname a)
              (commonArgs pl fs1)) fs1 "" "").lastOut) != "")
      · rw [afterLoop_failure hres htb]
        constructor
        · intro hm
          rcases List.mem_append.mp hm with h | h
          · rcases List.mem_append.mp h with h | h
            · rcases List.mem_append.mp h with h | h
              · rw [hevC] at h
                exact absurd h (List.not_mem_nil _)
              · exact hLtr.1 h
            · simp at h
          · obtain ⟨hwf, _⟩ := mem_cleanupEvs_elim h
            rw [hW] at hwf
            exact absurd hwf (by simp)
        · intro hm
          rcases List.mem_append.mp hm with h | h
          · rcases List.mem_append.mp h with h | h
            · rcases List.mem_append.mp h with h | h
              · rw [hevC] at h
                exact absurd h (List.not_mem_nil _)
              · exact hLtr.2 h
            · have he : Ev.writeFile p =
                  Ev.writeFile (diagnosticPathOf (desiredTxtOf a)) := by
                simpa using h
              injection he with he2
              rw [he2]
              exact txt_ne_wav hdiagsuf hwavsuf
          · obtain ⟨hwf, _⟩ := mem_cleanupEvs_elim h
            rw [hW] at hwf
            exact absurd hwf (by simp)
      · rw [afterLoop_fallback hres htb]
        constructor
        · intro hm
          rcases List.mem_append.mp hm with h | h
          · rcases List.mem_append.mp h with h | h
            · rcases List.mem_append.mp h with h | h
              · rw [hevC] at h
                exact absurd h (List.not_mem_nil _)
              · exact hLtr.1 h
            · simp at h
          · obtain ⟨hwf, _⟩ := mem_cleanupEvs_elim h
            rw [hW] at hwf
            exact absurd hwf (by simp)
        · intro hm
          rcases List.mem_append.mp hm with h | h
          · rcases List.mem_append.mp h with h | h
            · rcases List.mem_append.mp h with h | h
              · rw [hevC] at h
                exact absurd h (List.not_mem_nil _)
              · exact hLtr.2 h
            · have he : Ev.writeFile p = Ev.writeFile (desiredTxtOf a) := by
                simpa using h
              injection he with he2
              rw [he2]
              exact txt_ne_wav houtsuf hwavsuf
          · obtain ⟨hwf, _⟩ := mem_cleanupEvs_elim h
            rw [hW] at hwf
            exact absurd hwf (by simp)
    · rw [afterLoop_some hres]
      constructor
      · intro hm
        rcases List.mem_append.mp hm with h | h
        · rw [hevC] at h
          exact absurd h (List.not_mem_nil _)
        · exact hLtr.1 h
      · intro hm
        rcases List.mem_append.mp hm with h | h
        · rw [hevC] at h
          exact absurd h (List.not_mem_nil _)
        · exact hLtr.2 h

theorem c1_temp_cleanup_witness :
    ((isWavOf "/d/lec.mp3" = false →
      (FS.mk [FileEntry.mk "/d/lec.mp3" "M" 0] 9
        (fun _ => false) (fun _ => false) (fun _ => false)).unlinkFails
        (wavForWhisperOf "/d/lec.mp3") = false →
      (transcribeJob
        (Env.mk true (ConvOutcome.ran 0 (some ("W", 10)) "")
          (fun _ => AttemptOutcome.mk "" "e" 1 []))
        (FS.mk [FileEntry.mk "/d/lec.mp3" "M" 0] 9
          (fun _ => false) (fun _ => false) (fun _ => false))
        (Payload.mk (some "/d/lec.mp3") none none none false)).2.1.lookup
        (wavForWhisperOf "/d/lec.mp3") = none) ∧
    (isWavOf "/d/lec.mp3" = true → ∀ p,
      (Ev.unlink p ∈ (transcribeJob
        (Env.mk true (ConvOutcome.ran 0 (some ("W", 10)) "")
          (fun _ => AttemptOutcome.mk "" "e" 1 []))
        (FS.mk [FileEntry.mk "/d/lec.mp3" "M" 0] 9
          (fun _ => false) (fun _ => false) (fun _ => false))
        (Payload.mk (some "/d/lec.mp3") none none none false)).2.2 →
        p ≠ "/d/lec.mp3") ∧
      (Ev.writeFile p ∈ (transcribeJob
        (Env.mk true (ConvOutcome.ran 0 (some ("W", 10)) "")
          (fun _ => AttemptOutcome.mk "" "e" 1 []))
        (FS.mk [FileEntry.mk "/d/lec.mp3" "M" 0] 9
          (fun _ => false) (fun _ => false) (fun _ => false))
        (Payload.mk (some "/d/lec.mp3") none none none false)).2.2 →
        p ≠ "/d/lec.mp3"))) ∧
    isWavOf "/d/lec.mp3" = false ∧
    (FS.mk [FileEntry.mk "/d/lec.mp3" "M" 0] 9
      (fun _ => false) (fun _ => false) (fun _ => false)).unlinkFails
      (wavForWhisperOf "/d/lec.mp3") = false :=
  ⟨c1_temp_cleanup
    (Env.mk true (ConvOutcome.ran 0 (some ("W", 10)) "")
      (fun _ => AttemptOutcome.mk "" "e" 1 []))
    (FS.mk [FileEntry.mk "/d/lec.mp3" "M" 0] 9
      (fun _ => false) (fun _ => false) (fun _ => false))
    (Payload.mk (some "/d/lec.mp3") none none none false)
    "/d/lec.mp3"
    (FS.mk [FileEntry.mk "/d/lec__whisper_tmp.wav" "W" 10,
      FileEntry.mk "/d/lec.mp3" "M" 0] 9
      (fun _ => false) (fun _ => false) (fun _ => false))
    [Ev.convert "/d/lec__whisper_tmp.wav"]
    rfl (by decide) (by decide) rfl, by decide, by decide⟩

theorem afterLoop_trace_shape (out diag wav : String) (w : Bool)
    (evC : List Ev) (L : LoopOut) :
    ∃ tail, (afterLoop out diag wav w evC L).2.2 = evC ++ L.trace ++ tail ∧
      ∀ ev ∈ tail, (∃ p, ev = Ev.writeFile p) ∨ (∃ p, ev = Ev.unlink p) := by
  rcases hr : L.result with _ | r
  · cases htb : (L.lastOut != "" && strTrim L.lastOut != "")
    · rw [afterLoop_failure hr htb]
      refine ⟨[Ev.writeFile diag] ++ cleanupEvs wav w, by simp, ?_⟩
      intro ev h
      rcases List.mem_append.mp h with h | h
      · exact Or.inl ⟨diag, by simpa using h⟩
      · obtain ⟨_, he⟩ := mem_cleanupEvs_elim h
        exact Or.inr ⟨wav, he⟩
    · rw [afterLoop_fallback hr htb]
      refine ⟨[Ev.writeFile out] ++ cleanupEvs wav w, by simp, ?_⟩
      intro ev h
      rcases List.mem_append.mp h with h | h
      · exact Or.inl ⟨out, by simpa using h⟩
      · obtain ⟨_, he⟩ := mem_cleanupEvs_elim h
        exact Or.inr ⟨wav, he⟩
  · rw [afterLoop_some hr]
    refine ⟨[], by simp, ?_⟩
    intro ev h
    exact absurd h (List.not_mem_nil _)

/-- C5: once the variant loop is reached, every recorded invocation uses
the selected binary and the argument list of the variant at its index —
variants are tried in declared order (the recorded invocation indices form
an initial segment `range k` of the declared list); and every heuristic
scan in the trace uses the single pre-loop snapshot of `.txt` files and is
preceded in the trace by a failed direct check of the canonical path made
in the same attempt. -/
theorem c5_ordering_snapshot (env : Env) (fs0 : FS) (pl : Payload)
    (a : String) (fs1 : FS) (evC : List Ev)
    (hA : pl.audioPath = some a) (h2 : (a == "") = false)
    (h3 : fs0.existsSync a = true)
    (hconv : (if isWavOf a then (fs0, (none : Option String), ([] : List Ev))
      else
        (let c := convertToWav fs0 env.conv (wavForWhisperOf a)
         (c.1, c.2, [Ev.convert (wavForWhisperOf a)]))) = (fs1, none, evC)) :
    (∀ j b args, Ev.invoke j b args ∈ (transcribeJob env fs0 pl).2.2 →
      b = pickBin pl fs1 env.win32 ∧
      (variantsFor (wavForWhisperOf a) (desiredTxtOf a) (pathDirname a)
        (commonArgs pl fs1)).get? j = some args) ∧
    (∃ k, k ≤ 4 ∧
      (transcribeJob env fs0 pl).2.2.filterMap invIdx = List.range k) ∧
    (∀ j snap cands,
      Ev.heuristicScan j snap cands ∈ (transcribeJob env fs0 pl).2.2 →
      snap = listTxt fs1 (pathDirname a) ∧
      ∃ T1 T2, (transcribeJob env fs0 pl).2.2 =
        T1 ++ Ev.directCheck j (desiredTxtOf a) false :: T2 ∧
        Ev.heuristicScan j snap cands ∈ T2) := by
  have hevCmem : ∀ ev ∈ evC, ∃ w', ev = Ev.convert w' := by
    rcases conv_triple_cases hconv with ⟨_, _, he⟩ | ⟨_, _, he⟩ <;> rw [he]
    · intro ev h
      exact absurd h (List.not_mem_nil _)
    · intro ev h
      exact ⟨wavForWhisperOf a, by simpa using h⟩
  rw [transcribeJob_reachLoop env fs0 pl a fs1 evC hA h2 h3 hconv]
  obtain ⟨tail, hT, htail⟩ := afterLoop_trace_shape (desiredTxtOf a)
    (diagnosticPathOf (desiredTxtOf a)) (wavForWhisperOf a) (isWavOf a) evC
    (runAttempts env (pickBin pl fs1 env.win32) (desiredTxtOf a)
      (pathDirname a) (wavForWhisperOf a) (isWavOf a)
      (listTxt fs1 (pathDirname a)) 0
      (variantsFor (wavForWhisperOf a) (desiredTxtOf a) (pathDirname a)
        (commonArgs pl fs1)) fs1 "" "")
  rw [hT]
  refine ⟨?_, ?_, ?_⟩
  · intro j b args hm
    rcases List.mem_append.mp hm with h | h
    · rcases List.mem_append.mp h with h | h
      · obtain ⟨w', he⟩ := hevCmem _ h
        simp at he
      · rcases loop_trace_mem env (pickBin pl fs1 env.win32) (desiredTxtOf a)
            (pathDirname a) (wavForWhisperOf a) (isWavOf a)
            (listTxt fs1 (pathDirname a))
            (variantsFor (wavForWhisperOf a) (desiredTxtOf a) (pathDirname a)
              (commonArgs pl fs1)) 0 fs1 "" "" _ h with
            h1 | h1 | h1 | h1 | h1 | h1
        · obtain ⟨k, b', a', he, hb, m, hmlt, hk, hget⟩ := h1
          injection he with he1 he2 he3
          refine ⟨he2.trans hb, ?_⟩
          rw [he1, hk, Nat.zero_add, hget, he3]
        · obtain ⟨k, hh, he⟩ := h1
          simp at he
        · obtain ⟨k, cands, he, _⟩ := h1
          simp at he
        · simp at h1
        · exact absurd h1.2 (by simp)
        · obtain ⟨k, snap, cands, q, he, _, _, _⟩ := h1
          simp at he
    · rcases htail _ h with ⟨p, he⟩ | ⟨p, he⟩ <;> simp at he
  · obtain ⟨k, hk, he⟩ := loop_invoke_idxs env (pickBin pl fs1 env.win32)
      (desiredTxtOf a) (pathDirname a) (wavForWhisperOf a) (isWavOf a)
      (listTxt fs1 (pathDirname a))
      (variantsFor (wavForWhisperOf a) (desiredTxtOf a) (pathDirname a)
        (commonArgs pl fs1)) 0 fs1 "" ""
    refine ⟨k, hk, ?_⟩
    rw [List.filterMap_append, List.filterMap_append]
    have h1 : evC.filterMap invIdx = [] := by
      rcases conv_triple_cases hconv with ⟨_, _, hc⟩ | ⟨_, _, hc⟩ <;>
        rw [hc] <;> simp [invIdx]
    have h2 : tail.filterMap invIdx = [] := by
      rw [List.filterMap_eq_nil_iff]
      intro ev h
      rcases htail _ h with ⟨p, hp⟩ | ⟨p, hp⟩ <;> rw [hp] <;> rfl
    rw [h1, h2, he, List.append_nil, List.nil_append]
    have h3 : ∀ m ∈ List.range k, 0 + m = id m := by
      intro m _
      rw [Nat.zero_add]
      rfl
    rw [List.map_congr_left h3, List.map_id]
  · intro j snap cands hm
    have hmL : Ev.heuristicScan j snap cands ∈
        (runAttempts env (pickBin pl fs1 env.win32) (desiredTxtOf a)
          (pathDirname a) (wavForWhisperOf a) (isWavOf a)
          (listTxt fs1 (pathDirname a)) 0
          (variantsFor (wavForWhisperOf a) (desiredTxtOf a) (pathDirname a)
            (commonArgs pl fs1)) fs1 "" "").trace := by
      rcases List.mem_append.mp hm with h | h
      · rcases List.mem_append.mp h with h | h
        · obtain ⟨w', he⟩ := hevCmem _ h
          simp at he
        · exact h
      · rcases htail _ h with ⟨p, he⟩ | ⟨p, he⟩ <;> simp at he
    have hsnap : snap = listTxt fs1 (pathDirname a) := by
      rcases loop_trace_mem env (pickBin pl fs1 env.win32) (desiredTxtOf a)
          (pathDirname a) (wavForWhisperOf a) (isWavOf a)
          (listTxt fs1 (pathDirname a))
          (variantsFor (wavForWhisperOf a) (desiredTxtOf a) (pathDirname a)
            (commonArgs pl fs1)) 0 fs1 "" "" _ hmL with
          h1 | h1 | h1 | h1 | h1 | h1
      · obtain ⟨k, b', a', he, _⟩ := h1
        simp at he
      · obtain ⟨k, hh, he⟩ := h1
        simp at he
      · obtain ⟨k, cands', he, _⟩ := h1
        simp only [Ev.heuristicScan.injEq] at he
        exact he.2.1
      · simp at h1
      · exact absurd h1.2 (by simp)
      · obtain ⟨k, snap', cands', q, he, _, _, _⟩ := h1
        simp at he
    obtain ⟨A, B, hAB, hB⟩ := loop_scan_split env (pickBin pl fs1 env.win32)
      (desiredTxtOf a) (pathDirname a) (wavForWhisperOf a) (isWavOf a)
      (listTxt fs1 (pathDirname a))
      (variantsFor (wavForWhisperOf a) (desiredTxtOf a) (pathDirname a)
        (commonArgs pl fs1)) 0 fs1 "" "" j snap cands hmL
    refine ⟨hsnap, evC ++ A, B ++ tail, ?_, List.mem_append_left _ hB⟩
    rw [hAB]
    simp

theorem c5_ordering_snapshot_witness :
    (∀ j b args, Ev.invoke j b args ∈ (transcribeJob
        (Env.mk true (ConvOutcome.ran 0 (some ("W", 10)) "")
          (fun _ => AttemptOutcome.mk "" "e" 1 []))
        (FS.mk [FileEntry.mk "/d/lec.mp3" "M" 0] 9
          (fun _ => false) (fun _ => false) (fun _ => false))
        (Payload.mk (some "/d/lec.mp3") none none none false)).2.2 →
      b = pickBin (Payload.mk (some "/d/lec.mp3") none none none false)
        (FS.mk [FileEntry.mk "/d/lec__whisper_tmp.wav" "W" 10,
          FileEntry.mk "/d/lec.mp3" "M" 0] 9
          (fun _ => false) (fun _ => false) (fun _ => false))
        (Env.mk true (ConvOutcome.ran 0 (some ("W", 10)) "")
          (fun _ => AttemptOutcome.mk "" "e" 1 [])).win32 ∧
      (variantsFor (wavForWhisperOf "/d/lec.mp3") (desiredTxtOf "/d/lec.mp3")
        (pathDirname "/d/lec.mp3")
        (commonArgs (Payload.mk (some "/d/lec.mp3") none none none false)
          (FS.mk [FileEntry.mk "/d/lec__whisper_tmp.wav" "W" 10,
            FileEntry.mk "/d/lec.mp3" "M" 0] 9
            (fun _ => false) (fun _ => false) (fun _ => false)))).get? j =
        some args) ∧
    (∃ k, k ≤ 4 ∧
      (transcribeJob
        (Env.mk true (ConvOutcome.ran 0 (some ("W", 10)) "")
          (fun _ => AttemptOutcome.mk "" "e" 1 []))
        (FS.mk [FileEntry.mk "/d/lec.mp3" "M" 0] 9
          (fun _ => false) (fun _ => false) (fun _ => false))
        (Payload.mk (some "/d/lec.mp3") none none none false)).2.2.filterMap
        invIdx = List.range k) ∧
    (∀ j snap cands, Ev.heuristicScan j snap cands ∈ (transcribeJob
        (Env.mk true (ConvOutcome.ran 0 (some ("W", 10)) "")
          (fun _ => AttemptOutcome.mk "" "e" 1 []))
        (FS.mk [FileEntry.mk "/d/lec.mp3" "M" 0] 9
          (fun _ => false) (fun _ => false) (fun _ => false))
        (Payload.mk (some "/d/lec.mp3") none none none false)).2.2 →
      snap = listTxt (FS.mk [FileEntry.mk "/d/lec__whisper_tmp.wav" "W" 10,
          FileEntry.mk "/d/lec.mp3" "M" 0] 9
          (fun _ => false) (fun _ => false) (fun _ => false))
        (pathDirname "/d/lec.mp3") ∧
      ∃ T1 T2, (transcribeJob
        (Env.mk true (ConvOutcome.ran 0 (some ("W", 10)) "")
          (fun _ => AttemptOutcome.mk "" "e" 1 []))
        (FS.mk [FileEntry.mk "/d/lec.mp3" "M" 0] 9
          (fun _ => false) (fun _ => false) (fun _ => false))
        (Payload.mk (some "/d/lec.mp3") none none none false)).2.2 =
        T1 ++ Ev.directCheck j (desiredTxtOf "/d/lec.mp3") false :: T2 ∧
        Ev.heuristicScan j snap cands ∈ T2) :=
  c5_ordering_snapshot
    (Env.mk true (ConvOutcome.ran 0 (some ("W", 10)) "")
      (fun _ => AttemptOutcome.mk "" "e" 1 []))
    (FS.mk [FileEntry.mk "/d/lec.mp3" "M" 0] 9
      (fun _ => false) (fun _ => false) (fun _ => false))
    (Payload.mk (some "/d/lec.mp3") none none none false)
    "/d/lec.mp3"
    (FS.mk [FileEntry.mk "/d/lec__whisper_tmp.wav" "W" 10,
      FileEntry.mk "/d/lec.mp3" "M" 0] 9
      (fun _ => false) (fun _ => false) (fun _ => false))
    [Ev.convert "/d/lec__whisper_tmp.wav"]
    rfl (by decide) (by decide) rfl

/-- C9: for a `.wav` input that reaches the loop, the converter is never
invoked (no convert event; the waveform handed to the transcriber is the
input itself, so no temporary file is ever created), every write in the
trace targets the canonical output or the diagnostic log, the diagnostic
log is written only on the failing outcome, and every unlink in the trace
targets a candidate of some heuristic scan recorded in the trace. -/
theorem c9_wav_frame (env : Env) (fs0 : FS) (pl : Payload)
    (a : String) (fs1 : FS) (evC : List Ev)
    (hA : pl.audioPath = some a) (h2 : (a == "") = false)
    (h3 : fs0.existsSync a = true)
    (hconv : (if isWavOf a then (fs0, (none : Option String), ([] : List Ev))
      else
        (let c := convertToWav fs0 env.conv (wavForWhisperOf a)
         (c.1, c.2, [Ev.convert (wavForWhisperOf a)]))) = (fs1, none, evC))
    (hW : isWavOf a = true) :
    wavForWhisperOf a = a ∧
    (∀ w', Ev.convert w' ∉ (transcribeJob env fs0 pl).2.2) ∧
    (∀ p, Ev.writeFile p ∈ (transcribeJob env fs0 pl).2.2 →
      p = desiredTxtOf a ∨ p = diagnosticPathOf (desiredTxtOf a)) ∧
    (Ev.writeFile (diagnosticPathOf (desiredTxtOf a)) ∈
        (transcribeJob env fs0 pl).2.2 →
      (transcribeJob env fs0 pl).1.ok = false) ∧
    (∀ p, Ev.unlink p ∈ (transcribeJob env fs0 pl).2.2 →
      ∃ k snap cands, Ev.heuristicScan k snap cands ∈
        (transcribeJob env fs0 pl).2.2 ∧ p ∈ cands) := by
  have hwava : wavForWhisperOf a = a := by
    unfold wavForWhisperOf
    rw [hW]
    simp
  have hevC : evC = [] := by
    rcases conv_triple_cases hconv with ⟨_, _, he⟩ | ⟨hW', _, _⟩
    · exact he
    · rw [hW] at hW'
      exact absurd hW' (by simp)
  rw [transcribeJob_reachLoop env fs0 pl a fs1 evC hA h2 h3 hconv]
  have hLconv : ∀ w', Ev.convert w' ∉
      (runAttempts env (pickBin pl fs1 env.win32) (desiredTxtOf a)
        (pathDirname a) (wavForWhisperOf a) (isWavOf a)
        (listTxt fs1 (pathDirname a)) 0
        (variantsFor (wavForWhisperOf a) (desiredTxtOf a) (pathDirname a)
          (commonArgs pl fs1)) fs1 "" "").trace := by
    intro w' hm
    rcases loop_trace_mem env (pickBin pl fs1 env.win32) (desiredTxtOf a)
        (pathDirname a) (wavForWhisperOf a) (isWavOf a)
        (listTxt fs1 (pathDirname a))
        (variantsFor (wavForWhisperOf a) (desiredTxtOf a) (pathDirname a)
          (commonArgs pl fs1)) 0 fs1 "" "" _ hm with
        h1 | h1 | h1 | h1 | h1 | h1
    · obtain ⟨k, b, ar, he, _⟩ := h1
      simp at he
    · obtain ⟨k, hh, he⟩ := h1
      simp at he
    · obtain ⟨k, cands, he, _⟩ := h1
      simp at he
    · simp at h1
    · exact absurd h1.2 (by simp)
    · obtain ⟨k, snap, cands, q, he, _, _, _⟩ := h1
      simp at he
  have hLwrite : ∀ p, Ev.writeFile p ∈
      (runAttempts env (pickBin pl fs1 env.win32) (desiredTxtOf a)
        (pathDirname a) (wavForWhisperOf a) (isWavOf a)
        (listTxt fs1 (pathDirname a)) 0
        (variantsFor (wavForWhisperOf a) (desiredTxtOf a) (pathDirname a)
          (commonArgs pl fs1)) fs1 "" "").trace → p = desiredTxtOf a := by
    intro p hm
    rcases loop_trace_mem env (pickBin pl fs1 env.win32) (desiredTxtOf a)
        (pathDirname a) (wavForWhisperOf a) (isWavOf a)
        (listTxt fs1 (pathDirname a))
        (variantsFor (wavForWhisperOf a) (desiredTxtOf a) (pathDirname a)
          (commonArgs pl fs1)) 0 fs1 "" "" _ hm with
        h1 | h1 | h1 | h1 | h1 | h1
    · obtain ⟨k, b, ar, he, _⟩ := h1
      simp at he
    · obtain ⟨k, hh, he⟩ := h1
      simp at he
    · obtain ⟨k, cands, he, _⟩ := h1
      simp at he
    · injection h1
    · exact absurd h1.2 (by simp)
    · obtain ⟨k, snap, cands, q, he, _, _, _⟩ := h1
      simp at he
  have hLunlink : ∀ p, Ev.unlink p ∈
      (runAttempts env (pickBin pl fs1 env.win32) (desiredTxtOf a)
        (pathDirname a) (wavForWhisperOf a) (isWavOf a)
        (listTxt fs1 (pathDirname a)) 0
        (variantsFor (wavForWhisperOf a) (desiredTxtOf a) (pathDirname a)
          (commonArgs pl fs1)) fs1 "" "").trace →
      ∃ k snap cands, Ev.heuristicScan k snap cands ∈
        (runAttempts env (pickBin pl fs1 env.win32) (desiredTxtOf a)
          (pathDirname a) (wavForWhisperOf a) (isWavOf a)
          (listTxt fs1 (pathDirname a)) 0
          (variantsFor (wavForWhisperOf a) (desiredTxtOf a) (pathDirname a)
            (commonArgs pl fs1)) fs1 "" "").trace ∧ p ∈ cands := by
    intro p hm
    rcases loop_trace_mem env (pickBin pl fs1 env.win32) (desiredTxtOf a)
        (pathDirname a) (wavForWhisperOf a) (isWavOf a)
        (listTxt fs1 (pathDirname a))
        (variantsFor (wavForWhisperOf a) (desiredTxtOf a) (pathDirname a)
          (commonArgs pl fs1)) 0 fs1 "" "" _ hm with
        h1 | h1 | h1 | h1 | h1 | h1
    · obtain ⟨k, b, ar, he, _⟩ := h1
      simp at he
    · obtain ⟨k, hh, he⟩ := h1
      simp at he
    · obtain ⟨k, cands, he, _⟩ := h1
      simp at he
    · simp at h1
    · rw [hW] at h1
      exact absurd h1.1 (by simp)
    · obtain ⟨k, snap, cands, q, he, hsc, hqc, _⟩ := h1
      injection he with he2
      exact ⟨k, snap, cands, hsc, he2 ▸ hqc⟩
  refine ⟨hwava, ?_⟩
  rcases hres : (runAttempts env (pickBin pl fs1 env.win32) (desiredTxtOf a)
      (pathDirname a) (wavForWhisperOf a) (isWavOf a)
      (listTxt fs1 (pathDirname a)) 0
      (variantsFor (wavForWhisperOf a) (desiredTxtOf a) (pathDirname a)
        (commonArgs pl fs1)) fs1 "" "").result with _ | r
  · cases htb : ((runAttempts env (pickBin pl fs1 env.win32) (desiredTxtOf a)
        (pathDirname a) (wavForWhisperOf a) (isWavOf a)
        (listTxt fs1 (pathDirname a)) 0
        (variantsFor (wavForWhisperOf a) (desiredTxtOf a) (pathDirname a)
          (commonArgs pl fs1)) fs1 "" "").lastOut != "" &&
        strTrim ((runAttempts env (pickBin pl fs1 env.win32) (desiredTxtOf a)
          (pathDirname a) (wavForWhisperOf a) (isWavOf a)
          (listTxt fs1 (pathDirname a)) 0
          (variantsFor (wavForWhisperOf a) (desiredTxtOf a) (pathDirname a)
            (commonArgs pl fs1)) fs1 "" "").lastOut) != "")
    · rw [afterLoop_failure hres htb]
      refine ⟨?_, ?_, ?_, ?_⟩
      · intro w' hm
        rcases List.mem_append.mp hm with h | h
        · rcases List.mem_append.mp h with h | h
          · rcases List.mem_append.mp h with h | h
            · rw [hevC] at h
              exact absurd h (List.not_mem_nil _)
            · exact hLconv w' h
          · simp at h
        · obtain ⟨hwf, _⟩ := mem_cleanupEvs_elim h
          rw [hW] at hwf
          exact absurd hwf (by simp)
      · intro p hm
        rcases List.mem_append.mp hm with h | h
        · rcases List.mem_append.mp h with h | h
          · rcases List.mem_append.mp h with h | h
            · rw [hevC] at h
              exact absurd h (List.not_mem_nil _)
            · exact Or.inl (hLwrite p h)
          · have he : Ev.writeFile p =
                Ev.writeFile (diagnosticPathOf (desiredTxtOf a)) := by
              simpa using h
            injection he with he2
            exact Or.inr he2
        · obtain ⟨hwf, _⟩ := mem_cleanupEvs_elim h
          rw [hW] at hwf
          exact absurd hwf (by simp)
      · intro _
        rfl
      · intro p hm
        rcases List.mem_append.mp hm with h | h
        · rcases List.mem_append.mp h with h | h
          · rcases List.mem_append.mp h with h | h
            · rw [hevC] at h
              exact absurd h (List.not_mem_nil _)
            · obtain ⟨k, snap, cands, hsc, hpc⟩ := hLunlink p h
              exact ⟨k, snap, cands,
                List.mem_append_left _ (List.mem_append_left _
                  (List.mem_append_right _ hsc)), hpc⟩
          · simp at h
        · obtain ⟨hwf, _⟩ := mem_cleanupEvs_elim h
          rw [hW] at hwf
          exact absurd hwf (by simp)
    · rw [afterLoop_fallback hres htb]
      refine ⟨?_, ?_, ?_, ?_⟩
      · intro w' hm
        rcases List.mem_append.mp hm with h | h
        · rcases List.mem_append.mp h with h | h
          · rcases List.mem_append.mp h with h | h
            · rw [hevC] at h
              exact absurd h (List.not_mem_nil _)
            · exact hLconv w' h
          · simp at h
        · obtain ⟨hwf, _⟩ := mem_cleanupEvs_elim h
          rw [hW] at hwf
          exact absurd hwf (by simp)
      · intro p hm
        rcases List.mem_append.mp hm with h | h
        · rcases List.mem_append.mp h with h | h
          · rcases List.mem_append.mp h with h | h
            · rw [hevC] at h
              exact absurd h (List.not_mem_nil _)
            · exact Or.inl (hLwrite p h)
          · have he : Ev.writeFile p = Ev.writeFile (desiredTxtOf a) := by
              simpa using h
            injection he with he2
            exact Or.inl he2
        · obtain ⟨hwf, _⟩ := mem_cleanupEvs_elim h
          rw [hW] at hwf
          exact absurd hwf (by simp)
      · intro hm
        rcases List.mem_append.mp hm with h | h
        · rcases List.mem_append.mp h with h | h
          · rcases List.mem_append.mp h with h | h
            · rw [hevC] at h
              exact absurd h (List.not_mem_nil _)
            · exact absurd (hLwrite _ h) (diag_ne_desiredTxt a)
          · have he : Ev.writeFile (diagnosticPathOf (desiredTxtOf a)) =
                Ev.writeFile (desiredTxtOf a) := by
              simpa using h
            injection he with he2
            exact absurd he2 (diag_ne_desiredTxt a)
        · obtain ⟨hwf, _⟩ := mem_cleanupEvs_elim h
          rw [hW] at hwf
          exact absurd hwf (by simp)
      · intro p hm
        rcases List.mem_append.mp hm with h | h
        · rcases List.mem_append.mp h with h | h
          · rcases List.mem_append.mp h with h | h
            · rw [hevC] at h
              exact absurd h (List.not_mem_nil _)
            · obtain ⟨k, snap, cands, hsc, hpc⟩ := hLunlink p h
              exact ⟨k, snap, cands,
                List.mem_append_left _ (List.mem_append_left _
                  (List.mem_append_right _ hsc)), hpc⟩
          · simp at h
        · obtain ⟨hwf, _⟩ := mem_cleanupEvs_elim h
          rw [hW] at hwf
          exact absurd hwf (by simp)
  · rw [afterLoop_some hres]
    refine ⟨?_, ?_, ?_, ?_⟩
    · intro w' hm
      rcases List.mem_append.mp hm with h | h
      · rw [hevC] at h
        exact absurd h (List.not_mem_nil _)
      · exact hLconv w' h
    · intro p hm
      rcases List.mem_append.mp hm with h | h
      · rw [hevC] at h
        exact absurd h (List.not_mem_nil _)
      · exact Or.inl (hLwrite p h)
    · intro hm
      rcases List.mem_append.mp hm with h | h
      · rw [hevC] at h
        exact absurd h (List.not_mem_nil _)
      · exact absurd (hLwrite _ h) (diag_ne_desiredTxt a)
    · intro p hm
      rcases List.mem_append.mp hm with h | h
      · rw [hevC] at h
        exact absurd h (List.not_mem_nil _)
      · obtain ⟨k, snap, cands, hsc, hpc⟩ := hLunlink p h
        exact ⟨k, snap, cands, List.mem_append_right _ hsc, hpc⟩

theorem c9_wav_frame_witness :
    wavForWhisperOf "/d/lec.wav" = "/d/lec.wav" ∧
    (∀ w', Ev.convert w' ∉ (transcribeJob
      (Env.mk true (ConvOutcome.ran 0 none "")
        (fun _ => AttemptOutcome.mk "" "e" 1 []))
      (FS.mk [FileEntry.mk "/d/lec.wav" "M" 0] 9
        (fun _ => false) (fun _ => false) (fun _ => false))
      (Payload.mk (some "/d/lec.wav") none none none false)).2.2) ∧
    (∀ p, Ev.writeFile p ∈ (transcribeJob
      (Env.mk true (ConvOutcome.ran 0 none "")
        (fun _ => AttemptOutcome.mk "" "e" 1 []))
      (FS.mk [FileEntry.mk "/d/lec.wav" "M" 0] 9
        (fun _ => false) (fun _ => false) (fun _ => false))
      (Payload.mk (some "/d/lec.wav") none none none false)).2.2 →
      p = desiredTxtOf "/d/lec.wav" ∨
      p = diagnosticPathOf (desiredTxtOf "/d/lec.wav")) ∧
    (Ev.writeFile (diagnosticPathOf (desiredTxtOf "/d/lec.wav")) ∈
        (transcribeJob
      (Env.mk true (ConvOutcome.ran 0 none "")
        (fun _ => AttemptOutcome.mk "" "e" 1 []))
      (FS.mk [FileEntry.mk "/d/lec.wav" "M" 0] 9
        (fun _ => false) (fun _ => false) (fun _ => false))
      (Payload.mk (some "/d/lec.wav") none none none false)).2.2 →
      (transcribeJob
      (Env.mk true (ConvOutcome.ran 0 none "")
        (fun _ => AttemptOutcome.mk "" "e" 1 []))
      (FS.mk [FileEntry.mk "/d/lec.wav" "M" 0] 9
        (fun _ => false) (fun _ => false) (fun _ => false))
      (Payload.mk (some "/d/lec.wav") none none none false)).1.ok = false) ∧
    (∀ p, Ev.unlink p ∈ (transcribeJob
      (Env.mk true (ConvOutcome.ran 0 none "")
        (fun _ => AttemptOutcome.mk "" "e" 1 []))
      (FS.mk [FileEntry.mk "/d/lec.wav" "M" 0] 9
        (fun _ => false) (fun _ => false) (fun _ => false))
      (Payload.mk (some "/d/lec.wav") none none none false)).2.2 →
      ∃ k snap cands, Ev.heuristicScan k snap cands ∈ (transcribeJob
        (Env.mk true (ConvOutcome.ran 0 none "")
          (fun _ => AttemptOutcome.mk "" "e" 1 []))
        (FS.mk [FileEntry.mk "/d/lec.wav" "M" 0] 9
          (fun _ => false) (fun _ => false) (fun _ => false))
        (Payload.mk (some "/d/lec.wav") none none none false)).2.2 ∧
        p ∈ cands) :=
  c9_wav_frame
    (Env.mk true (ConvOutcome.ran 0 none "")
      (fun _ => AttemptOutcome.mk "" "e" 1 []))
    (FS.mk [FileEntry.mk "/d/lec.wav" "M" 0] 9
      (fun _ => false) (fun _ => false) (fun _ => false))
    (Payload.mk (some "/d/lec.wav") none none none false)
    "/d/lec.wav"
    (FS.mk [FileEntry.mk "/d/lec.wav" "M" 0] 9
      (fun _ => false) (fun _ => false) (fun _ => false))
    []
    rfl (by decide) (by decide) rfl (by decide)

